import Mathlib

/-!
ETT_ModbusRTU.h : a shallow embedding of the Modbus RTU engine

The C++ class `Modbus` of `src/smart_fram/ETT_ModbusRTU.h` is embedded as a record of its
member variables together with the serial stream it talks to.  Every member function becomes a
function on that record.

Conventions of the embedding:

* `uint8_t`, `uint16_t` and `uint32_t` values are natural numbers; every store into such a
  variable that can leave its range is followed by an explicit `% 2^w`.
* `int8_t` results are integers, obtained with `toInt8` (two's complement narrowing).
* `au8Buffer` is a list of `MAX_BUFFER` bytes and a register table is a list of 16-bit words.
  An access outside the extent of either is undefined behaviour in C++; here it ends the
  computation with a `Fault`, so every function returns `Except Fault _`.
* The serial stream is the pending input `rx` and the log `tx` of the byte blocks handed to
  `write`.  `millis()` is the argument `now` of the call that reads the clock.
* The only loop of the source whose exit is not forced by its counter type is the one of
  `process_FC3`; it carries an iteration budget (`fuel`) and ends with `Fault.fuel` when the
  budget is used up.
-/

namespace ETT_ModbusRTU

/-! ## Constants and enumerations -/

/-- `enum { RESPONSE_SIZE = 6, EXCEPTION_SIZE = 3, CHECKSUM_SIZE = 2 }`. -/
abbrev RESPONSE_SIZE : Nat := 6
/-- Size of an exception message without checksum. -/
abbrev EXCEPTION_SIZE : Nat := 3
/-- Size of the checksum. -/
abbrev CHECKSUM_SIZE : Nat := 2

/-- `enum MESSAGE`: indexes to telegram frame positions. -/
abbrev ID : Nat := 0
/-- Function code position. -/
abbrev FUNC : Nat := 1
/-- Address high byte. -/
abbrev ADD_HI : Nat := 2
/-- Address low byte. -/
abbrev ADD_LO : Nat := 3
/-- Number of coils or registers, high byte. -/
abbrev NB_HI : Nat := 4
/-- Number of coils or registers, low byte. -/
abbrev NB_LO : Nat := 5
/-- Byte counter. -/
abbrev BYTE_CNT : Nat := 6

/-- `enum MB_FC`: Modbus function codes. -/
abbrev MB_FC_NONE : Nat := 0
/-- FCT=1, read coils or digital outputs. -/
abbrev MB_FC_READ_COILS : Nat := 1
/-- FCT=2, read digital inputs. -/
abbrev MB_FC_READ_DISCRETE_INPUT : Nat := 2
/-- FCT=3, read registers or analog outputs. -/
abbrev MB_FC_READ_REGISTERS : Nat := 3
/-- FCT=4, read analog inputs. -/
abbrev MB_FC_READ_INPUT_REGISTER : Nat := 4
/-- FCT=5, write single coil or output. -/
abbrev MB_FC_WRITE_COIL : Nat := 5
/-- FCT=6, write single register. -/
abbrev MB_FC_WRITE_REGISTER : Nat := 6
/-- FCT=15, write multiple coils or outputs. -/
abbrev MB_FC_WRITE_MULTIPLE_COILS : Nat := 15
/-- FCT=16, write multiple registers. -/
abbrev MB_FC_WRITE_MULTIPLE_REGISTERS : Nat := 16

/-- `enum COM_STATES`. -/
abbrev COM_IDLE : Nat := 0
/-- Waiting for an answer. -/
abbrev COM_WAITING : Nat := 1

/-- `enum ERR_LIST`. -/
abbrev ERR_NOT_MASTER : Int := -1
/-- Polling error. -/
abbrev ERR_POLLING : Int := -2
/-- Buffer overflow. -/
abbrev ERR_BUFF_OVERFLOW : Int := -3
/-- Bad checksum. -/
abbrev ERR_BAD_CRC : Int := -4
/-- Exception answer. -/
abbrev ERR_EXCEPTION : Int := -5

/-- Time-out / checksum failure marker. -/
abbrev NO_REPLY : Nat := 255
/-- Function code not available. -/
abbrev EXC_FUNC_CODE : Nat := 1
/-- Address beyond available space for Modbus registers. -/
abbrev EXC_ADDR_RANGE : Nat := 2
/-- Coils or registers number beyond the available space. -/
abbrev EXC_REGS_QUANT : Nat := 3
/-- Execution error. -/
abbrev EXC_EXECUTE : Nat := 4

/-- `const unsigned char fctsupported[]`. -/
def fctsupported : List Nat :=
  [MB_FC_READ_COILS, MB_FC_READ_DISCRETE_INPUT, MB_FC_READ_REGISTERS,
   MB_FC_READ_INPUT_REGISTER, MB_FC_WRITE_COIL, MB_FC_WRITE_REGISTER,
   MB_FC_WRITE_MULTIPLE_COILS, MB_FC_WRITE_MULTIPLE_REGISTERS]

/-- `#define T35 5`. -/
abbrev T35 : Nat := 5
/-- `#define MAX_BUFFER 64`: maximum size for the communication buffer in bytes. -/
abbrev MAX_BUFFER : Nat := 64

/-! ## Machine integers and the Arduino helpers -/

/-- Narrowing of a value to `int8_t` (two's complement). -/
def toInt8 (n : Nat) : Int :=
  if n % 256 < 128 then ((n % 256 : Nat) : Int) else ((n % 256 : Nat) : Int) - 256

/-- Conversion of an `int8_t` to `uint8_t`. -/
def toUInt8 (z : Int) : Nat := (z % 256).toNat

/-- Arduino core `word(h, l)`: the 16-bit word with high byte `h` and low byte `l`. -/
def word (h l : Nat) : Nat := (((h % 256) <<< 8) ||| (l % 256)) % 65536

/-- Arduino core `highByte(w)`, i.e. `(uint8_t)((w) >> 8)`. -/
def highByte (w : Nat) : Nat := (w >>> 8) % 256

/-- Arduino core `lowByte(w)`, i.e. `(uint8_t)((w) & 0xff)`. -/
def lowByte (w : Nat) : Nat := (w &&& 0xff) % 256

/-- Arduino core `bitRead(value, bit)`, i.e. `(((value) >> (bit)) & 0x01)`. -/
def bitRead (value bit : Nat) : Nat := (value >>> bit) &&& 0x01

/-- Arduino core `bitWrite(value, bit, bitvalue)` on a variable of `2^w` values:
`bitSet` is `value |= (1UL << bit)` and `bitClear` is `value &= ~(1UL << bit)`; clearing the
bit is written here as XOR with the bit as it stands in `value`. -/
def bitWrite (w : Nat) (value bit : Nat) (bitvalue : Bool) : Nat :=
  if bitvalue then (value ||| (1 <<< bit)) % 2 ^ w
  else (value ^^^ (value &&& (1 <<< bit))) % 2 ^ w

/-- Unsigned 32-bit difference `(unsigned long)(a - b)`. -/
def sub32 (a b : Nat) : Nat :=
  (a % 4294967296 + 4294967296 - b % 4294967296) % 4294967296

/-! ## Memory model -/

/-- Ways in which a run leaves defined behaviour. -/
inductive Fault where
  /-- An access to `au8Buffer` outside indices `0 .. MAX_BUFFER - 1`. -/
  | buffer : Fault
  /-- An access to the register table outside its extent. -/
  | regs : Fault
  /-- The iteration budget of a loop was used up. -/
  | fuel : Fault
deriving DecidableEq, Repr

/-- Read of `au8Buffer[i]`. -/
def rdBuf (buf : List Nat) (i : Nat) : Except Fault Nat :=
  match buf[i]? with
  | some b => pure b
  | none => throw Fault.buffer

/-- Store `au8Buffer[i] = v` (the value is narrowed to a byte). -/
def wrBuf (buf : List Nat) (i : Nat) (v : Nat) : Except Fault (List Nat) :=
  if i < buf.length then pure (buf.set i (v % 256)) else throw Fault.buffer

/-- Read of `regs[i]`. -/
def rdReg (regs : List Nat) (i : Nat) : Except Fault Nat :=
  match regs[i]? with
  | some r => pure r
  | none => throw Fault.regs

/-- Store `regs[i] = v` (the value is narrowed to 16 bits). -/
def wrReg (regs : List Nat) (i : Nat) (v : Nat) : Except Fault (List Nat) :=
  if i < regs.length then pure (regs.set i (v % 65536)) else throw Fault.regs

/-- The serial stream `MODBUS_SERIAL`: bytes waiting to be read, and the blocks written. -/
structure Stream where
  /-- Bytes that `available()` counts and `read()` delivers, oldest first. -/
  rx : List Nat
  /-- One entry per call of `write(buffer, size)`, oldest first. -/
  tx : List (List Nat)
deriving DecidableEq, Repr

/-- The master query structure `modbus_t`. -/
structure modbus_t where
  /-- Slave address between 1 and 247. 0 means broadcast. -/
  u8id : Nat
  /-- Function code: 1, 2, 3, 4, 5, 6, 15 or 16. -/
  u8fct : Nat
  /-- Address of the first register to access at slave/s. -/
  u16RegAdd : Nat
  /-- Number of coils or registers to access. -/
  u16CoilsNo : Nat
  /-- The memory image in the master that `au16reg` points to. -/
  au16reg : List Nat
deriving DecidableEq, Repr

/-- The member variables of `class Modbus`. -/
structure Modbus where
  /-- The stream behind `Stream* MODBUS_SERIAL`. -/
  MODBUS_SERIAL : Stream
  /-- 0=master, 1..247=slave number. -/
  u8id : Nat
  /-- Flow control pin: 0=USB or RS-232 mode, >1=RS-485 mode. -/
  u8txenpin : Nat
  /-- Level last written to the flow control pin with `digitalWrite`. -/
  txen : Bool
  /-- `COM_IDLE` or `COM_WAITING`. -/
  u8state : Nat
  /-- Last error. -/
  u8lastError : Nat
  /-- The frame buffer `uint8_t au8Buffer[MAX_BUFFER]`. -/
  au8Buffer : List Nat
  /-- Number of bytes of the frame in `au8Buffer`. -/
  u8BufferSize : Nat
  /-- Byte count seen by the previous poll. -/
  u8lastRec : Nat
  /-- The table that `uint16_t *au16regs` points to. -/
  au16regs : List Nat
  /-- Incoming messages counter. -/
  u16InCnt : Nat
  /-- Outgoing messages counter. -/
  u16OutCnt : Nat
  /-- Error counter. -/
  u16errCnt : Nat
  /-- Watch-dog time-out in ms. -/
  u16timeOut : Nat
  /-- Time at which the byte count last changed. -/
  u32time : Nat
  /-- Reference time of the watch-dog. -/
  u32timeOut : Nat
  /-- Count-down after a transmission in RS-485 mode. -/
  u32overTime : Nat
  /-- Declared size of the register table. -/
  u8regsize : Nat
  /-- Address of the slave that answered. -/
  u8AnswerID : Nat
deriving DecidableEq, Repr

namespace Modbus

/-! ## Checksum -/

/-- One pass of the inner loop of `calcCRC`:
`flag = temp & 0x0001; temp >>= 1; if (flag) temp ^= 0xA001;`. -/
def calcCRC_bit (temp : Nat) : Nat :=
  let flag := temp &&& 0x0001
  let temp := temp >>> 1
  if flag ≠ 0 then temp ^^^ 0xA001 else temp

/-- The outer loop of `calcCRC`, `n` bytes from index `i` on: `temp = temp ^ au8Buffer[i]`
followed by the eight passes `j = 1 .. 8`. -/
def calcCRC_loop (buf : List Nat) : Nat → Nat → Nat → Except Fault Nat
  | 0, _, temp => pure temp
  | n + 1, i, temp => do
      let b ← rdBuf buf i
      calcCRC_loop buf n (i + 1) (calcCRC_bit^[8] (temp ^^^ b))

/-- `uint16_t Modbus::calcCRC(uint8_t u8length)`. -/
def calcCRC (m : Modbus) (u8length : Nat) : Except Fault Nat := do
  let temp ← calcCRC_loop m.au8Buffer u8length 0 0xFFFF
  -- Reverse byte order.
  let temp2 := temp >>> 8
  let temp := (temp <<< 8) ||| temp2
  pure (temp &&& 0xFFFF)

/-! ## Buffer management -/

/-- The `while(MODBUS_SERIAL->available())` loop of `getRxBuffer`: every pending byte is stored
at `au8Buffer[u8BufferSize]`, `u8BufferSize` is incremented, and `bBuffOverflow` is raised once
`u8BufferSize >= MAX_BUFFER`. -/
def getRxBuffer_loop : List Nat → List Nat → Nat → Bool → Except Fault (List Nat × Nat × Bool)
  | [], buf, size, bBuffOverflow => pure (buf, size, bBuffOverflow)
  | b :: rest, buf, size, bBuffOverflow => do
      let buf ← wrBuf buf size b
      let size := (size + 1) % 256
      getRxBuffer_loop rest buf size (if size ≥ MAX_BUFFER then true else bBuffOverflow)

/-- `int8_t Modbus::getRxBuffer()`: moves the serial data to `au8Buffer`. -/
def getRxBuffer (m : Modbus) : Except Fault (Int × Modbus) := do
  let m := if m.u8txenpin > 1 then { m with txen := false } else m
  let (buf, size, bBuffOverflow) ← getRxBuffer_loop m.MODBUS_SERIAL.rx m.au8Buffer 0 false
  let m := { m with
    MODBUS_SERIAL := { m.MODBUS_SERIAL with rx := [] }
    au8Buffer := buf
    u8BufferSize := size
    u16InCnt := (m.u16InCnt + 1) % 65536 }
  if bBuffOverflow then
    pure (ERR_BUFF_OVERFLOW, { m with u16errCnt := (m.u16errCnt + 1) % 65536 })
  else
    pure (toInt8 m.u8BufferSize, m)

/-- `void Modbus::sendTxBuffer()`: appends the checksum and hands `au8Buffer` to `write`.
In RS-485 mode (`u8txenpin > 1`) the pin is raised and lowered around the transmission and
the pending input is read away; the delays and the `u32overTime` count-down have no effect on
the state. -/
def sendTxBuffer (m : Modbus) (now : Nat) : Except Fault Modbus := do
  -- append CRC to message
  let u16crc ← m.calcCRC m.u8BufferSize
  let buf ← wrBuf m.au8Buffer m.u8BufferSize (u16crc >>> 8)
  let size := (m.u8BufferSize + 1) % 256
  let buf ← wrBuf buf size (u16crc &&& 0x00ff)
  let size := (size + 1) % 256
  let port : Stream := { m.MODBUS_SERIAL with tx := m.MODBUS_SERIAL.tx ++ [buf.take size] }
  let port : Stream := if m.u8txenpin > 1 then { port with rx := [] } else port
  pure { m with
    MODBUS_SERIAL := port
    txen := if m.u8txenpin > 1 then false else m.txen
    au8Buffer := buf
    u8BufferSize := 0
    u32timeOut := now % 4294967296
    u16OutCnt := (m.u16OutCnt + 1) % 65536 }

/-! ## Validation -/

/-- The `for` loop over `fctsupported` shared by `validateRequest` and `validateAnswer`. -/
def isSupported (func : Nat) : Bool :=
  fctsupported.any (fun f => f == func)

/-- `uint8_t Modbus::validateRequest()`: validates slave incoming messages. -/
def validateRequest (m : Modbus) : Except Fault (Nat × Modbus) := do
  -- check message crc vs calculated crc; an index below 0 is outside the buffer
  if m.u8BufferSize < 2 then throw Fault.buffer
  let hi ← rdBuf m.au8Buffer (m.u8BufferSize - 2)
  let lo ← rdBuf m.au8Buffer (m.u8BufferSize - 1)
  let u16MsgCRC := ((hi <<< 8) ||| lo) % 65536
  let crc ← m.calcCRC ((m.u8BufferSize - 2) % 256)
  if crc ≠ u16MsgCRC then
    pure (NO_REPLY, { m with u16errCnt := (m.u16errCnt + 1) % 65536 })
  else
  -- check fct code
  let func ← rdBuf m.au8Buffer FUNC
  if !isSupported func then
    pure (EXC_FUNC_CODE, { m with u16errCnt := (m.u16errCnt + 1) % 65536 })
  else
  -- check start address & nb range
  if func = MB_FC_READ_COILS ∨ func = MB_FC_READ_DISCRETE_INPUT
      ∨ func = MB_FC_WRITE_MULTIPLE_COILS then do
    let u16regs := word (← rdBuf m.au8Buffer ADD_HI) (← rdBuf m.au8Buffer ADD_LO) / 16
    let u16regs :=
      (u16regs + word (← rdBuf m.au8Buffer NB_HI) (← rdBuf m.au8Buffer NB_LO) / 16) % 65536
    let u8regs := u16regs % 256
    if u8regs > m.u8regsize then pure (EXC_ADDR_RANGE, m) else pure (0, m)
  else if func = MB_FC_WRITE_COIL then do
    let u16regs := word (← rdBuf m.au8Buffer ADD_HI) (← rdBuf m.au8Buffer ADD_LO) / 16
    let u8regs := u16regs % 256
    if u8regs > m.u8regsize then pure (EXC_ADDR_RANGE, m) else pure (0, m)
  else if func = MB_FC_WRITE_REGISTER then do
    let u16regs := word (← rdBuf m.au8Buffer ADD_HI) (← rdBuf m.au8Buffer ADD_LO)
    let u8regs := u16regs % 256
    if u8regs > m.u8regsize then pure (EXC_ADDR_RANGE, m) else pure (0, m)
  else if func = MB_FC_READ_REGISTERS ∨ func = MB_FC_READ_INPUT_REGISTER
      ∨ func = MB_FC_WRITE_MULTIPLE_REGISTERS then do
    let u16regs := word (← rdBuf m.au8Buffer ADD_HI) (← rdBuf m.au8Buffer ADD_LO)
    let u16regs :=
      (u16regs + word (← rdBuf m.au8Buffer NB_HI) (← rdBuf m.au8Buffer NB_LO)) % 65536
    let u8regs := u16regs % 256
    if u8regs > m.u8regsize then pure (EXC_ADDR_RANGE, m) else pure (0, m)
  else
    pure (0, m)

/-- `uint8_t Modbus::validateAnswer()`: validates master incoming messages. -/
def validateAnswer (m : Modbus) : Except Fault (Nat × Modbus) := do
  if m.u8BufferSize < 2 then throw Fault.buffer
  let hi ← rdBuf m.au8Buffer (m.u8BufferSize - 2)
  let lo ← rdBuf m.au8Buffer (m.u8BufferSize - 1)
  let u16MsgCRC := ((hi <<< 8) ||| lo) % 65536
  let crc ← m.calcCRC ((m.u8BufferSize - 2) % 256)
  if crc ≠ u16MsgCRC then
    pure (NO_REPLY, { m with u16errCnt := (m.u16errCnt + 1) % 65536 })
  else
  -- check exception
  let func ← rdBuf m.au8Buffer FUNC
  if func &&& 0x80 ≠ 0 then
    pure (toUInt8 ERR_EXCEPTION, { m with u16errCnt := (m.u16errCnt + 1) % 65536 })
  else
  -- check fct code
  if !isSupported func then
    pure (EXC_FUNC_CODE, { m with u16errCnt := (m.u16errCnt + 1) % 65536 })
  else
    pure (0, m)

/-- `void Modbus::buildException(uint8_t u8exception)`. -/
def buildException (m : Modbus) (u8exception : Nat) : Except Fault Modbus := do
  let u8func ← rdBuf m.au8Buffer FUNC
  let buf ← wrBuf m.au8Buffer ID m.u8id
  let buf ← wrBuf buf FUNC (u8func + 0x80)
  let buf ← wrBuf buf 2 u8exception
  pure { m with au8Buffer := buf, u8BufferSize := EXCEPTION_SIZE }

/-! ## Function codec, master side -/

/-- The loop of `get_FC1`, `n` passes from `i` on: byte `i` of the answer goes to the high
(`i` odd) or low (`i` even) byte of `au16regs[i/2]`. -/
def get_FC1_loop (buf : List Nat) : Nat → Nat → List Nat → Except Fault (List Nat)
  | 0, _, regs => pure regs
  | n + 1, i, regs => do
      let regs ←
        if i % 2 ≠ 0 then do
          let b ← rdBuf buf (i + 3)
          let r ← rdReg regs (i / 2)
          wrReg regs (i / 2) (word b (lowByte r))
        else do
          let r ← rdReg regs (i / 2)
          let b ← rdBuf buf (i + 3)
          wrReg regs (i / 2) (word (highByte r) b)
      get_FC1_loop buf n (i + 1) regs

/-- `void Modbus::get_FC1()`: puts the slave answer to functions 1 & 2 into the master table. -/
def get_FC1 (m : Modbus) : Except Fault Modbus := do
  let n ← rdBuf m.au8Buffer 2
  let regs ← get_FC1_loop m.au8Buffer n 0 m.au16regs
  pure { m with au16regs := regs }

/-- The loop of `get_FC3`, `n` passes from `i` on, `u8byte` being the read position. -/
def get_FC3_loop (buf : List Nat) : Nat → Nat → Nat → List Nat → Except Fault (List Nat)
  | 0, _, _, regs => pure regs
  | n + 1, i, u8byte, regs => do
      let h ← rdBuf buf u8byte
      let l ← rdBuf buf (u8byte + 1)
      let regs ← wrReg regs i (word h l)
      get_FC3_loop buf n (i + 1) ((u8byte + 2) % 256) regs

/-- `void Modbus::get_FC3()`: puts the slave answer to functions 3 & 4 into the master table. -/
def get_FC3 (m : Modbus) : Except Fault Modbus := do
  let n ← rdBuf m.au8Buffer 2
  let regs ← get_FC3_loop m.au8Buffer (n / 2) 0 3 m.au16regs
  pure { m with au16regs := regs }

/-! ## Function codec, slave side -/

/-- The coil loop of `process_FC1`, `n` coils from number `u16currentCoil` on; the state is
the buffer, `u8BufferSize` and `u8bitsno`. -/
def process_FC1_loop (regs : List Nat) (u16StartCoil : Nat) :
    Nat → Nat → List Nat → Nat → Nat → Except Fault (List Nat × Nat)
  | 0, _, buf, size, _ => pure (buf, size)
  | n + 1, u16currentCoil, buf, size, u8bitsno => do
      let u16coil := (u16StartCoil + u16currentCoil) % 65536
      let u8currentRegister := (u16coil / 16) % 256
      let u8currentBit := (u16coil % 16) % 256
      let r ← rdReg regs u8currentRegister
      let b ← rdBuf buf size
      let buf ← wrBuf buf size (bitWrite 8 b u8bitsno (bitRead r u8currentBit ≠ 0))
      let u8bitsno := (u8bitsno + 1) % 256
      if u8bitsno > 7 then
        process_FC1_loop regs u16StartCoil n (u16currentCoil + 1) buf ((size + 1) % 256) 0
      else
        process_FC1_loop regs u16StartCoil n (u16currentCoil + 1) buf size u8bitsno

/-- `int8_t Modbus::process_FC1(uint16_t *regs, uint8_t u8size)`: functions 1 & 2. -/
def process_FC1 (m : Modbus) (now : Nat) : Except Fault (Int × Modbus) := do
  -- get the first and last coil from the message
  let u16StartCoil := word (← rdBuf m.au8Buffer ADD_HI) (← rdBuf m.au8Buffer ADD_LO)
  let u16Coilno := word (← rdBuf m.au8Buffer NB_HI) (← rdBuf m.au8Buffer NB_LO)
  -- put the number of bytes in the outcoming message
  let u8bytesno := (u16Coilno / 8) % 256
  let u8bytesno := if u16Coilno % 8 ≠ 0 then (u8bytesno + 1) % 256 else u8bytesno
  let buf ← wrBuf m.au8Buffer ADD_HI u8bytesno
  let size := ADD_LO
  -- `u8BufferSize + u8bytesno - 1` is `2 + u8bytesno`
  let buf ← wrBuf buf (2 + u8bytesno) 0
  let (buf, size) ← process_FC1_loop m.au16regs u16StartCoil u16Coilno 0 buf size 0
  -- send outcoming message
  let size := if u16Coilno % 8 ≠ 0 then (size + 1) % 256 else size
  let u8CopyBufferSize := (size + 2) % 256
  let m ← sendTxBuffer { m with au8Buffer := buf, u8BufferSize := size } now
  pure (toInt8 u8CopyBufferSize, m)

/-- The loop `for (i = u8StartAdd; i < u8StartAdd + u8regsno; i++)` of `process_FC3`; `last`
is `u8StartAdd + u8regsno` (an `int`), `i` is a `uint8_t`. -/
def process_FC3_loop (regs : List Nat) (last : Nat) :
    Nat → Nat → List Nat → Nat → Except Fault (List Nat × Nat)
  | 0, i, buf, size => if i < last then throw Fault.fuel else pure (buf, size)
  | fuel + 1, i, buf, size =>
      if i < last then do
        let buf ← wrBuf buf size (highByte (← rdReg regs i))
        let size := (size + 1) % 256
        let buf ← wrBuf buf size (lowByte (← rdReg regs i))
        let size := (size + 1) % 256
        process_FC3_loop regs last fuel ((i + 1) % 256) buf size
      else pure (buf, size)

/-- `int8_t Modbus::process_FC3(uint16_t *regs, uint8_t u8size)`: functions 3 & 4. -/
def process_FC3 (m : Modbus) (now : Nat) (fuel : Nat) : Except Fault (Int × Modbus) := do
  let u8StartAdd := word (← rdBuf m.au8Buffer ADD_HI) (← rdBuf m.au8Buffer ADD_LO) % 256
  let u8regsno := word (← rdBuf m.au8Buffer NB_HI) (← rdBuf m.au8Buffer NB_LO) % 256
  let buf ← wrBuf m.au8Buffer 2 (u8regsno * 2)
  let (buf, size) ← process_FC3_loop m.au16regs (u8StartAdd + u8regsno) fuel u8StartAdd buf 3
  let u8CopyBufferSize := (size + 2) % 256
  let m ← sendTxBuffer { m with au8Buffer := buf, u8BufferSize := size } now
  pure (toInt8 u8CopyBufferSize, m)

/-- `int8_t Modbus::process_FC5(uint16_t *regs, uint8_t u8size)`: function 5. -/
def process_FC5 (m : Modbus) (now : Nat) : Except Fault (Int × Modbus) := do
  let u16coil := word (← rdBuf m.au8Buffer ADD_HI) (← rdBuf m.au8Buffer ADD_LO)
  -- point to the register and its bit
  let u8currentRegister := (u16coil / 16) % 256
  let u8currentBit := (u16coil % 16) % 256
  -- write to coil
  let v ← rdBuf m.au8Buffer NB_HI
  let r ← rdReg m.au16regs u8currentRegister
  let regs ← wrReg m.au16regs u8currentRegister (bitWrite 16 r u8currentBit (v = 0xff))
  -- send answer to master
  let size := 6
  let u8CopyBufferSize := (size + 2) % 256
  let m ← sendTxBuffer { m with au16regs := regs, u8BufferSize := size } now
  pure (toInt8 u8CopyBufferSize, m)

/-- `int8_t Modbus::process_FC6(uint16_t *regs, uint8_t u8size)`: function 6. -/
def process_FC6 (m : Modbus) (now : Nat) : Except Fault (Int × Modbus) := do
  let u8add := word (← rdBuf m.au8Buffer ADD_HI) (← rdBuf m.au8Buffer ADD_LO) % 256
  let u16val := word (← rdBuf m.au8Buffer NB_HI) (← rdBuf m.au8Buffer NB_LO)
  let regs ← wrReg m.au16regs u8add u16val
  -- keep the same header
  let size := RESPONSE_SIZE
  let u8CopyBufferSize := (size + 2) % 256
  let m ← sendTxBuffer { m with au16regs := regs, u8BufferSize := size } now
  pure (toInt8 u8CopyBufferSize, m)

/-- The coil loop of `process_FC15`, `n` coils from number `u16currentCoil` on; the state is
the table, `u8frameByte` and `u8bitsno`. -/
def process_FC15_loop (buf : List Nat) (u16StartCoil : Nat) :
    Nat → Nat → List Nat → Nat → Nat → Except Fault (List Nat)
  | 0, _, regs, _, _ => pure regs
  | n + 1, u16currentCoil, regs, u8frameByte, u8bitsno => do
      let u16coil := (u16StartCoil + u16currentCoil) % 65536
      let u8currentRegister := (u16coil / 16) % 256
      let u8currentBit := (u16coil % 16) % 256
      let bTemp := bitRead (← rdBuf buf u8frameByte) u8bitsno ≠ 0
      let r ← rdReg regs u8currentRegister
      let regs ← wrReg regs u8currentRegister (bitWrite 16 r u8currentBit bTemp)
      let u8bitsno := (u8bitsno + 1) % 256
      if u8bitsno > 7 then
        process_FC15_loop buf u16StartCoil n (u16currentCoil + 1) regs ((u8frameByte + 1) % 256) 0
      else
        process_FC15_loop buf u16StartCoil n (u16currentCoil + 1) regs u8frameByte u8bitsno

/-- `int8_t Modbus::process_FC15(uint16_t *regs, uint8_t u8size)`: function 15. -/
def process_FC15 (m : Modbus) (now : Nat) : Except Fault (Int × Modbus) := do
  let u16StartCoil := word (← rdBuf m.au8Buffer ADD_HI) (← rdBuf m.au8Buffer ADD_LO)
  let u16Coilno := word (← rdBuf m.au8Buffer NB_HI) (← rdBuf m.au8Buffer NB_LO)
  let regs ← process_FC15_loop m.au8Buffer u16StartCoil u16Coilno 0 m.au16regs 7 0
  -- it's just a copy of the incoming frame until 6th byte
  let size := 6
  let u8CopyBufferSize := (size + 2) % 256
  let m ← sendTxBuffer { m with au16regs := regs, u8BufferSize := size } now
  pure (toInt8 u8CopyBufferSize, m)

/-- The loop of `process_FC16`, `n` registers from `i` on. -/
def process_FC16_loop (buf : List Nat) (u8StartAdd : Nat) :
    Nat → Nat → List Nat → Except Fault (List Nat)
  | 0, _, regs => pure regs
  | n + 1, i, regs => do
      let temp := word (← rdBuf buf ((BYTE_CNT + 1) + i * 2)) (← rdBuf buf ((BYTE_CNT + 2) + i * 2))
      let regs ← wrReg regs (u8StartAdd + i) temp
      process_FC16_loop buf u8StartAdd n (i + 1) regs

/-- `int8_t Modbus::process_FC16(uint16_t *regs, uint8_t u8size)`: function 16. -/
def process_FC16 (m : Modbus) (now : Nat) : Except Fault (Int × Modbus) := do
  let u8StartAdd :=
    (((← rdBuf m.au8Buffer ADD_HI) <<< 8) ||| (← rdBuf m.au8Buffer ADD_LO)) % 256
  let u8regsno :=
    (((← rdBuf m.au8Buffer NB_HI) <<< 8) ||| (← rdBuf m.au8Buffer NB_LO)) % 256
  -- build header
  let buf ← wrBuf m.au8Buffer NB_HI 0
  let buf ← wrBuf buf NB_LO u8regsno
  let size := RESPONSE_SIZE
  -- write registers
  let regs ← process_FC16_loop buf u8StartAdd u8regsno 0 m.au16regs
  let u8CopyBufferSize := (size + 2) % 256
  let m ← sendTxBuffer { m with au8Buffer := buf, au16regs := regs, u8BufferSize := size } now
  pure (toInt8 u8CopyBufferSize, m)

/-! ## Master engine -/

/-- The loop of `query` for `MB_FC_WRITE_MULTIPLE_COILS`, `n` bytes from `i` on. -/
def query_FC15_loop (regs : List Nat) : Nat → Nat → List Nat → Nat → Except Fault (List Nat × Nat)
  | 0, _, buf, size => pure (buf, size)
  | n + 1, i, buf, size => do
      let r ← rdReg regs (i / 2)
      let buf ← wrBuf buf size (if i % 2 ≠ 0 then lowByte r else highByte r)
      query_FC15_loop regs n (i + 1) buf ((size + 1) % 256)

/-- The loop of `query` for `MB_FC_WRITE_MULTIPLE_REGISTERS`, `n` registers from `i` on. -/
def query_FC16_loop (regs : List Nat) : Nat → Nat → List Nat → Nat → Except Fault (List Nat × Nat)
  | 0, _, buf, size => pure (buf, size)
  | n + 1, i, buf, size => do
      let buf ← wrBuf buf size (highByte (← rdReg regs i))
      let size := (size + 1) % 256
      let buf ← wrBuf buf size (lowByte (← rdReg regs i))
      let size := (size + 1) % 256
      query_FC16_loop regs n (i + 1) buf size

/-- `int8_t Modbus::query(modbus_t telegram)`. -/
def query (m : Modbus) (telegram : modbus_t) (now : Nat) : Except Fault (Int × Modbus) := do
  if m.u8id ≠ 0 then pure (-2, m)
  else if m.u8state ≠ COM_IDLE then pure (-1, m)
  else if telegram.u8id = 0 ∨ telegram.u8id > 247 then pure (-3, m)
  else
  let m := { m with au16regs := telegram.au16reg }
  -- telegram header
  let buf ← wrBuf m.au8Buffer ID telegram.u8id
  let buf ← wrBuf buf FUNC telegram.u8fct
  let buf ← wrBuf buf ADD_HI (highByte telegram.u16RegAdd)
  let buf ← wrBuf buf ADD_LO (lowByte telegram.u16RegAdd)
  let (buf, size) ←
    if telegram.u8fct = MB_FC_READ_COILS ∨ telegram.u8fct = MB_FC_READ_DISCRETE_INPUT
        ∨ telegram.u8fct = MB_FC_READ_REGISTERS
        ∨ telegram.u8fct = MB_FC_READ_INPUT_REGISTER then do
      let buf ← wrBuf buf NB_HI (highByte telegram.u16CoilsNo)
      let buf ← wrBuf buf NB_LO (lowByte telegram.u16CoilsNo)
      pure (buf, 6)
    else if telegram.u8fct = MB_FC_WRITE_COIL then do
      let buf ← wrBuf buf NB_HI (if (← rdReg m.au16regs 0) > 0 then 0xff else 0)
      let buf ← wrBuf buf NB_LO 0
      pure (buf, 6)
    else if telegram.u8fct = MB_FC_WRITE_REGISTER then do
      let buf ← wrBuf buf NB_HI (highByte (← rdReg m.au16regs 0))
      let buf ← wrBuf buf NB_LO (lowByte (← rdReg m.au16regs 0))
      pure (buf, 6)
    else if telegram.u8fct = MB_FC_WRITE_MULTIPLE_COILS then do
      let u8regsno := (telegram.u16CoilsNo / 16) % 256
      let u8bytesno := (u8regsno * 2) % 256
      let u8bytesno := if telegram.u16CoilsNo % 16 ≠ 0 then (u8bytesno + 1) % 256 else u8bytesno
      let buf ← wrBuf buf NB_HI (highByte telegram.u16CoilsNo)
      let buf ← wrBuf buf NB_LO (lowByte telegram.u16CoilsNo)
      let buf ← wrBuf buf BYTE_CNT u8bytesno
      query_FC15_loop m.au16regs u8bytesno 0 buf 7
    else if telegram.u8fct = MB_FC_WRITE_MULTIPLE_REGISTERS then do
      let buf ← wrBuf buf NB_HI (highByte telegram.u16CoilsNo)
      let buf ← wrBuf buf NB_LO (lowByte telegram.u16CoilsNo)
      let buf ← wrBuf buf BYTE_CNT (telegram.u16CoilsNo * 2)
      query_FC16_loop m.au16regs (telegram.u16CoilsNo % 65536) 0 buf 7
    else
      pure (buf, m.u8BufferSize)
  let m ← sendTxBuffer { m with au8Buffer := buf, u8BufferSize := size } now
  pure (0, { m with u8state := COM_WAITING, u8lastError := 0 })

/-- `int8_t Modbus::poll()`: the cyclic poll of the master. -/
def poll (m : Modbus) (now : Nat) : Except Fault (Int × Modbus) := do
  let m := { m with u8AnswerID := 0 }
  let u8current := m.MODBUS_SERIAL.rx.length % 256
  if sub32 now m.u32timeOut > m.u16timeOut then
    pure (0, { m with
      u8state := COM_IDLE, u8lastError := NO_REPLY, u16errCnt := (m.u16errCnt + 1) % 65536 })
  else if u8current = 0 then pure (0, m)
  -- check T35 after frame end or still no frame end
  else if u8current ≠ m.u8lastRec then
    pure (0, { m with u8lastRec := u8current, u32time := now % 4294967296 })
  else if sub32 now m.u32time < T35 then pure (0, m)
  else
  -- transfer Serial buffer frame to auBuffer
  let (i8state, m) ← getRxBuffer { m with u8lastRec := 0 }
  if i8state < 6 then
    pure (i8state, { m with u8state := COM_IDLE, u16errCnt := (m.u16errCnt + 1) % 65536 })
  else
  -- validate message: id, CRC, FCT, exception
  let (u8exception, m) ← validateAnswer m
  if u8exception ≠ 0 then
    pure (toInt8 u8exception, { m with u8state := COM_IDLE })
  else
  let m := { m with u8AnswerID := (← rdBuf m.au8Buffer ID) }
  -- process answer
  let func ← rdBuf m.au8Buffer FUNC
  let m ←
    if func = MB_FC_READ_COILS ∨ func = MB_FC_READ_DISCRETE_INPUT then get_FC1 m
    else if func = MB_FC_READ_INPUT_REGISTER ∨ func = MB_FC_READ_REGISTERS then get_FC3 m
    else pure m
  pure (toInt8 m.u8BufferSize, { m with u8state := COM_IDLE })

/-! ## Slave engine -/

/-- `int8_t Modbus::poll(uint16_t *regs, uint8_t u8size)`: the cyclic poll of the slave.
`regs` is the table behind the pointer; the table after the call is `au16regs` of the
resulting state. -/
def poll_regs (m : Modbus) (regs : List Nat) (u8size : Nat) (now : Nat) (fuel : Nat) :
    Except Fault (Int × Modbus) := do
  let m := { m with au16regs := regs, u8regsize := u8size % 256 }
  let u8current := m.MODBUS_SERIAL.rx.length % 256
  if u8current = 0 then pure (0, m)
  -- check T35 after frame end or still no frame end
  else if u8current ≠ m.u8lastRec then
    pure (0, { m with u8lastRec := u8current, u32time := now % 4294967296 })
  else if sub32 now m.u32time < T35 then pure (0, m)
  else
  let (i8state, m) ← getRxBuffer { m with u8lastRec := 0 }
  let m := { m with u8lastError := toUInt8 i8state }
  if i8state < 7 then pure (i8state, m)
  else
  -- check slave id
  if (← rdBuf m.au8Buffer ID) ≠ m.u8id then pure (0, m)
  else
  -- validate message: CRC, FCT, address and size
  let (u8exception, m) ← validateRequest m
  if u8exception > 0 then
    let m ←
      if u8exception ≠ NO_REPLY then do
        let m ← buildException m u8exception
        sendTxBuffer m now
      else pure m
    pure (toInt8 u8exception, { m with u8lastError := u8exception })
  else
  let m := { m with u32timeOut := now % 4294967296, u8lastError := 0 }
  -- process message
  let func ← rdBuf m.au8Buffer FUNC
  if func = MB_FC_READ_COILS ∨ func = MB_FC_READ_DISCRETE_INPUT then process_FC1 m now
  else if func = MB_FC_READ_INPUT_REGISTER ∨ func = MB_FC_READ_REGISTERS then
    process_FC3 m now fuel
  else if func = MB_FC_WRITE_COIL then process_FC5 m now
  else if func = MB_FC_WRITE_REGISTER then process_FC6 m now
  else if func = MB_FC_WRITE_MULTIPLE_COILS then process_FC15 m now
  else if func = MB_FC_WRITE_MULTIPLE_REGISTERS then process_FC16 m now
  else pure (i8state, m)

end Modbus

/-! ## The checksum as the specification words it -/

/-- One bit of the standard Modbus CRC-16: shift right, and XOR the reflected polynomial
`0xA001` in when the bit shifted out was set. -/
def crc16_shift (c : Nat) : Nat :=
  if c % 2 = 1 then (c / 2) ^^^ 0xA001 else c / 2

/-- Standard Modbus CRC-16 of a byte sequence: initial value `0xFFFF`, each byte XORed into
the accumulator and followed by 8 shift/XOR steps, no final XOR. -/
def crc16 (bytes : List Nat) : Nat :=
  bytes.foldl (fun c b => crc16_shift^[8] (c ^^^ b)) 0xFFFF

/-- A frame as it goes on the wire: the payload followed by the checksum, low byte first. -/
def frameOf (payload : List Nat) : List Nat :=
  payload ++ [crc16 payload % 256, crc16 payload / 256]

/-- The last two bytes of the frame are the checksum of the bytes before them. -/
def validFrame (f : List Nat) : Prop :=
  2 ≤ f.length ∧ f = frameOf (f.take (f.length - 2))

instance (f : List Nat) : Decidable (validFrame f) := by
  unfold validFrame; infer_instance

/-- The frame with bit `j` of byte `k` inverted. -/
def flipBit (f : List Nat) (k j : Nat) : List Nat :=
  f.set k (f.getD k 0 ^^^ (1 <<< j))

/-! ## Well-formed states and scenario glue -/

/-- The frame buffer has its declared extent and holds bytes. -/
def bufferOK (buf : List Nat) : Prop := buf.length = MAX_BUFFER ∧ ∀ b ∈ buf, b < 256

instance (buf : List Nat) : Decidable (bufferOK buf) := by
  unfold bufferOK; infer_instance

/-- Every entry of the register table is a 16-bit word. -/
def regsOK (regs : List Nat) : Prop := ∀ r ∈ regs, r < 65536

instance (regs : List Nat) : Decidable (regsOK regs) := by
  unfold regsOK; infer_instance

/-- The node when the whole frame `f` is pending on its stream and an earlier poll, at time
`t`, has recorded that byte count in `u8lastRec` and restarted the silence timer `u32time`. -/
def received (m : Modbus) (f : List Nat) (t : Nat) : Modbus :=
  { m with
    MODBUS_SERIAL := { m.MODBUS_SERIAL with rx := f }
    u8lastRec := f.length % 256
    u32time := t % 4294967296 }

/-- The byte block of the most recent `write`, empty if nothing was written. -/
def lastTx (m : Modbus) : List Nat := m.MODBUS_SERIAL.tx.getLast?.getD []

/-- A node with cleared counters, an all-zero frame buffer, and `frame` copied to its start;
`id` is its address (0 for a master). -/
def exampleNode (id : Nat) (frame : List Nat) : Modbus :=
  { MODBUS_SERIAL := { rx := [], tx := [] }
    u8id := id, u8txenpin := 0, txen := false, u8state := COM_IDLE, u8lastError := 0
    au8Buffer := frame ++ List.replicate (MAX_BUFFER - frame.length) 0
    u8BufferSize := frame.length
    u8lastRec := 0, au16regs := [], u16InCnt := 0, u16OutCnt := 0, u16errCnt := 0
    u16timeOut := 1000, u32time := 0, u32timeOut := 0, u32overTime := 0, u8regsize := 0
    u8AnswerID := 0 }

/-- The silence rule has released the pending input: the byte count is non-zero, equals the
count recorded by the previous poll, and at least `T35` ms have passed since it was recorded. -/
def frameReady (m : Modbus) (now : Nat) : Prop :=
  m.MODBUS_SERIAL.rx.length % 256 ≠ 0
    ∧ m.MODBUS_SERIAL.rx.length % 256 = m.u8lastRec
    ∧ T35 ≤ sub32 now m.u32time

instance (m : Modbus) (now : Nat) : Decidable (frameReady m now) := by
  unfold frameReady; infer_instance

/-- The statements of `poll(regs, u8size)` that follow the call of `getRxBuffer`, as a function
of the state and the value `i8state` that call returned (`Modbus.poll_regs` continues with
exactly these statements, see `poll_regs_eq_frame`). -/
def Modbus.poll_regs_frame (m : Modbus) (i8state : Int) (now : Nat) (fuel : Nat) :
    Except Fault (Int × Modbus) := do
  let m := { m with u8lastError := toUInt8 i8state }
  if i8state < 7 then pure (i8state, m)
  else
  if (← rdBuf m.au8Buffer ID) ≠ m.u8id then pure (0, m)
  else
  let (u8exception, m) ← m.validateRequest
  if u8exception > 0 then
    let m ←
      if u8exception ≠ NO_REPLY then do
        let m ← m.buildException u8exception
        m.sendTxBuffer now
      else pure m
    pure (toInt8 u8exception, { m with u8lastError := u8exception })
  else
  let m := { m with u32timeOut := now % 4294967296, u8lastError := 0 }
  let func ← rdBuf m.au8Buffer FUNC
  if func = MB_FC_READ_COILS ∨ func = MB_FC_READ_DISCRETE_INPUT then m.process_FC1 now
  else if func = MB_FC_READ_INPUT_REGISTER ∨ func = MB_FC_READ_REGISTERS then
    m.process_FC3 now fuel
  else if func = MB_FC_WRITE_COIL then m.process_FC5 now
  else if func = MB_FC_WRITE_REGISTER then m.process_FC6 now
  else if func = MB_FC_WRITE_MULTIPLE_COILS then m.process_FC15 now
  else if func = MB_FC_WRITE_MULTIPLE_REGISTERS then m.process_FC16 now
  else pure (i8state, m)

/-- The statements of `poll()` that follow the call of `getRxBuffer`, as a function of the
state and the value `i8state` that call returned (`Modbus.poll` continues with exactly these
statements, see `poll_eq_frame`). -/
def Modbus.poll_frame (m : Modbus) (i8state : Int) : Except Fault (Int × Modbus) := do
  if i8state < 6 then
    pure (i8state, { m with u8state := COM_IDLE, u16errCnt := (m.u16errCnt + 1) % 65536 })
  else
  let (u8exception, m) ← m.validateAnswer
  if u8exception ≠ 0 then
    pure (toInt8 u8exception, { m with u8state := COM_IDLE })
  else
  let m := { m with u8AnswerID := (← rdBuf m.au8Buffer ID) }
  let func ← rdBuf m.au8Buffer FUNC
  let m ←
    if func = MB_FC_READ_COILS ∨ func = MB_FC_READ_DISCRETE_INPUT then m.get_FC1
    else if func = MB_FC_READ_INPUT_REGISTER ∨ func = MB_FC_READ_REGISTERS then m.get_FC3
    else pure m
  pure (toInt8 m.u8BufferSize, { m with u8state := COM_IDLE })

/-- Registers as they travel in a frame: two bytes each, high byte first. -/
def bigEndian (regs : List Nat) : List Nat :=
  regs.flatMap (fun r => [r / 256 % 256, r % 256])

/-- The node after `getRxBuffer` has moved the pending frame `f` to the start of `au8Buffer`
(see `getRxBuffer_eq`), with `u8lastRec` cleared as both polls do before that call. -/
def afterRx (m : Modbus) (f : List Nat) : Modbus :=
  { m with
    MODBUS_SERIAL := { m.MODBUS_SERIAL with rx := [] }
    txen := if m.u8txenpin > 1 then false else m.txen
    au8Buffer := f ++ m.au8Buffer.drop f.length
    u8BufferSize := f.length
    u8lastRec := 0
    u16InCnt := (m.u16InCnt + 1) % 65536 }

/-- The first two assignments of `poll(regs, u8size)`: `au16regs = regs; u8regsize = u8size`. -/
def withTable (m : Modbus) (regs : List Nat) (u8size : Nat) : Modbus :=
  { m with au16regs := regs, u8regsize := u8size % 256 }

/-- The first assignment of `poll()`: `u8AnswerID = 0`. -/
def withAnswerCleared (m : Modbus) : Modbus :=
  { m with u8AnswerID := 0 }

/-- Bytes arriving on the transport: they are appended to the pending input. -/
def arrive (m : Modbus) (bytes : List Nat) : Modbus :=
  { m with MODBUS_SERIAL := { m.MODBUS_SERIAL with rx := m.MODBUS_SERIAL.rx ++ bytes } }

/-! # Theorems -/

open Modbus

/-! ## Checksum -/

theorem calcCRC_bit_eq (c : Nat) : calcCRC_bit c = crc16_shift c := by
  unfold calcCRC_bit crc16_shift
  simp only [Nat.and_one_is_mod, Nat.shiftRight_eq_div_pow, Nat.pow_one]
  rcases Nat.mod_two_eq_zero_or_one c with h | h <;> simp [h]

theorem calcCRC_bit_iter_eq (k c : Nat) : calcCRC_bit^[k] c = crc16_shift^[k] c := by
  have : calcCRC_bit = crc16_shift := funext calcCRC_bit_eq
  rw [this]

theorem rdBuf_ok {buf : List Nat} {i : Nat} (h : i < buf.length) :
    rdBuf buf i = .ok buf[i] := by
  simp [rdBuf, List.getElem?_eq_getElem h, pure, Except.pure]

theorem calcCRC_loop_eq (buf : List Nat) :
    ∀ (n i temp : Nat), i + n ≤ buf.length →
      calcCRC_loop buf n i temp
        = .ok (((buf.drop i).take n).foldl (fun c b => crc16_shift^[8] (c ^^^ b)) temp) := by
  intro n
  induction n with
  | zero => intro i temp _; simp [calcCRC_loop, pure, Except.pure]
  | succ n ih =>
    intro i temp h
    have hi : i < buf.length := by omega
    rw [calcCRC_loop, rdBuf_ok hi]
    simp only [bind, Except.bind]
    rw [ih (i + 1) _ (by omega), calcCRC_bit_iter_eq]
    rw [List.drop_eq_getElem_cons hi]
    simp only [List.take_succ_cons, List.foldl_cons]

theorem crc16_shift_lt {c : Nat} (h : c < 65536) : crc16_shift c < 65536 := by
  unfold crc16_shift
  have h2 : c / 2 < 2 ^ 16 := by omega
  split
  · exact Nat.xor_lt_two_pow h2 (by norm_num)
  · omega

theorem crc16_shift_iter_lt (k : Nat) {c : Nat} (h : c < 65536) : crc16_shift^[k] c < 65536 := by
  induction k generalizing c with
  | zero => simpa using h
  | succ k ih => rw [Function.iterate_succ_apply]; exact ih (crc16_shift_lt h)

theorem crc16_fold_lt (bytes : List Nat) (hb : ∀ b ∈ bytes, b < 256) :
    ∀ c, c < 65536 → bytes.foldl (fun c b => crc16_shift^[8] (c ^^^ b)) c < 65536 := by
  induction bytes with
  | nil => intro c h; simpa using h
  | cons b bs ih =>
    intro c h
    simp only [List.foldl_cons]
    apply ih (fun x hx => hb x (List.mem_cons_of_mem _ hx))
    apply crc16_shift_iter_lt
    have h1 : c < 2 ^ 16 := h
    have h2 : b < 2 ^ 16 := by have := hb b (List.mem_cons_self _ _); omega
    exact Nat.xor_lt_two_pow h1 h2

theorem crc16_lt (bytes : List Nat) (hb : ∀ b ∈ bytes, b < 256) : crc16 bytes < 65536 :=
  crc16_fold_lt bytes hb _ (by norm_num)

/-- The byte swap at the end of `calcCRC`, on a 16-bit value. -/
theorem swap_eq {c : Nat} (h : c < 65536) :
    ((c <<< 8) ||| (c >>> 8)) &&& 0xFFFF = ((c &&& 0xFF) <<< 8) ||| (c >>> 8) := by
  apply Nat.eq_of_testBit_eq
  intro i
  have e1 : (0xFFFF : Nat) = 2 ^ 16 - 1 := by norm_num
  have e2 : (0xFF : Nat) = 2 ^ 8 - 1 := by norm_num
  rw [e1, e2]
  simp only [Nat.testBit_and, Nat.testBit_or, Nat.testBit_shiftLeft, Nat.testBit_shiftRight,
    Nat.testBit_two_pow_sub_one]
  by_cases h16 : i < 16
  · by_cases h8 : 8 ≤ i
    · have : i - 8 < 8 := by omega
      simp [h16, h8, this]
    · simp [h16, h8]
  · have hz : c.testBit (8 + i) = false :=
      Nat.testBit_lt_two_pow (Nat.lt_of_lt_of_le (show c < 2 ^ 16 from h)
        (Nat.pow_le_pow_right (by norm_num) (show 16 ≤ 8 + i by omega)))
    have h8 : 8 ≤ i := by omega
    have : ¬ (i - 8 < 8) := by omega
    simp [h16, h8, this, hz]

theorem swap_arith {c : Nat} (h : c < 65536) :
    ((c &&& 0xFF) <<< 8) ||| (c >>> 8) = (c % 256) * 256 + c / 256 := by
  have e2 : (0xFF : Nat) = 2 ^ 8 - 1 := by norm_num
  rw [e2, Nat.and_pow_two_sub_one_eq_mod, Nat.shiftLeft_eq, Nat.shiftRight_eq_div_pow]
  have hlt : c / 2 ^ 8 < 2 ^ 8 := by omega
  have key := Nat.mul_add_lt_is_or hlt (c % 2 ^ 8)
  rw [Nat.mul_comm, ← key]
  omega

theorem calcCRC_eq (m : Modbus) (n : Nat) (hn : n ≤ m.au8Buffer.length) :
    m.calcCRC n = .ok ((((m.au8Buffer.take n).foldl (fun c b => crc16_shift^[8] (c ^^^ b)) 0xFFFF <<< 8)
      ||| ((m.au8Buffer.take n).foldl (fun c b => crc16_shift^[8] (c ^^^ b)) 0xFFFF >>> 8)) &&& 0xFFFF) := by
  unfold calcCRC
  rw [calcCRC_loop_eq _ _ _ _ (by omega)]
  simp [bind, Except.bind, pure, Except.pure]

set_option maxRecDepth 20000 in
theorem crc16_reference : crc16 [0x01, 0x03, 0x00, 0x00, 0x00, 0x01] = 0x0A84 := by
  decide

/-- C1: for every buffer content and every length `n` with `0 ≤ n ≤ 64`, `calcCRC n` returns
the byte-swapped standard Modbus CRC-16 of `au8Buffer[0..n)`, i.e. `((c & 0xFF) << 8) | (c >> 8)`
for the CRC `c` of initial value `0xFFFF`, reflected polynomial `0xA001`, 8 shift/XOR steps per
byte and no final XOR; and on the reference frame `01 03 00 00 00 01` the result is `0x840A`. -/
theorem calcCRC_swapped_crc16 (m : Modbus) (n : Nat)
    (hbuf : bufferOK m.au8Buffer) (hn : n ≤ 64) :
    m.calcCRC n
        = .ok (((crc16 (m.au8Buffer.take n) &&& 0xFF) <<< 8) ||| (crc16 (m.au8Buffer.take n) >>> 8))
      ∧ (m.au8Buffer.take 6 = [0x01, 0x03, 0x00, 0x00, 0x00, 0x01] → m.calcCRC 6 = .ok 0x840A) := by
  have hlen : m.au8Buffer.length = 64 := hbuf.1
  have key : ∀ k, k ≤ 64 → m.calcCRC k
      = .ok (((crc16 (m.au8Buffer.take k) &&& 0xFF) <<< 8) ||| (crc16 (m.au8Buffer.take k) >>> 8)) := by
    intro k hk
    rw [calcCRC_eq m k (by omega)]
    have hb : ∀ b ∈ m.au8Buffer.take k, b < 256 := fun b hb => hbuf.2 b (List.mem_of_mem_take hb)
    have := swap_eq (crc16_lt _ hb)
    unfold crc16 at this ⊢
    rw [this]
  refine ⟨key n hn, fun h6 => ?_⟩
  rw [key 6 (by norm_num), h6, crc16_reference]
  rfl

/-- C1 at the reference frame: the buffer starts with `01 03 00 00 00 01`. -/
theorem calcCRC_swapped_crc16_witness :
    bufferOK (exampleNode 0 [0x01, 0x03, 0x00, 0x00, 0x00, 0x01]).au8Buffer ∧ 6 ≤ 64
      ∧ (exampleNode 0 [0x01, 0x03, 0x00, 0x00, 0x00, 0x01]).calcCRC 6 = .ok 0x840A :=
  ⟨by decide, by decide,
    (calcCRC_swapped_crc16 (exampleNode 0 [0x01, 0x03, 0x00, 0x00, 0x00, 0x01]) 6
      (by decide) (by decide)).2 (by decide)⟩

/-! ## Memory and arithmetic helpers -/

theorem wrBuf_ok {buf : List Nat} {i : Nat} (v : Nat) (h : i < buf.length) :
    wrBuf buf i v = .ok (buf.set i (v % 256)) := by
  simp [wrBuf, h, pure, Except.pure]

theorem rdReg_ok {regs : List Nat} {i : Nat} (h : i < regs.length) :
    rdReg regs i = .ok regs[i] := by
  simp [rdReg, List.getElem?_eq_getElem h, pure, Except.pure]

theorem wrReg_ok {regs : List Nat} {i : Nat} (v : Nat) (h : i < regs.length) :
    wrReg regs i v = .ok (regs.set i (v % 65536)) := by
  simp [wrReg, h, pure, Except.pure]

theorem shl8_or {hi lo : Nat} (hlo : lo < 256) : (hi <<< 8) ||| lo = hi * 256 + lo := by
  have h : lo < 2 ^ 8 := hlo
  rw [Nat.shiftLeft_eq, Nat.mul_comm, ← Nat.mul_add_lt_is_or h]

theorem word_eq {h l : Nat} (hh : h < 256) (hl : l < 256) : word h l = h * 256 + l := by
  unfold word
  rw [Nat.mod_eq_of_lt hh, Nat.mod_eq_of_lt hl, shl8_or hl]
  omega

theorem shr8 (x : Nat) : x >>> 8 = x / 256 := by
  simp [Nat.shiftRight_eq_div_pow]

theorem pack_div {lo hi : Nat} (h : hi < 256) : (lo * 256 + hi) / 256 = lo := by
  omega

theorem pack_mod {lo hi : Nat} (h : hi < 256) : (lo * 256 + hi) % 256 = hi := by
  omega

theorem and_ff (x : Nat) : x &&& 0xff = x % 256 := by
  have e2 : (0xff : Nat) = 2 ^ 8 - 1 := by norm_num
  rw [e2, Nat.and_pow_two_sub_one_eq_mod]

theorem highByte_eq (w : Nat) : highByte w = w / 256 % 256 := by
  simp [highByte, Nat.shiftRight_eq_div_pow]

theorem lowByte_eq (w : Nat) : lowByte w = w % 256 := by
  simp [lowByte, and_ff]

theorem set_set_eq (buf : List Nat) (a b : Nat) :
    ∀ n, n + 2 ≤ buf.length →
      (buf.set n a).set (n + 1) b = buf.take n ++ a :: b :: buf.drop (n + 2) := by
  induction buf with
  | nil => intro n h; simp at h
  | cons x xs ih =>
    intro n h
    cases n with
    | zero =>
      cases xs with
      | nil => simp at h
      | cons y ys => simp
    | succ n =>
      have := ih n (by simpa using h)
      simp [this]

/-- The value `calcCRC` returns, as arithmetic on the CRC of the covered bytes. -/
theorem calcCRC_arith (m : Modbus) (n : Nat) (hlen : n ≤ m.au8Buffer.length)
    (hb : ∀ b ∈ m.au8Buffer.take n, b < 256) :
    m.calcCRC n
      = .ok ((crc16 (m.au8Buffer.take n) % 256) * 256 + crc16 (m.au8Buffer.take n) / 256) := by
  rw [calcCRC_eq m n hlen]
  have h1 := swap_eq (crc16_lt _ hb)
  have h2 := swap_arith (crc16_lt _ hb)
  unfold crc16 at h1 h2 ⊢
  rw [h1, h2]

theorem frameOf_length (p : List Nat) : (frameOf p).length = p.length + 2 := by
  simp [frameOf]

/-- What `sendTxBuffer` does when the frame and its checksum fit the buffer. -/
theorem sendTxBuffer_eq (m : Modbus) (now : Nat) (hbuf : bufferOK m.au8Buffer)
    (hsz : m.u8BufferSize + 2 ≤ 64) :
    m.sendTxBuffer now = .ok { m with
      MODBUS_SERIAL :=
        { rx := if m.u8txenpin > 1 then [] else m.MODBUS_SERIAL.rx
          tx := m.MODBUS_SERIAL.tx ++ [frameOf (m.au8Buffer.take m.u8BufferSize)] }
      txen := if m.u8txenpin > 1 then false else m.txen
      au8Buffer := frameOf (m.au8Buffer.take m.u8BufferSize)
        ++ m.au8Buffer.drop (m.u8BufferSize + 2)
      u8BufferSize := 0
      u32timeOut := now % 4294967296
      u16OutCnt := (m.u16OutCnt + 1) % 65536 } := by
  have hlen : m.au8Buffer.length = 64 := hbuf.1
  have hb : ∀ b ∈ m.au8Buffer.take m.u8BufferSize, b < 256 :=
    fun b hb => hbuf.2 b (List.mem_of_mem_take hb)
  have hc := crc16_lt _ hb
  unfold sendTxBuffer
  rw [calcCRC_arith m _ (by omega) hb]
  simp only [bind, Except.bind]
  rw [wrBuf_ok _ (by omega)]
  simp only []
  have e1 : (m.u8BufferSize + 1) % 256 = m.u8BufferSize + 1 := Nat.mod_eq_of_lt (by omega)
  have e2 : (m.u8BufferSize + 1 + 1) % 256 = m.u8BufferSize + 2 := Nat.mod_eq_of_lt (by omega)
  rw [e1, wrBuf_ok _ (by rw [List.length_set]; omega)]
  simp only [e2, pure, Except.pure]
  rw [set_set_eq _ _ _ _ (by omega)]
  have e3 : ((crc16 (List.take m.u8BufferSize m.au8Buffer) % 256 * 256
      + crc16 (List.take m.u8BufferSize m.au8Buffer) / 256) >>> 8) % 256
      = crc16 (List.take m.u8BufferSize m.au8Buffer) % 256 := by
    rw [shr8, pack_div (by omega)]; omega
  have e4 : ((crc16 (List.take m.u8BufferSize m.au8Buffer) % 256 * 256
      + crc16 (List.take m.u8BufferSize m.au8Buffer) / 256) &&& 0x00ff) % 256
      = crc16 (List.take m.u8BufferSize m.au8Buffer) / 256 := by
    rw [and_ff, Nat.mod_mod, pack_mod (by omega)]
  rw [e3, e4]
  have e5 : List.take (m.u8BufferSize + 2)
      (List.take m.u8BufferSize m.au8Buffer
        ++ crc16 (List.take m.u8BufferSize m.au8Buffer) % 256
          :: crc16 (List.take m.u8BufferSize m.au8Buffer) / 256
          :: List.drop (m.u8BufferSize + 2) m.au8Buffer)
      = frameOf (List.take m.u8BufferSize m.au8Buffer) := by
    have hl : (List.take m.u8BufferSize m.au8Buffer).length = m.u8BufferSize := by
      rw [List.length_take]; omega
    unfold frameOf
    rw [List.take_append_eq_append_take, hl]
    simp [List.take_of_length_le, hl]
  rw [e5]
  congr 2
  · split <;> rfl
  · simp [frameOf]

/-! ## The checksum comparison of `validateRequest` and `validateAnswer` -/

theorem rdBuf_of_getElem? {buf : List Nat} {i x : Nat} (h : buf[i]? = some x) :
    rdBuf buf i = .ok x := by
  simp [rdBuf, h, pure, Except.pure]

theorem take_add_two (buf : List Nat) (n a b : Nat)
    (ha : buf[n]? = some a) (hb : buf[n + 1]? = some b) :
    buf.take (n + 2) = buf.take n ++ [a, b] := by
  have h2 : buf.take (n + 1 + 1) = buf.take (n + 1) ++ [b] := by
    rw [List.take_succ, hb]; simp
  have h1 : buf.take (n + 1) = buf.take n ++ [a] := by
    rw [List.take_succ, ha]; simp
  have e : n + 2 = n + 1 + 1 := rfl
  rw [e, h2, h1]
  simp

/-- A frame of `n + 2` bytes at the head of the buffer is valid exactly when its last two
bytes are the low and the high byte of the CRC of the first `n`. -/
theorem validFrame_take_iff (buf : List Nat) (n a b : Nat)
    (ha : buf[n]? = some a) (hb : buf[n + 1]? = some b) :
    validFrame (buf.take (n + 2))
      ↔ a = crc16 (buf.take n) % 256 ∧ b = crc16 (buf.take n) / 256 := by
  have hlen : n + 1 < buf.length := by
    rcases Nat.lt_or_ge (n + 1) buf.length with h | h
    · exact h
    · rw [List.getElem?_eq_none h] at hb; cases hb
  have hl : (buf.take (n + 2)).length = n + 2 := by rw [List.length_take]; omega
  have ht : (buf.take (n + 2)).take n = buf.take n := by
    rw [List.take_take]; congr 1; omega
  unfold validFrame
  rw [hl, show n + 2 - 2 = n from rfl, ht, take_add_two buf n a b ha hb]
  unfold frameOf
  constructor
  · rintro ⟨_, he⟩
    have := List.append_cancel_left he
    simpa using this
  · rintro ⟨h1, h2⟩
    refine ⟨by omega, ?_⟩
    rw [← h1, ← h2]

theorem pack_inj {a b x y : Nat} (hb : b < 256) (hy : y < 256) :
    x * 256 + y = a * 256 + b ↔ a = x ∧ b = y := by
  omega

theorem crc_compare_list (buf : List Nat) (n : Nat) (hbuf : bufferOK buf) (hn : n + 2 ≤ 64) :
    ∃ hi lo, buf[n]? = some hi ∧ buf[n + 1]? = some lo
      ∧ ((crc16 (buf.take n) % 256) * 256 + crc16 (buf.take n) / 256
            ≠ ((hi <<< 8) ||| lo) % 65536
          ↔ ¬ validFrame (buf.take (n + 2))) := by
  have hlen : buf.length = 64 := hbuf.1
  have hb : ∀ b ∈ buf.take n, b < 256 :=
    fun b hb => hbuf.2 b (List.mem_of_mem_take hb)
  have hc := crc16_lt _ hb
  have hi1 : n < buf.length := by omega
  have hi2 : n + 1 < buf.length := by omega
  have ea : buf[n]? = some buf[n] := List.getElem?_eq_getElem hi1
  have eb : buf[n + 1]? = some buf[n + 1] := List.getElem?_eq_getElem hi2
  have ha : buf[n] < 256 := hbuf.2 _ (List.getElem_mem _)
  have hb' : buf[n + 1] < 256 := hbuf.2 _ (List.getElem_mem _)
  refine ⟨buf[n], buf[n + 1], ea, eb, ?_⟩
  rw [validFrame_take_iff _ n _ _ ea eb, shl8_or hb']
  generalize buf[n] = a at *
  generalize buf[n + 1] = b at *
  generalize crc16 (buf.take n) = c at *
  rw [Nat.mod_eq_of_lt (show a * 256 + b < 65536 by omega)]
  have hy : c / 256 < 256 := by omega
  rw [not_iff_not]
  exact pack_inj hb' hy

/-- The comparison `calcCRC(u8BufferSize - 2) != u16MsgCRC` is the negation of `validFrame`. -/
theorem crc_compare (m : Modbus) (hbuf : bufferOK m.au8Buffer)
    (h2 : 2 ≤ m.u8BufferSize) (h64 : m.u8BufferSize ≤ 64) :
    ∃ hi lo crc, rdBuf m.au8Buffer (m.u8BufferSize - 2) = .ok hi
      ∧ rdBuf m.au8Buffer (m.u8BufferSize - 1) = .ok lo
      ∧ m.calcCRC ((m.u8BufferSize - 2) % 256) = .ok crc
      ∧ (crc ≠ ((hi <<< 8) ||| lo) % 65536 ↔ ¬ validFrame (m.au8Buffer.take m.u8BufferSize)) := by
  have hlen : m.au8Buffer.length = 64 := hbuf.1
  have hn1 : m.u8BufferSize - 1 = m.u8BufferSize - 2 + 1 := by omega
  have hn2 : m.u8BufferSize - 2 + 2 = m.u8BufferSize := by omega
  obtain ⟨hi, lo, ea, eb, hiff⟩ :=
    crc_compare_list m.au8Buffer (m.u8BufferSize - 2) hbuf (by omega)
  have hb : ∀ b ∈ m.au8Buffer.take (m.u8BufferSize - 2), b < 256 :=
    fun b hb => hbuf.2 b (List.mem_of_mem_take hb)
  refine ⟨hi, lo, (crc16 (m.au8Buffer.take (m.u8BufferSize - 2)) % 256) * 256
    + crc16 (m.au8Buffer.take (m.u8BufferSize - 2)) / 256, rdBuf_of_getElem? ea, ?_, ?_, ?_⟩
  · rw [hn1]; exact rdBuf_of_getElem? eb
  · rw [Nat.mod_eq_of_lt (by omega)]
    exact calcCRC_arith m _ (by omega) hb
  · rw [hn2] at hiff
    exact hiff

theorem validateRequest_bad_crc (m : Modbus) (hbuf : bufferOK m.au8Buffer)
    (h2 : 2 ≤ m.u8BufferSize) (h64 : m.u8BufferSize ≤ 64)
    (hbad : ¬ validFrame (m.au8Buffer.take m.u8BufferSize)) :
    m.validateRequest = .ok (NO_REPLY, { m with u16errCnt := (m.u16errCnt + 1) % 65536 }) := by
  obtain ⟨hi, lo, crc, e1, e2, e3, hiff⟩ := crc_compare m hbuf h2 h64
  have hne := hiff.2 hbad
  unfold validateRequest
  simp [e1, e2, e3, hne, bind, Except.bind, pure, Except.pure, show ¬ m.u8BufferSize < 2 by omega]

theorem validateAnswer_bad_crc (m : Modbus) (hbuf : bufferOK m.au8Buffer)
    (h2 : 2 ≤ m.u8BufferSize) (h64 : m.u8BufferSize ≤ 64)
    (hbad : ¬ validFrame (m.au8Buffer.take m.u8BufferSize)) :
    m.validateAnswer = .ok (NO_REPLY, { m with u16errCnt := (m.u16errCnt + 1) % 65536 }) := by
  obtain ⟨hi, lo, crc, e1, e2, e3, hiff⟩ := crc_compare m hbuf h2 h64
  have hne := hiff.2 hbad
  unfold validateAnswer
  simp [e1, e2, e3, hne, bind, Except.bind, pure, Except.pure, show ¬ m.u8BufferSize < 2 by omega]

theorem rdBuf_getD {buf : List Nat} {i : Nat} (h : i < buf.length) :
    rdBuf buf i = .ok (buf.getD i 0) := by
  simp [rdBuf, List.getD, List.getElem?_eq_getElem h, pure, Except.pure]

theorem validFrame_frameOf (p : List Nat) : validFrame (frameOf p) := by
  unfold validFrame
  rw [frameOf_length]
  refine ⟨by omega, ?_⟩
  have : (frameOf p).take (p.length + 2 - 2) = p := by
    simp [frameOf]
  rw [this]

theorem validateRequest_good_crc (m : Modbus) (hbuf : bufferOK m.au8Buffer)
    (h2 : 2 ≤ m.u8BufferSize) (h64 : m.u8BufferSize ≤ 64)
    (hgood : validFrame (m.au8Buffer.take m.u8BufferSize)) :
    ∃ e m', m.validateRequest = .ok (e, m') ∧ e ≠ NO_REPLY := by
  obtain ⟨hi, lo, crc, e1, e2, e3, hiff⟩ := crc_compare m hbuf h2 h64
  have hne : ¬ (crc ≠ ((hi <<< 8) ||| lo) % 65536) := fun h => hiff.1 h hgood
  have hlen : m.au8Buffer.length = 64 := hbuf.1
  have r1 := rdBuf_getD (show 1 < m.au8Buffer.length by omega)
  have r2 := rdBuf_getD (show 2 < m.au8Buffer.length by omega)
  have r3 := rdBuf_getD (show 3 < m.au8Buffer.length by omega)
  have r4 := rdBuf_getD (show 4 < m.au8Buffer.length by omega)
  have r5 := rdBuf_getD (show 5 < m.au8Buffer.length by omega)
  unfold validateRequest
  simp only [e1, e2, e3, hne, r1, r2, r3, r4, r5, bind, Except.bind, pure, Except.pure,
    show ¬ m.u8BufferSize < 2 by omega, if_false]
  repeat' split
  all_goals exact ⟨_, _, rfl, by decide⟩

theorem validateAnswer_good_crc (m : Modbus) (hbuf : bufferOK m.au8Buffer)
    (h2 : 2 ≤ m.u8BufferSize) (h64 : m.u8BufferSize ≤ 64)
    (hgood : validFrame (m.au8Buffer.take m.u8BufferSize)) :
    ∃ e m', m.validateAnswer = .ok (e, m') ∧ e ≠ NO_REPLY := by
  obtain ⟨hi, lo, crc, e1, e2, e3, hiff⟩ := crc_compare m hbuf h2 h64
  have hne : ¬ (crc ≠ ((hi <<< 8) ||| lo) % 65536) := fun h => hiff.1 h hgood
  have hlen : m.au8Buffer.length = 64 := hbuf.1
  have r1 := rdBuf_getD (show 1 < m.au8Buffer.length by omega)
  unfold validateAnswer
  simp only [e1, e2, e3, hne, r1, bind, Except.bind, pure, Except.pure,
    show ¬ m.u8BufferSize < 2 by omega, if_false]
  repeat' split
  all_goals exact ⟨_, _, rfl, by decide⟩

/-- C2: for every buffer content and every payload length `n` with `n + 2 ≤ 64`, the frame of
`n + 2` bytes that `sendTxBuffer` transmits (the payload followed by the two checksum bytes it
appends), taken as a received frame with `u8BufferSize = n + 2`, passes the checksum comparison
of `validateRequest` and of `validateAnswer`: neither returns `NO_REPLY`. -/
theorem sent_frame_passes_validation (m r : Modbus) (now n : Nat)
    (hm : bufferOK m.au8Buffer) (hn : m.u8BufferSize = n) (hfit : n + 2 ≤ 64)
    (hr : bufferOK r.au8Buffer) (hsz : r.u8BufferSize = n + 2)
    (hrx : r.au8Buffer.take (n + 2) = frameOf (m.au8Buffer.take n)) :
    (∃ m', m.sendTxBuffer now = .ok m'
        ∧ m'.MODBUS_SERIAL.tx = m.MODBUS_SERIAL.tx ++ [frameOf (m.au8Buffer.take n)])
      ∧ (∃ e r', r.validateRequest = .ok (e, r') ∧ e ≠ NO_REPLY)
      ∧ (∃ e r', r.validateAnswer = .ok (e, r') ∧ e ≠ NO_REPLY) := by
  subst hn
  have hv : validFrame (r.au8Buffer.take r.u8BufferSize) := by
    rw [hsz, hrx]; exact validFrame_frameOf _
  refine ⟨⟨_, sendTxBuffer_eq m now hm (by omega), rfl⟩, ?_, ?_⟩
  · exact validateRequest_good_crc r hr (by omega) (by omega) hv
  · exact validateAnswer_good_crc r hr (by omega) (by omega) hv

set_option maxRecDepth 20000 in
/-- C2 on the reference frame: the sender holds `01 03 00 00 00 01`, the receiver the eight
bytes that go on the wire. -/
theorem sent_frame_passes_validation_witness :
    (∃ m', (exampleNode 0 [0x01, 0x03, 0x00, 0x00, 0x00, 0x01]).sendTxBuffer 0 = .ok m'
        ∧ m'.MODBUS_SERIAL.tx = [[0x01, 0x03, 0x00, 0x00, 0x00, 0x01, 0x84, 0x0A]])
      ∧ (∃ e r', (exampleNode 1 [0x01, 0x03, 0x00, 0x00, 0x00, 0x01, 0x84, 0x0A]).validateRequest
          = .ok (e, r') ∧ e ≠ NO_REPLY)
      ∧ (∃ e r', (exampleNode 1 [0x01, 0x03, 0x00, 0x00, 0x00, 0x01, 0x84, 0x0A]).validateAnswer
          = .ok (e, r') ∧ e ≠ NO_REPLY) :=
  sent_frame_passes_validation (exampleNode 0 [0x01, 0x03, 0x00, 0x00, 0x00, 0x01])
    (exampleNode 1 [0x01, 0x03, 0x00, 0x00, 0x00, 0x01, 0x84, 0x0A]) 0 6
    (by decide) (by decide) (by decide) (by decide) (by decide)
    (by rw [show frameOf (List.take 6 (exampleNode 0 [0x01, 0x03, 0x00, 0x00, 0x00, 0x01]).au8Buffer)
          = [0x01, 0x03, 0x00, 0x00, 0x00, 0x01, 0x84, 0x0A] by
            simp [frameOf, exampleNode, crc16_reference]]
        decide)

/-! ## Single-bit errors -/

theorem getD_of_getElem? {l : List Nat} {i x : Nat} (h : l[i]? = some x) : l.getD i 0 = x := by
  rw [List.getD_eq_getElem?_getD, h]; rfl

theorem crc16_shift_inj {c d : Nat} (hc : c < 65536) (hd : d < 65536)
    (h : crc16_shift c = crc16_shift d) : c = d := by
  have hc2 : c / 2 < 2 ^ 15 := by omega
  have hd2 : d / 2 < 2 ^ 15 := by omega
  have top : ∀ x, x < 2 ^ 15 → (x ^^^ 0xA001).testBit 15 = true := by
    intro x hx
    rw [Nat.testBit_xor, Nat.testBit_lt_two_pow hx]
    decide
  unfold crc16_shift at h
  by_cases h1 : c % 2 = 1 <;> by_cases h2 : d % 2 = 1
  · simp only [h1, h2, if_true] at h
    have := Nat.xor_left_inj.1 h
    omega
  · simp only [h1, h2, if_true, if_false] at h
    have t1 := top _ hc2
    rw [h, Nat.testBit_lt_two_pow hd2] at t1
    cases t1
  · simp only [h1, h2, if_true, if_false] at h
    have t1 := top _ hd2
    rw [← h, Nat.testBit_lt_two_pow hc2] at t1
    cases t1
  · simp only [h1, h2, if_false] at h
    omega

theorem crc16_shift_iter_inj (k : Nat) {c d : Nat} (hc : c < 65536) (hd : d < 65536)
    (h : crc16_shift^[k] c = crc16_shift^[k] d) : c = d := by
  induction k generalizing c d with
  | zero => simpa using h
  | succ k ih =>
    rw [Function.iterate_succ_apply, Function.iterate_succ_apply] at h
    exact crc16_shift_inj hc hd (ih (crc16_shift_lt hc) (crc16_shift_lt hd) h)

theorem xor_byte_lt {c b : Nat} (hc : c < 65536) (hb : b < 256) : c ^^^ b < 65536 := by
  have h1 : c < 2 ^ 16 := hc
  have h2 : b < 2 ^ 16 := by omega
  exact Nat.xor_lt_two_pow h1 h2

theorem crc16_fold_inj (bytes : List Nat) (hb : ∀ b ∈ bytes, b < 256) :
    ∀ c d, c < 65536 → d < 65536 →
      bytes.foldl (fun c b => crc16_shift^[8] (c ^^^ b)) c
        = bytes.foldl (fun c b => crc16_shift^[8] (c ^^^ b)) d → c = d := by
  induction bytes with
  | nil => intro c d _ _ h; simpa using h
  | cons b bs ih =>
    intro c d hc hd h
    simp only [List.foldl_cons] at h
    have hb0 : b < 256 := hb b (List.mem_cons_self _ _)
    have h1 := ih (fun x hx => hb x (List.mem_cons_of_mem _ hx)) _ _
      (crc16_shift_iter_lt 8 (xor_byte_lt hc hb0)) (crc16_shift_iter_lt 8 (xor_byte_lt hd hb0)) h
    have h2 := crc16_shift_iter_inj 8 (xor_byte_lt hc hb0) (xor_byte_lt hd hb0) h1
    exact Nat.xor_left_inj.1 h2

/-- Changing one byte of the covered data changes the CRC. -/
theorem crc16_set_ne (p : List Nat) (hp : ∀ b ∈ p, b < 256) (k x : Nat) (hk : k < p.length)
    (hx : x < 256) (hne : x ≠ p.getD k 0) : crc16 (p.set k x) ≠ crc16 p := by
  have hy0 : p.getD k 0 = p[k] := by simp [List.getD, List.getElem?_eq_getElem hk]
  have hsplit : p.take k ++ p.getD k 0 :: p.drop (k + 1) = p := by
    rw [hy0, ← List.drop_eq_getElem_cons hk, List.take_append_drop]
  have hset : p.set k x = p.take k ++ x :: p.drop (k + 1) := by
    rw [List.set_eq_take_append_cons_drop, if_pos hk]
  intro h
  rw [hset, show crc16 p = crc16 (p.take k ++ p.getD k 0 :: p.drop (k + 1)) from
    congrArg crc16 hsplit.symm] at h
  unfold crc16 at h
  simp only [List.foldl_append, List.foldl_cons] at h
  have hpre : ∀ b ∈ p.take k, b < 256 := fun b hb => hp b (List.mem_of_mem_take hb)
  have hpost : ∀ b ∈ p.drop (k + 1), b < 256 := fun b hb => hp b (List.mem_of_mem_drop hb)
  have hc := crc16_fold_lt _ hpre 0xFFFF (by norm_num)
  have hy : p.getD k 0 < 256 := by
    have : p.getD k 0 = p[k] := by simp [List.getD, List.getElem?_eq_getElem hk]
    rw [this]; exact hp _ (List.getElem_mem _)
  have h1 := crc16_fold_inj _ hpost _ _
    (crc16_shift_iter_lt 8 (xor_byte_lt hc hx)) (crc16_shift_iter_lt 8 (xor_byte_lt hc hy)) h
  have h2 := crc16_shift_iter_inj 8 (xor_byte_lt hc hx) (xor_byte_lt hc hy) h1
  exact hne (Nat.xor_right_inj.1 h2)

theorem flip_ne (x j : Nat) : x ^^^ (1 <<< j) ≠ x := by
  intro h
  have h0 : x ^^^ (1 <<< j) = x ^^^ 0 := by rw [h, Nat.xor_zero]
  have := Nat.xor_right_inj.1 h0
  rw [Nat.shiftLeft_eq, Nat.one_mul] at this
  exact absurd this (Nat.pos_iff_ne_zero.1 (Nat.two_pow_pos j))

theorem flip_lt {x j : Nat} (hx : x < 256) (hj : j < 8) : x ^^^ (1 <<< j) < 256 := by
  have h1 : x < 2 ^ 8 := hx
  have h2 : 1 <<< j < 2 ^ 8 := by
    rw [Nat.shiftLeft_eq, Nat.one_mul]
    exact Nat.pow_lt_pow_right (by norm_num) hj
  exact Nat.xor_lt_two_pow h1 h2

theorem validFrame_append_iff (p : List Nat) (a b : Nat) :
    validFrame (p ++ [a, b]) ↔ a = crc16 p % 256 ∧ b = crc16 p / 256 := by
  unfold validFrame frameOf
  have hl : (p ++ [a, b]).length = p.length + 2 := by simp
  have ht : (p ++ [a, b]).take (p.length + 2 - 2) = p := by simp
  rw [hl, ht]
  constructor
  · rintro ⟨_, he⟩
    have := List.append_cancel_left he
    simpa using this
  · rintro ⟨h1, h2⟩
    exact ⟨by omega, by rw [← h1, ← h2]⟩

/-- A valid frame with one bit inverted is not a valid frame. -/
theorem flipBit_not_valid (f : List Nat) (k j : Nat) (hf : ∀ b ∈ f, b < 256)
    (hv : validFrame f) (hk : k < f.length) (hj : j < 8) : ¬ validFrame (flipBit f k j) := by
  obtain ⟨hlen, heq⟩ := hv
  generalize hp : f.take (f.length - 2) = p at heq
  have hpb : ∀ b ∈ p, b < 256 := by
    intro b hb; rw [← hp] at hb; exact hf b (List.mem_of_mem_take hb)
  have hc := crc16_lt p hpb
  subst heq
  unfold frameOf at hk ⊢
  unfold flipBit
  have hk' : k < p.length + 2 := by simpa using hk
  rcases Nat.lt_or_ge k p.length with h1 | h1
  · rw [List.set_append_left _ _ h1, validFrame_append_iff]
    have hg : (p ++ [crc16 p % 256, crc16 p / 256]).getD k 0 = p.getD k 0 := by
      simp [List.getD, List.getElem?_append_left h1]
    rw [hg]
    have hx : p.getD k 0 < 256 := by
      have : p.getD k 0 = p[k] := by simp [List.getD, List.getElem?_eq_getElem h1]
      rw [this]; exact hpb _ (List.getElem_mem _)
    have hne := crc16_set_ne p hpb k _ h1 (flip_lt hx hj) (flip_ne _ j)
    have hc' := crc16_lt (p.set k (p.getD k 0 ^^^ 1 <<< j)) (by
      intro b hb
      rcases List.mem_or_eq_of_mem_set hb with h | h
      · exact hpb b h
      · rw [h]; exact flip_lt hx hj)
    rintro ⟨e1, e2⟩
    apply hne
    omega
  · rw [List.set_append_right _ _ h1]
    rcases Nat.eq_or_lt_of_le h1 with h2 | h2
    · subst h2
      have hg : (p ++ [crc16 p % 256, crc16 p / 256]).getD p.length 0 = crc16 p % 256 := by
        have : (p ++ [crc16 p % 256, crc16 p / 256])[p.length]? = some (crc16 p % 256) := by
          rw [List.getElem?_append_right (Nat.le_refl _)]; simp
        exact getD_of_getElem? this
      rw [hg]
      simp only [Nat.sub_self, List.set_cons_zero]
      rw [validFrame_append_iff]
      rintro ⟨e1, _⟩
      exact flip_ne _ _ e1
    · have h3 : k = p.length + 1 := by omega
      subst h3
      have hg : (p ++ [crc16 p % 256, crc16 p / 256]).getD (p.length + 1) 0 = crc16 p / 256 := by
        have : (p ++ [crc16 p % 256, crc16 p / 256])[p.length + 1]? = some (crc16 p / 256) := by
          rw [List.getElem?_append_right (Nat.le_succ _)]; simp
        exact getD_of_getElem? this
      rw [hg]
      simp only [Nat.add_sub_cancel_left, List.set_cons_succ, List.set_cons_zero]
      rw [validFrame_append_iff]
      rintro ⟨_, e2⟩
      exact flip_ne _ _ e2

/-- C3: for every frame of total length between 2 and 64 bytes whose last two bytes are the
correct checksum of the preceding bytes, and for every single bit position in the frame
(payload or checksum bytes), flipping that one bit makes the checksum comparison of
`validateRequest` and of `validateAnswer` fail: the result is `NO_REPLY`. -/
theorem single_bit_flip_detected (r : Modbus) (f : List Nat) (k j : Nat)
    (hr : bufferOK r.au8Buffer) (hlen : f.length ≤ 64) (hf : ∀ b ∈ f, b < 256)
    (hv : validFrame f) (hk : k < f.length) (hj : j < 8)
    (hsz : r.u8BufferSize = f.length) (hrx : r.au8Buffer.take f.length = flipBit f k j) :
    r.validateRequest
        = .ok (NO_REPLY, { r with u16errCnt := (r.u16errCnt + 1) % 65536 })
      ∧ r.validateAnswer
        = .ok (NO_REPLY, { r with u16errCnt := (r.u16errCnt + 1) % 65536 }) := by
  have h2 : 2 ≤ f.length := hv.1
  have hbad : ¬ validFrame (r.au8Buffer.take r.u8BufferSize) := by
    rw [hsz, hrx]; exact flipBit_not_valid f k j hf hv hk hj
  exact ⟨validateRequest_bad_crc r hr (by omega) (by omega) hbad,
    validateAnswer_bad_crc r hr (by omega) (by omega) hbad⟩

set_option maxRecDepth 20000 in
/-- C3 on the reference frame `01 03 00 00 00 01 84 0A` with bit 0 of the function code
inverted. -/
theorem single_bit_flip_detected_witness :
    validFrame [0x01, 0x03, 0x00, 0x00, 0x00, 0x01, 0x84, 0x0A]
      ∧ flipBit [0x01, 0x03, 0x00, 0x00, 0x00, 0x01, 0x84, 0x0A] 1 0
          = [0x01, 0x02, 0x00, 0x00, 0x00, 0x01, 0x84, 0x0A]
      ∧ (exampleNode 1 [0x01, 0x02, 0x00, 0x00, 0x00, 0x01, 0x84, 0x0A]).validateRequest
          = .ok (NO_REPLY, { exampleNode 1 [0x01, 0x02, 0x00, 0x00, 0x00, 0x01, 0x84, 0x0A] with
              u16errCnt := 1 })
      ∧ (exampleNode 1 [0x01, 0x02, 0x00, 0x00, 0x00, 0x01, 0x84, 0x0A]).validateAnswer
          = .ok (NO_REPLY, { exampleNode 1 [0x01, 0x02, 0x00, 0x00, 0x00, 0x01, 0x84, 0x0A] with
              u16errCnt := 1 }) :=
  ⟨by decide, by decide,
    single_bit_flip_detected (exampleNode 1 [0x01, 0x02, 0x00, 0x00, 0x00, 0x01, 0x84, 0x0A])
      [0x01, 0x03, 0x00, 0x00, 0x00, 0x01, 0x84, 0x0A] 1 0
      (by decide) (by decide) (by decide) (by decide) (by decide) (by decide) (by decide)
      (by decide)⟩

/-! ## Master: `query` for the read functions -/

theorem bufferOK_set {buf : List Nat} (hbuf : bufferOK buf) (i v : Nat) (hv : v < 256) :
    bufferOK (buf.set i v) := by
  refine ⟨by rw [List.length_set]; exact hbuf.1, ?_⟩
  intro b hb
  rcases List.mem_or_eq_of_mem_set hb with h | h
  · exact hbuf.2 b h
  · rw [h]; exact hv

theorem bufferOK_append_drop {buf : List Nat} (pre : List Nat) (hbuf : bufferOK buf)
    (hpre : ∀ b ∈ pre, b < 256) (hlen : pre.length ≤ 64) :
    bufferOK (pre ++ buf.drop pre.length) := by
  have h64 : buf.length = 64 := hbuf.1
  refine ⟨?_, ?_⟩
  · rw [List.length_append, List.length_drop]
    show pre.length + (buf.length - pre.length) = 64
    omega
  · intro b hb
    rcases List.mem_append.1 hb with h | h
    · exact hpre b h
    · exact hbuf.2 b (List.mem_of_mem_drop h)

theorem set6 (buf : List Nat) (h : 6 ≤ buf.length) (a0 a1 a2 a3 a4 a5 : Nat) :
    (((((buf.set 0 a0).set 1 a1).set 2 a2).set 3 a3).set 4 a4).set 5 a5
      = [a0, a1, a2, a3, a4, a5] ++ buf.drop 6 := by
  match buf, h with
  | _ :: _ :: _ :: _ :: _ :: _ :: rest, _ => simp

/-- The state `query` leaves behind for a read telegram (functions 1 to 4). -/
theorem query_read_eq (m : Modbus) (tg : modbus_t) (now : Nat) (hbuf : bufferOK m.au8Buffer)
    (hid : m.u8id = 0) (hidle : m.u8state = COM_IDLE)
    (h1 : 1 ≤ tg.u8id) (h247 : tg.u8id ≤ 247)
    (hf : tg.u8fct = 1 ∨ tg.u8fct = 2 ∨ tg.u8fct = 3 ∨ tg.u8fct = 4) :
    m.query tg now = .ok (0, { m with
      MODBUS_SERIAL :=
        { rx := if m.u8txenpin > 1 then [] else m.MODBUS_SERIAL.rx
          tx := m.MODBUS_SERIAL.tx ++ [frameOf [tg.u8id, tg.u8fct,
            tg.u16RegAdd / 256 % 256, tg.u16RegAdd % 256,
            tg.u16CoilsNo / 256 % 256, tg.u16CoilsNo % 256]] }
      txen := if m.u8txenpin > 1 then false else m.txen
      au16regs := tg.au16reg
      au8Buffer := frameOf [tg.u8id, tg.u8fct,
            tg.u16RegAdd / 256 % 256, tg.u16RegAdd % 256,
            tg.u16CoilsNo / 256 % 256, tg.u16CoilsNo % 256] ++ m.au8Buffer.drop 8
      u8BufferSize := 0
      u32timeOut := now % 4294967296
      u16OutCnt := (m.u16OutCnt + 1) % 65536
      u8state := COM_WAITING
      u8lastError := 0 }) := by
  have hlen : m.au8Buffer.length = 64 := hbuf.1
  have hfl : tg.u8fct < 256 := by omega
  unfold query
  simp only [hid, hidle, ne_eq, not_true_eq_false, if_false,
    show ¬ (tg.u8id = 0 ∨ tg.u8id > 247) by omega,
    show (tg.u8fct = MB_FC_READ_COILS ∨ tg.u8fct = MB_FC_READ_DISCRETE_INPUT
      ∨ tg.u8fct = MB_FC_READ_REGISTERS ∨ tg.u8fct = MB_FC_READ_INPUT_REGISTER) from hf, if_true]
  simp only [ID, FUNC, ADD_HI, ADD_LO, NB_HI, NB_LO]
  rw [wrBuf_ok _ (by omega)]
  simp only [bind, Except.bind]
  rw [wrBuf_ok _ (by simp only [List.length_set]; omega)]
  simp only []
  rw [wrBuf_ok _ (by simp only [List.length_set]; omega)]
  simp only []
  rw [wrBuf_ok _ (by simp only [List.length_set]; omega)]
  simp only []
  rw [wrBuf_ok _ (by simp only [List.length_set]; omega)]
  simp only []
  rw [wrBuf_ok _ (by simp only [List.length_set]; omega)]
  simp only [pure, Except.pure]
  rw [set6 _ (by omega)]
  simp only [highByte_eq, lowByte_eq, Nat.mod_mod, Nat.mod_eq_of_lt (show tg.u8id < 256 by omega),
    Nat.mod_eq_of_lt hfl]
  have hpre : ∀ b ∈ [tg.u8id, tg.u8fct, tg.u16RegAdd / 256 % 256, tg.u16RegAdd % 256,
      tg.u16CoilsNo / 256 % 256, tg.u16CoilsNo % 256], b < 256 := by
    intro b hb
    simp only [List.mem_cons, List.mem_singleton, List.not_mem_nil, or_false] at hb
    rcases hb with h | h | h | h | h | h <;> omega
  have hok := bufferOK_append_drop _ hbuf hpre (by simp)
  rw [sendTxBuffer_eq _ now hok (by simp)]
  simp only [List.take_left', List.length_cons, List.length_nil, List.drop_append_eq_append_drop,
    List.drop_drop]
  simp [frameOf]

/-- C10: for every master (own address 0) in `COM_IDLE` and every telegram with node address
`id` in 1..247, function code `f` in {1,2,3,4}, start address `A` and quantity `Q`, `query`
returns 0, transmits exactly the 8 bytes `[id, f, A>>8, A&0xFF, Q>>8, Q&0xFF, lo(c), hi(c)]`
where `c` is the standard (unswapped) Modbus CRC-16 of the first six bytes, increments the
outgoing-message counter, sets the watchdog reference time to the current clock, clears the
last error to 0 and leaves the engine in `COM_WAITING`. -/
theorem query_read_transmits (m : Modbus) (tg : modbus_t) (now : Nat)
    (hbuf : bufferOK m.au8Buffer) (hid : m.u8id = 0) (hidle : m.u8state = COM_IDLE)
    (h1 : 1 ≤ tg.u8id) (h247 : tg.u8id ≤ 247)
    (hf : tg.u8fct = 1 ∨ tg.u8fct = 2 ∨ tg.u8fct = 3 ∨ tg.u8fct = 4)
    (hA : tg.u16RegAdd < 65536) (hQ : tg.u16CoilsNo < 65536) (hnow : now < 4294967296) :
    ∃ m', m.query tg now = .ok (0, m')
      ∧ m'.MODBUS_SERIAL.tx = m.MODBUS_SERIAL.tx ++
          [[tg.u8id, tg.u8fct, tg.u16RegAdd >>> 8, tg.u16RegAdd &&& 0xFF,
            tg.u16CoilsNo >>> 8, tg.u16CoilsNo &&& 0xFF,
            crc16 [tg.u8id, tg.u8fct, tg.u16RegAdd >>> 8, tg.u16RegAdd &&& 0xFF,
              tg.u16CoilsNo >>> 8, tg.u16CoilsNo &&& 0xFF] &&& 0xFF,
            crc16 [tg.u8id, tg.u8fct, tg.u16RegAdd >>> 8, tg.u16RegAdd &&& 0xFF,
              tg.u16CoilsNo >>> 8, tg.u16CoilsNo &&& 0xFF] >>> 8]]
      ∧ m'.u16OutCnt = (m.u16OutCnt + 1) % 65536
      ∧ m'.u32timeOut = now
      ∧ m'.u8lastError = 0
      ∧ m'.u8state = COM_WAITING := by
  refine ⟨_, query_read_eq m tg now hbuf hid hidle h1 h247 hf, ?_, rfl, ?_, rfl, rfl⟩
  · have eA : tg.u16RegAdd / 256 % 256 = tg.u16RegAdd / 256 := Nat.mod_eq_of_lt (by omega)
    have eQ : tg.u16CoilsNo / 256 % 256 = tg.u16CoilsNo / 256 := Nat.mod_eq_of_lt (by omega)
    simp only [shr8, and_ff, eA, eQ, frameOf]
    simp
  · exact Nat.mod_eq_of_lt hnow

set_option maxRecDepth 20000 in
/-- C10 for the telegram `{node=5, function=3, start=0, quantity=2}` at time 100. -/
theorem query_read_transmits_witness :
    ∃ m', (exampleNode 0 []).query ⟨5, 3, 0, 2, [0, 0]⟩ 100 = .ok (0, m')
      ∧ m'.MODBUS_SERIAL.tx = [[5, 3, 0, 0, 0, 2, 0xC5, 0x8F]]
      ∧ m'.u16OutCnt = 1
      ∧ m'.u32timeOut = 100
      ∧ m'.u8lastError = 0
      ∧ m'.u8state = COM_WAITING :=
  query_read_transmits (exampleNode 0 []) ⟨5, 3, 0, 2, [0, 0]⟩ 100
    (by decide) (by decide) (by decide) (by decide) (by decide) (by decide) (by decide)
    (by decide) (by decide)

/-! ## Receiving a frame -/

theorem poll_regs_eq_frame (m : Modbus) (regs : List Nat) (u8size now fuel : Nat)
    (hready : frameReady m now) :
    m.poll_regs regs u8size now fuel
      = (getRxBuffer { m with au16regs := regs, u8regsize := u8size % 256, u8lastRec := 0 }).bind
          (fun r => r.2.poll_regs_frame r.1 now fuel) := by
  obtain ⟨h0, h1, h2⟩ := hready
  have h0' : ¬ m.u8lastRec = 0 := by rw [← h1]; exact h0
  unfold poll_regs poll_regs_frame
  simp only [h0', h1, if_false, ne_eq, not_true_eq_false, Nat.not_lt.2 h2, bind]

theorem poll_eq_frame (m : Modbus) (now : Nat)
    (hwd : ¬ sub32 now m.u32timeOut > m.u16timeOut) (hready : frameReady m now) :
    m.poll now
      = (getRxBuffer { m with u8AnswerID := 0, u8lastRec := 0 }).bind
          (fun r => r.2.poll_frame r.1) := by
  obtain ⟨h0, h1, h2⟩ := hready
  have h0' : ¬ m.u8lastRec = 0 := by rw [← h1]; exact h0
  unfold poll poll_frame
  simp only [hwd, h0', h1, if_false, ne_eq, not_true_eq_false, Nat.not_lt.2 h2, bind]

theorem getRxBuffer_loop_eq (rx : List Nat) (hrx : ∀ b ∈ rx, b < 256) (ovf : Bool) :
    ∀ (buf : List Nat) (size : Nat), buf.length = 64 → size + rx.length < 64 →
      getRxBuffer_loop rx buf size ovf
        = .ok (buf.take size ++ rx ++ buf.drop (size + rx.length), size + rx.length, ovf) := by
  induction rx with
  | nil =>
    intro buf size _ _
    simp [getRxBuffer_loop, pure, Except.pure]
  | cons b bs ih =>
    intro buf size hlen hsz
    simp only [List.length_cons] at hsz
    have hb : b < 256 := hrx b (List.mem_cons_self _ _)
    rw [getRxBuffer_loop, wrBuf_ok _ (by omega)]
    simp only [bind, Except.bind]
    rw [Nat.mod_eq_of_lt (show size + 1 < 256 by omega), Nat.mod_eq_of_lt hb,
      if_neg (show ¬ size + 1 ≥ MAX_BUFFER by simp only [MAX_BUFFER]; omega),
      ih (fun x hx => hrx x (List.mem_cons_of_mem _ hx)) _ _
        (by rw [List.length_set]; exact hlen) (by omega)]
    have e1 : (buf.set size b).take (size + 1) = buf.take size ++ [b] := by
      rw [List.set_eq_take_append_cons_drop, if_pos (by omega)]
      rw [List.take_append_eq_append_take]
      simp [List.length_take, Nat.min_eq_left (show size ≤ buf.length by omega)]
    have e2 : (buf.set size b).drop (size + 1 + bs.length) = buf.drop (size + 1 + bs.length) :=
      List.drop_set_of_lt _ _ (by omega)
    rw [e1, e2]
    simp [Nat.add_assoc, Nat.add_comm 1 bs.length]

/-- What `getRxBuffer` does with a pending frame shorter than the buffer. -/
theorem getRxBuffer_eq (m : Modbus) (hbuf : bufferOK m.au8Buffer)
    (hrx : ∀ b ∈ m.MODBUS_SERIAL.rx, b < 256) (hlen : m.MODBUS_SERIAL.rx.length < 64) :
    m.getRxBuffer = .ok ((m.MODBUS_SERIAL.rx.length : Int), { m with
      MODBUS_SERIAL := { m.MODBUS_SERIAL with rx := [] }
      txen := if m.u8txenpin > 1 then false else m.txen
      au8Buffer := m.MODBUS_SERIAL.rx ++ m.au8Buffer.drop m.MODBUS_SERIAL.rx.length
      u8BufferSize := m.MODBUS_SERIAL.rx.length
      u16InCnt := (m.u16InCnt + 1) % 65536 }) := by
  have h64 : m.au8Buffer.length = 64 := hbuf.1
  have hi : toInt8 m.MODBUS_SERIAL.rx.length = (m.MODBUS_SERIAL.rx.length : Int) := by
    unfold toInt8
    rw [Nat.mod_eq_of_lt (show m.MODBUS_SERIAL.rx.length < 256 by omega),
      if_pos (show m.MODBUS_SERIAL.rx.length < 128 by omega)]
  unfold getRxBuffer
  by_cases hp : m.u8txenpin > 1
  · simp only [hp, if_true]
    rw [getRxBuffer_loop_eq _ hrx false _ 0 h64 (by omega)]
    simp [bind, Except.bind, pure, Except.pure, hi]
  · simp only [hp, if_false]
    rw [getRxBuffer_loop_eq _ hrx false _ 0 h64 (by omega)]
    simp [bind, Except.bind, pure, Except.pure, hi]

theorem sub32_mod (now t : Nat) : sub32 now (t % 4294967296) = sub32 now t := by
  simp [sub32]

theorem frameReady_received (m : Modbus) (f : List Nat) (t now : Nat)
    (h0 : 0 < f.length) (h64 : f.length < 64) (hT : T35 ≤ sub32 now t) :
    frameReady (received m f t) now := by
  have e : f.length % 256 = f.length := Nat.mod_eq_of_lt (by omega)
  refine ⟨?_, rfl, ?_⟩
  · show f.length % 256 ≠ 0
    omega
  · show T35 ≤ sub32 now (t % 4294967296)
    rw [sub32_mod]; exact hT

/-- The slave poll on a released frame: the frame is moved to the buffer and the statements
after `getRxBuffer` run on it. -/
theorem poll_regs_received (s : Modbus) (f regs : List Nat) (t u8size now fuel : Nat)
    (hbuf : bufferOK s.au8Buffer) (hf : ∀ b ∈ f, b < 256)
    (h0 : 0 < f.length) (h64 : f.length < 64) (hT : T35 ≤ sub32 now t) :
    (received s f t).poll_regs regs u8size now fuel
      = (afterRx (withTable (received s f t) regs u8size) f).poll_regs_frame
          f.length now fuel := by
  rw [poll_regs_eq_frame _ _ _ _ _ (frameReady_received s f t now h0 h64 hT),
    getRxBuffer_eq { received s f t with
      au16regs := regs, u8regsize := u8size % 256, u8lastRec := 0 } hbuf hf h64]
  rfl

/-- The master poll on a released frame while the watchdog has not expired. -/
theorem poll_received (m : Modbus) (f : List Nat) (t now : Nat)
    (hbuf : bufferOK m.au8Buffer) (hf : ∀ b ∈ f, b < 256)
    (h0 : 0 < f.length) (h64 : f.length < 64) (hT : T35 ≤ sub32 now t)
    (hwd : ¬ sub32 now m.u32timeOut > m.u16timeOut) :
    (received m f t).poll now
      = (afterRx (withAnswerCleared (received m f t)) f).poll_frame f.length := by
  rw [poll_eq_frame (received m f t) now hwd (frameReady_received m f t now h0 h64 hT),
    getRxBuffer_eq { received m f t with u8AnswerID := 0, u8lastRec := 0 } hbuf hf h64]
  rfl

theorem bufferOK_afterRx (m : Modbus) (f : List Nat) (hbuf : bufferOK m.au8Buffer)
    (hf : ∀ b ∈ f, b < 256) (h64 : f.length ≤ 64) : bufferOK (afterRx m f).au8Buffer :=
  bufferOK_append_drop f hbuf hf h64

theorem take_afterRx (m : Modbus) (f : List Nat) :
    (afterRx m f).au8Buffer.take (afterRx m f).u8BufferSize = f := by
  simp [afterRx]

theorem getD_afterRx (m : Modbus) (f : List Nat) (i : Nat) (hi : i < f.length) :
    (afterRx m f).au8Buffer.getD i 0 = f.getD i 0 := by
  simp [afterRx, List.getD_eq_getElem?_getD, List.getElem?_append_left hi]

/-! ## Slave: frames that are not answered -/

theorem poll_regs_frame_bad_crc (m : Modbus) (n now fuel : Nat)
    (hbuf : bufferOK m.au8Buffer) (h7 : 7 ≤ n) (h64 : n ≤ 64) (hsz : m.u8BufferSize = n)
    (haddr : m.au8Buffer.getD 0 0 = m.u8id) (hbad : ¬ validFrame (m.au8Buffer.take n)) :
    m.poll_regs_frame (n : Int) now fuel = .ok (toInt8 NO_REPLY, { m with
      u16errCnt := (m.u16errCnt + 1) % 65536
      u8lastError := NO_REPLY }) := by
  have hlen : m.au8Buffer.length = 64 := hbuf.1
  have hv := validateRequest_bad_crc { m with u8lastError := toUInt8 (n : Int) } hbuf
    (show 2 ≤ m.u8BufferSize by omega) (show m.u8BufferSize ≤ 64 by omega)
    (by rw [hsz]; exact hbad)
  have r0 := rdBuf_getD (show 0 < m.au8Buffer.length by omega)
  unfold poll_regs_frame
  simp only [show ¬ ((n : Int) < 7) by omega, if_false, ID, r0, haddr, bind, Except.bind,
    ne_eq, not_true_eq_false]
  rw [hv]
  rfl

theorem poll_regs_frame_other_address (m : Modbus) (n now fuel : Nat)
    (hbuf : bufferOK m.au8Buffer) (h7 : 7 ≤ n)
    (haddr : m.au8Buffer.getD 0 0 ≠ m.u8id) :
    m.poll_regs_frame (n : Int) now fuel
      = .ok (0, { m with u8lastError := toUInt8 (n : Int) }) := by
  have hlen : m.au8Buffer.length = 64 := hbuf.1
  have r0 := rdBuf_getD (show 0 < m.au8Buffer.length by omega)
  unfold poll_regs_frame
  simp only [show ¬ ((n : Int) < 7) by omega, if_false, ID, r0, haddr, bind, Except.bind,
    ne_eq, not_false_eq_true, if_true]
  rfl

/-- C9 as amended: for every slave and every complete received frame of 7 to 63 bytes whose
first byte differs from the slave's address (the broadcast address 0 included), the slave's poll
returns 0, transmits nothing (the outgoing-message counter is unchanged), and leaves the
register table and the error counter unchanged. -/
theorem poll_regs_other_address (s : Modbus) (f regs : List Nat) (t u8size now fuel : Nat)
    (hbuf : bufferOK s.au8Buffer) (hf : ∀ b ∈ f, b < 256)
    (h7 : 7 ≤ f.length) (h63 : f.length ≤ 63) (hT : T35 ≤ sub32 now t)
    (haddr : f.getD 0 0 ≠ s.u8id) :
    ∃ s', (received s f t).poll_regs regs u8size now fuel = .ok (0, s')
      ∧ s'.MODBUS_SERIAL.tx = s.MODBUS_SERIAL.tx
      ∧ s'.u16OutCnt = s.u16OutCnt
      ∧ s'.au16regs = regs
      ∧ s'.u16errCnt = s.u16errCnt := by
  rw [poll_regs_received s f regs t u8size now fuel hbuf hf (by omega) (by omega) hT]
  rw [poll_regs_frame_other_address (afterRx (withTable (received s f t) regs u8size) f)
    f.length now fuel
    (bufferOK_afterRx (withTable (received s f t) regs u8size) f hbuf hf (by omega)) h7
    (by rw [getD_afterRx _ f 0 (by omega)]; exact haddr)]
  exact ⟨_, rfl, rfl, rfl, rfl, rfl⟩

set_option maxRecDepth 20000 in
/-- C9 as amended, on slave 5 and a valid 8-byte request addressed to node 7. -/
theorem poll_regs_other_address_witness :
    ∃ s', (received (exampleNode 5 []) [0x07, 0x03, 0x00, 0x00, 0x00, 0x01, 0x84, 0x6C] 0).poll_regs
          [10, 20, 30] 3 5 0 = .ok (0, s')
      ∧ s'.MODBUS_SERIAL.tx = []
      ∧ s'.u16OutCnt = 0
      ∧ s'.au16regs = [10, 20, 30]
      ∧ s'.u16errCnt = 0 :=
  poll_regs_other_address (exampleNode 5 []) [0x07, 0x03, 0x00, 0x00, 0x00, 0x01, 0x84, 0x6C]
    [10, 20, 30] 0 3 5 0 (by decide) (by decide) (by decide) (by decide) (by decide)
    (by decide)

/-! ## Slave: read registers (functions 3 and 4) -/

theorem isSupported_iff (f : Nat) :
    isSupported f = true ↔ f = 1 ∨ f = 2 ∨ f = 3 ∨ f = 4 ∨ f = 5 ∨ f = 6 ∨ f = 15 ∨ f = 16 := by
  simp only [isSupported, fctsupported, List.any_cons, List.any_nil, Bool.or_false,
    Bool.or_eq_true, beq_iff_eq, MB_FC_READ_COILS, MB_FC_READ_DISCRETE_INPUT,
    MB_FC_WRITE_MULTIPLE_COILS, MB_FC_WRITE_COIL, MB_FC_WRITE_REGISTER, MB_FC_READ_REGISTERS,
    MB_FC_READ_INPUT_REGISTER, MB_FC_WRITE_MULTIPLE_REGISTERS]
  constructor <;> intro h <;> omega

/-- The verdict of `validateRequest` on a checksum-valid request with function code 3 or 4. -/
theorem validateRequest_read_regs (m : Modbus) (hbuf : bufferOK m.au8Buffer)
    (h2 : 2 ≤ m.u8BufferSize) (h64 : m.u8BufferSize ≤ 64)
    (hgood : validFrame (m.au8Buffer.take m.u8BufferSize))
    (hfun : m.au8Buffer.getD 1 0 = 3 ∨ m.au8Buffer.getD 1 0 = 4) :
    m.validateRequest = .ok
      (if (word (m.au8Buffer.getD 2 0) (m.au8Buffer.getD 3 0)
            + word (m.au8Buffer.getD 4 0) (m.au8Buffer.getD 5 0)) % 65536 % 256 > m.u8regsize
        then EXC_ADDR_RANGE else 0, m) := by
  obtain ⟨hi, lo, crc, e1, e2, e3, hiff⟩ := crc_compare m hbuf h2 h64
  have hne : ¬ (crc ≠ ((hi <<< 8) ||| lo) % 65536) := fun h => hiff.1 h hgood
  have hlen : m.au8Buffer.length = 64 := hbuf.1
  have r1 := rdBuf_getD (show 1 < m.au8Buffer.length by omega)
  have r2 := rdBuf_getD (show 2 < m.au8Buffer.length by omega)
  have r3 := rdBuf_getD (show 3 < m.au8Buffer.length by omega)
  have r4 := rdBuf_getD (show 4 < m.au8Buffer.length by omega)
  have r5 := rdBuf_getD (show 5 < m.au8Buffer.length by omega)
  have hsup : isSupported (m.au8Buffer.getD 1 0) = true := by
    rw [isSupported_iff]; omega
  unfold validateRequest
  simp only [e1, e2, e3, hne, r1, r2, r3, r4, r5, bind, Except.bind, pure, Except.pure,
    show ¬ m.u8BufferSize < 2 by omega, if_false, hsup, FUNC, ADD_HI, ADD_LO, NB_HI, NB_LO,
    MB_FC_READ_COILS, MB_FC_READ_DISCRETE_INPUT, MB_FC_WRITE_MULTIPLE_COILS, MB_FC_WRITE_COIL,
    MB_FC_WRITE_REGISTER, MB_FC_READ_REGISTERS, MB_FC_READ_INPUT_REGISTER,
    MB_FC_WRITE_MULTIPLE_REGISTERS]
  rcases hfun with h | h <;> simp only [h] <;> simp <;> split <;> rfl

theorem bigEndian_cons (r : Nat) (rs : List Nat) :
    bigEndian (r :: rs) = r / 256 % 256 :: r % 256 :: bigEndian rs := by
  simp [bigEndian]

theorem bigEndian_length (rs : List Nat) : (bigEndian rs).length = 2 * rs.length := by
  induction rs with
  | nil => rfl
  | cons r rs ih => rw [bigEndian_cons]; simp [ih]; omega

theorem bigEndian_lt (rs : List Nat) : ∀ b ∈ bigEndian rs, b < 256 := by
  induction rs with
  | nil => intro b hb; cases hb
  | cons r rs ih =>
    intro b hb
    rw [bigEndian_cons] at hb
    simp only [List.mem_cons] at hb
    rcases hb with h | h | h
    · omega
    · omega
    · exact ih b h

/-- The loop of `process_FC3` copies `k` registers from `i` on to the buffer, two bytes each. -/
theorem process_FC3_loop_eq (regs : List Nat) (last : Nat) (hlast : last ≤ regs.length)
    (h255 : last ≤ 255) :
    ∀ (k fuel i : Nat) (buf : List Nat) (size : Nat), i + k = last → k ≤ fuel →
      size + 2 * k ≤ 64 → buf.length = 64 →
      process_FC3_loop regs last fuel i buf size
        = .ok (buf.take size ++ bigEndian ((regs.drop i).take k) ++ buf.drop (size + 2 * k),
            size + 2 * k) := by
  intro k
  induction k with
  | zero =>
    intro fuel i buf size hik _ _ _
    have hnlt : ¬ i < last := by omega
    cases fuel <;> simp [process_FC3_loop, hnlt, bigEndian, pure, Except.pure]
  | succ k ih =>
    intro fuel i buf size hik hfuel hsz hlen
    obtain ⟨fuel', rfl⟩ : ∃ f', fuel = f' + 1 := ⟨fuel - 1, by omega⟩
    have hlt : i < last := by omega
    have hi : i < regs.length := by omega
    rw [process_FC3_loop, if_pos hlt, rdReg_ok hi]
    simp only [bind, Except.bind]
    rw [wrBuf_ok _ (by omega)]
    simp only []
    rw [Nat.mod_eq_of_lt (show size + 1 < 256 by omega), wrBuf_ok _ (by rw [List.length_set]; omega)]
    simp only []
    rw [Nat.mod_eq_of_lt (show size + 1 + 1 < 256 by omega),
      Nat.mod_eq_of_lt (show i + 1 < 256 by omega),
      ih fuel' (i + 1) _ (size + 1 + 1) (by omega) (by omega) (by omega)
        (by simp only [List.length_set]; exact hlen)]
    rw [set_set_eq _ _ _ _ (by omega)]
    have hd : regs.drop i = regs[i] :: regs.drop (i + 1) := List.drop_eq_getElem_cons hi
    rw [hd, List.take_succ_cons, bigEndian_cons, highByte_eq, lowByte_eq, Nat.mod_mod, Nat.mod_mod]
    have hl : (List.take size buf).length = size := by rw [List.length_take]; omega
    have hPX : (List.take size buf ++ [regs[i] / 256 % 256, regs[i] % 256]).length
        = size + 1 + 1 := by
      rw [List.length_append, hl]; rfl
    have e0 : List.take size buf ++ regs[i] / 256 % 256 :: regs[i] % 256 :: List.drop (size + 2) buf
        = (List.take size buf ++ [regs[i] / 256 % 256, regs[i] % 256])
          ++ List.drop (size + 2) buf := by
      simp
    rw [e0, List.take_left' hPX, ← hPX, List.drop_append, List.drop_drop, hPX]
    have e3 : size + 2 + 2 * k = size + 2 * (k + 1) := by omega
    rw [e3]
    simp

theorem take3_set2 (buf : List Nat) (v : Nat) (h : 3 ≤ buf.length) :
    (buf.set 2 v).take 3 = [buf.getD 0 0, buf.getD 1 0, v] := by
  match buf, h with
  | _ :: _ :: _ :: rest, _ => simp

/-- What `process_FC3` does when the registers asked for lie inside the table and the answer
fits the buffer: `u8StartAdd` and `u8regsno` are the request fields narrowed to `uint8_t`. -/
theorem process_FC3_eq (m : Modbus) (now fuel A8 Q8 : Nat) (hbuf : bufferOK m.au8Buffer)
    (hA : word (m.au8Buffer.getD 2 0) (m.au8Buffer.getD 3 0) % 256 = A8)
    (hQ : word (m.au8Buffer.getD 4 0) (m.au8Buffer.getD 5 0) % 256 = Q8)
    (hrange : A8 + Q8 ≤ m.au16regs.length) (h255 : A8 + Q8 ≤ 255)
    (hfit : 2 * Q8 + 5 ≤ 64) (hfuel : Q8 ≤ fuel) :
    ∃ m', m.process_FC3 now fuel = .ok (((5 + 2 * Q8 : Nat) : Int), m')
      ∧ m'.MODBUS_SERIAL.tx = m.MODBUS_SERIAL.tx ++
          [frameOf ([m.au8Buffer.getD 0 0, m.au8Buffer.getD 1 0, 2 * Q8]
            ++ bigEndian ((m.au16regs.drop A8).take Q8))]
      ∧ m'.au16regs = m.au16regs
      ∧ m'.u16errCnt = m.u16errCnt
      ∧ m'.u16OutCnt = (m.u16OutCnt + 1) % 65536
      ∧ m'.u8lastError = m.u8lastError
      ∧ m'.u8id = m.u8id
      ∧ bufferOK m'.au8Buffer := by
  have hlen : m.au8Buffer.length = 64 := hbuf.1
  have r2 := rdBuf_getD (show 2 < m.au8Buffer.length by omega)
  have r3 := rdBuf_getD (show 3 < m.au8Buffer.length by omega)
  have r4 := rdBuf_getD (show 4 < m.au8Buffer.length by omega)
  have r5 := rdBuf_getD (show 5 < m.au8Buffer.length by omega)
  unfold process_FC3
  simp only [ADD_HI, ADD_LO, NB_HI, NB_LO, r2, r3, r4, r5, hA, hQ, bind, Except.bind]
  rw [wrBuf_ok _ (by omega)]
  simp only []
  rw [process_FC3_loop_eq m.au16regs (A8 + Q8) hrange h255 Q8 fuel A8 _ 3 rfl hfuel (by omega)
    (by rw [List.length_set]; exact hlen)]
  simp only []
  rw [take3_set2 _ _ (by omega), Nat.mod_eq_of_lt (show Q8 * 2 < 256 by omega),
    Nat.mul_comm Q8 2]
  have hP : ∀ b ∈ [m.au8Buffer.getD 0 0, m.au8Buffer.getD 1 0, 2 * Q8]
      ++ bigEndian ((m.au16regs.drop A8).take Q8), b < 256 := by
    intro b hb
    rcases List.mem_append.1 hb with h | h
    · simp only [List.mem_cons, List.mem_singleton, List.not_mem_nil, or_false] at h
      rcases h with h | h | h
      · rw [h, List.getD_eq_getElem?_getD, List.getElem?_eq_getElem (by omega)]
        exact hbuf.2 _ (List.getElem_mem _)
      · rw [h, List.getD_eq_getElem?_getD, List.getElem?_eq_getElem (by omega)]
        exact hbuf.2 _ (List.getElem_mem _)
      · omega
    · exact bigEndian_lt _ b h
  have hPl : ([m.au8Buffer.getD 0 0, m.au8Buffer.getD 1 0, 2 * Q8]
      ++ bigEndian ((m.au16regs.drop A8).take Q8)).length = 3 + 2 * Q8 := by
    rw [List.length_append, bigEndian_length, List.length_take, List.length_drop]
    simp only [List.length_cons, List.length_nil]
    rw [Nat.min_eq_left (by omega)]
  have hdl : (List.drop (3 + 2 * Q8) (m.au8Buffer.set 2 (2 * Q8))).length = 64 - (3 + 2 * Q8) := by
    rw [List.length_drop, List.length_set, hlen]
  have hok : bufferOK ([m.au8Buffer.getD 0 0, m.au8Buffer.getD 1 0, 2 * Q8]
      ++ bigEndian ((m.au16regs.drop A8).take Q8)
      ++ List.drop (3 + 2 * Q8) (m.au8Buffer.set 2 (2 * Q8))) := by
    refine ⟨?_, ?_⟩
    · rw [List.length_append, hPl, hdl]
      show 3 + 2 * Q8 + (64 - (3 + 2 * Q8)) = 64
      omega
    · intro b hb
      rcases List.mem_append.1 hb with h | h
      · exact hP b h
      · have := List.mem_of_mem_drop h
        rcases List.mem_or_eq_of_mem_set this with h' | h'
        · exact hbuf.2 b h'
        · omega
  have hs := sendTxBuffer_eq { m with
    au8Buffer := [m.au8Buffer.getD 0 0, m.au8Buffer.getD 1 0, 2 * Q8]
      ++ bigEndian ((m.au16regs.drop A8).take Q8)
      ++ List.drop (3 + 2 * Q8) (m.au8Buffer.set 2 (2 * Q8))
    u8BufferSize := 3 + 2 * Q8 } now hok (by show 3 + 2 * Q8 + 2 ≤ 64; omega)
  rw [hs]
  have htk : List.take (3 + 2 * Q8) ([m.au8Buffer.getD 0 0, m.au8Buffer.getD 1 0, 2 * Q8]
      ++ bigEndian ((m.au16regs.drop A8).take Q8)
      ++ List.drop (3 + 2 * Q8) (m.au8Buffer.set 2 (2 * Q8)))
      = [m.au8Buffer.getD 0 0, m.au8Buffer.getD 1 0, 2 * Q8]
        ++ bigEndian ((m.au16regs.drop A8).take Q8) := List.take_left' hPl
  have hret : toInt8 ((3 + 2 * Q8 + 2) % 256) = ((5 + 2 * Q8 : Nat) : Int) := by
    unfold toInt8
    rw [Nat.mod_mod, Nat.mod_eq_of_lt (show 3 + 2 * Q8 + 2 < 256 by omega),
      if_pos (show 3 + 2 * Q8 + 2 < 128 by omega)]
    congr 1; omega
  simp only [pure, Except.pure, hret]
  refine ⟨_, rfl, ?_, rfl, rfl, rfl, rfl, rfl, ?_⟩
  · show m.MODBUS_SERIAL.tx ++ [frameOf (List.take (3 + 2 * Q8) _)] = _
    rw [htk]
  · show bufferOK (frameOf (List.take (3 + 2 * Q8) _) ++ List.drop (3 + 2 * Q8 + 2) _)
    rw [htk]
    have hfl : (frameOf ([m.au8Buffer.getD 0 0, m.au8Buffer.getD 1 0, 2 * Q8]
        ++ bigEndian ((m.au16regs.drop A8).take Q8))).length = 3 + 2 * Q8 + 2 := by
      rw [frameOf_length, hPl]
    have := bufferOK_append_drop (frameOf ([m.au8Buffer.getD 0 0,
        m.au8Buffer.getD 1 0, 2 * Q8] ++ bigEndian ((m.au16regs.drop A8).take Q8))) hok
      (by
        intro b hb
        unfold frameOf at hb
        rcases List.mem_append.1 hb with h | h
        · exact hP b h
        · have hc := crc16_lt _ hP
          simp only [List.mem_cons, List.mem_singleton, List.not_mem_nil, or_false] at h
          rcases h with h | h <;> omega)
      (by rw [hfl]; omega)
    rw [hfl] at this
    exact this

/-- The slave's dispatch on a checksum-valid request for functions 3 or 4 that passes the
range check: the answer is built by `process_FC3`. -/
theorem poll_regs_frame_read_regs (m : Modbus) (n now fuel : Nat)
    (hbuf : bufferOK m.au8Buffer) (h7 : 7 ≤ n) (h64 : n ≤ 64) (hsz : m.u8BufferSize = n)
    (haddr : m.au8Buffer.getD 0 0 = m.u8id) (hgood : validFrame (m.au8Buffer.take n))
    (hfun : m.au8Buffer.getD 1 0 = 3 ∨ m.au8Buffer.getD 1 0 = 4)
    (hin : ¬ (word (m.au8Buffer.getD 2 0) (m.au8Buffer.getD 3 0)
            + word (m.au8Buffer.getD 4 0) (m.au8Buffer.getD 5 0)) % 65536 % 256 > m.u8regsize) :
    m.poll_regs_frame (n : Int) now fuel
      = process_FC3 { m with u32timeOut := now % 4294967296, u8lastError := 0 } now fuel := by
  have hlen : m.au8Buffer.length = 64 := hbuf.1
  have hv := validateRequest_read_regs { m with u8lastError := toUInt8 (n : Int) } hbuf
    (show 2 ≤ m.u8BufferSize by omega) (show m.u8BufferSize ≤ 64 by omega)
    (by rw [hsz]; exact hgood) hfun
  rw [if_neg hin] at hv
  have r0 := rdBuf_getD (show 0 < m.au8Buffer.length by omega)
  have r1 := rdBuf_getD (show 1 < m.au8Buffer.length by omega)
  unfold poll_regs_frame
  simp only [show ¬ ((n : Int) < 7) by omega, if_false, ID, r0, haddr, bind, Except.bind,
    ne_eq, not_true_eq_false]
  rw [hv]
  simp only [gt_iff_lt, Nat.lt_irrefl, if_false, FUNC, r1, MB_FC_READ_COILS,
    MB_FC_READ_DISCRETE_INPUT, MB_FC_READ_INPUT_REGISTER, MB_FC_READ_REGISTERS]
  rcases hfun with h | h <;> rw [h] <;> simp

/-- The slave's dispatch on a checksum-valid request for functions 3 or 4 that fails the
range check: the exception frame `[id, f + 0x80, 2]` is sent. -/
theorem poll_regs_frame_read_regs_range (m : Modbus) (n now fuel : Nat)
    (hbuf : bufferOK m.au8Buffer) (h7 : 7 ≤ n) (h64 : n ≤ 64) (hsz : m.u8BufferSize = n)
    (haddr : m.au8Buffer.getD 0 0 = m.u8id) (hgood : validFrame (m.au8Buffer.take n))
    (hfun : m.au8Buffer.getD 1 0 = 3 ∨ m.au8Buffer.getD 1 0 = 4)
    (hid : m.u8id < 256)
    (hout : (word (m.au8Buffer.getD 2 0) (m.au8Buffer.getD 3 0)
            + word (m.au8Buffer.getD 4 0) (m.au8Buffer.getD 5 0)) % 65536 % 256 > m.u8regsize) :
    ∃ m', m.poll_regs_frame (n : Int) now fuel = .ok (2, m')
      ∧ m'.MODBUS_SERIAL.tx = m.MODBUS_SERIAL.tx ++
          [frameOf [m.u8id, m.au8Buffer.getD 1 0 + 0x80, EXC_ADDR_RANGE]]
      ∧ m'.au16regs = m.au16regs
      ∧ m'.u8lastError = EXC_ADDR_RANGE := by
  have hlen : m.au8Buffer.length = 64 := hbuf.1
  have hv := validateRequest_read_regs { m with u8lastError := toUInt8 (n : Int) } hbuf
    (show 2 ≤ m.u8BufferSize by omega) (show m.u8BufferSize ≤ 64 by omega)
    (by rw [hsz]; exact hgood) hfun
  rw [if_pos hout] at hv
  have r0 := rdBuf_getD (show 0 < m.au8Buffer.length by omega)
  have r1 := rdBuf_getD (show 1 < m.au8Buffer.length by omega)
  unfold poll_regs_frame
  simp only [show ¬ ((n : Int) < 7) by omega, if_false, ID, r0, haddr, bind, Except.bind,
    ne_eq, not_true_eq_false]
  rw [hv]
  simp only [EXC_ADDR_RANGE, NO_REPLY, gt_iff_lt, Nat.lt_irrefl, if_false,
    show (0 : Nat) < 2 by decide, show ¬ (2 : Nat) = 255 by decide, if_true, not_false_eq_true]
  unfold buildException
  simp only [FUNC, ID, r1, bind, Except.bind]
  rw [wrBuf_ok _ (by omega)]
  simp only []
  rw [wrBuf_ok _ (by rw [List.length_set]; omega)]
  simp only []
  rw [wrBuf_ok _ (by simp only [List.length_set]; omega)]
  simp only [pure, Except.pure, EXCEPTION_SIZE]
  have hf256 : m.au8Buffer.getD 1 0 + 128 < 256 := by omega
  have h3 : (((m.au8Buffer.set 0 (m.u8id % 256)).set 1 ((m.au8Buffer.getD 1 0 + 128) % 256)).set 2
      (2 % 256)).take 3 = [m.u8id, m.au8Buffer.getD 1 0 + 128, 2] := by
    rw [take3_set2 _ _ (by simp only [List.length_set]; omega), Nat.mod_eq_of_lt hid,
      Nat.mod_eq_of_lt hf256]
    match hb : m.au8Buffer, hlen with
    | _ :: _ :: _ :: rest, _ => simp
  have hok : bufferOK (((m.au8Buffer.set 0 (m.u8id % 256)).set 1
      ((m.au8Buffer.getD 1 0 + 128) % 256)).set 2 (2 % 256)) :=
    bufferOK_set (bufferOK_set (bufferOK_set hbuf _ _ (Nat.mod_lt _ (by decide))) _ _
      (Nat.mod_lt _ (by decide))) _ _ (Nat.mod_lt _ (by decide))
  rw [sendTxBuffer_eq _ now hok (show 3 + 2 ≤ 64 by omega)]
  simp only [h3]
  exact ⟨_, rfl, rfl, rfl, rfl⟩

/-! ## Master: the answer to a read of registers -/

theorem validateAnswer_ok (m : Modbus) (hbuf : bufferOK m.au8Buffer)
    (h2 : 2 ≤ m.u8BufferSize) (h64 : m.u8BufferSize ≤ 64)
    (hgood : validFrame (m.au8Buffer.take m.u8BufferSize))
    (hexc : m.au8Buffer.getD 1 0 &&& 0x80 = 0) (hsup : isSupported (m.au8Buffer.getD 1 0) = true) :
    m.validateAnswer = .ok (0, m) := by
  obtain ⟨hi, lo, crc, e1, e2, e3, hiff⟩ := crc_compare m hbuf h2 h64
  have hne : ¬ (crc ≠ ((hi <<< 8) ||| lo) % 65536) := fun h => hiff.1 h hgood
  have hlen : m.au8Buffer.length = 64 := hbuf.1
  have r1 := rdBuf_getD (show 1 < m.au8Buffer.length by omega)
  unfold validateAnswer
  simp only [e1, e2, e3, hne, r1, bind, Except.bind, pure, Except.pure,
    show ¬ m.u8BufferSize < 2 by omega, if_false, FUNC, hexc, hsup, ne_eq, not_true_eq_false,
    Bool.not_true, Bool.false_eq_true]

/-- The loop of `get_FC3` stores the words found at `u8byte` in table entries `i` onwards. -/
theorem get_FC3_loop_eq (buf : List Nat) (hlen : buf.length = 64) :
    ∀ (rs : List Nat) (i u8byte : Nat) (regs rest : List Nat), regsOK rs →
      buf.drop u8byte = bigEndian rs ++ rest → i + rs.length ≤ regs.length →
      get_FC3_loop buf rs.length i u8byte regs
        = .ok (regs.take i ++ rs ++ regs.drop (i + rs.length)) := by
  intro rs
  induction rs with
  | nil =>
    intro i u8byte regs rest _ _ _
    simp [get_FC3_loop, pure, Except.pure]
  | cons r rs ih =>
    intro i u8byte regs rest hrs hdrop hreg
    have hr : r < 65536 := hrs r (List.mem_cons_self _ _)
    rw [bigEndian_cons] at hdrop
    have hub : u8byte + 2 ≤ buf.length := by
      have := congrArg List.length hdrop
      rw [List.length_drop] at this
      simp only [List.cons_append, List.length_cons] at this
      omega
    have g0 : buf[u8byte]? = some (r / 256 % 256) := by
      have := congrArg (fun l => l[0]?) hdrop
      simpa [List.getElem?_drop] using this
    have g1 : buf[u8byte + 1]? = some (r % 256) := by
      have := congrArg (fun l => l[1]?) hdrop
      simpa [List.getElem?_drop] using this
    have hd2 : buf.drop (u8byte + 2) = bigEndian rs ++ rest := by
      have := congrArg (List.drop 2) hdrop
      simpa [List.drop_drop] using this
    simp only [List.length_cons] at hreg ⊢
    rw [get_FC3_loop, rdBuf_of_getElem? g0, rdBuf_of_getElem? g1]
    simp only [bind, Except.bind]
    rw [wrReg_ok _ (by omega)]
    simp only []
    rw [Nat.mod_eq_of_lt (show u8byte + 2 < 256 by omega),
      ih (i + 1) (u8byte + 2) _ rest (fun x hx => hrs x (List.mem_cons_of_mem _ hx)) hd2
        (by rw [List.length_set]; omega)]
    have hw : word (r / 256 % 256) (r % 256) % 65536 = r := by
      rw [word_eq (Nat.mod_lt _ (by decide)) (Nat.mod_lt _ (by decide))]
      omega
    rw [hw]
    have e1 : (regs.set i r).take (i + 1) = regs.take i ++ [r] := by
      rw [List.set_eq_take_append_cons_drop, if_pos (by omega)]
      have hl : (List.take i regs).length = i := by rw [List.length_take]; omega
      have : List.take i regs ++ r :: List.drop (i + 1) regs
          = (List.take i regs ++ [r]) ++ List.drop (i + 1) regs := by simp
      rw [this, List.take_left' (by rw [List.length_append, hl]; rfl)]
    have e2 : (regs.set i r).drop (i + 1 + rs.length) = regs.drop (i + (rs.length + 1)) := by
      rw [List.drop_set_of_lt _ _ (by omega)]
      congr 1; omega
    rw [e1, e2]
    simp

/-- The master's dispatch on a checksum-valid answer with function code 3 or 4. -/
theorem poll_frame_read_regs (m : Modbus) (n : Nat)
    (hbuf : bufferOK m.au8Buffer) (h6 : 6 ≤ n) (h64 : n ≤ 64) (hsz : m.u8BufferSize = n)
    (hgood : validFrame (m.au8Buffer.take n))
    (hfun : m.au8Buffer.getD 1 0 = 3 ∨ m.au8Buffer.getD 1 0 = 4) :
    m.poll_frame (n : Int)
      = (get_FC3 { m with u8AnswerID := m.au8Buffer.getD 0 0 }).bind
          (fun m' => .ok (toInt8 m'.u8BufferSize, { m' with u8state := COM_IDLE })) := by
  have hlen : m.au8Buffer.length = 64 := hbuf.1
  have hv := validateAnswer_ok m hbuf (by omega) (by omega) (by rw [hsz]; exact hgood)
    (by rcases hfun with h | h <;> rw [h] <;> decide)
    (by rw [isSupported_iff]; omega)
  have r0 := rdBuf_getD (show 0 < m.au8Buffer.length by omega)
  have r1 := rdBuf_getD (show 1 < m.au8Buffer.length by omega)
  unfold poll_frame
  simp only [show ¬ ((n : Int) < 6) by omega, if_false, hv, bind, Except.bind, ne_eq,
    not_true_eq_false, ID, FUNC, r0, r1, MB_FC_READ_COILS, MB_FC_READ_DISCRETE_INPUT,
    MB_FC_READ_INPUT_REGISTER, MB_FC_READ_REGISTERS, pure, Except.pure]
  rcases hfun with h | h <;> rw [h] <;> simp

/-- What `get_FC3` does with an answer `[id, f, 2 * k, words ...]` whose `k` words fit the
master's table. -/
theorem get_FC3_eq (m : Modbus) (hbuf : bufferOK m.au8Buffer) (a f : Nat) (rs rest : List Nat)
    (hrs : regsOK rs) (hb : m.au8Buffer = [a, f, 2 * rs.length] ++ bigEndian rs ++ rest)
    (hM : rs.length ≤ m.au16regs.length) :
    m.get_FC3 = .ok { m with au16regs := rs ++ m.au16regs.drop rs.length } := by
  have hlen : m.au8Buffer.length = 64 := hbuf.1
  have r2 : rdBuf m.au8Buffer 2 = .ok (2 * rs.length) := by
    apply rdBuf_of_getElem?
    rw [hb]; simp
  have hd : m.au8Buffer.drop 3 = bigEndian rs ++ rest := by
    rw [hb]; simp
  unfold get_FC3
  simp only [r2, bind, Except.bind]
  rw [show 2 * rs.length / 2 = rs.length by omega,
    get_FC3_loop_eq m.au8Buffer hlen rs 0 3 m.au16regs rest hrs hd (by omega)]
  simp [pure, Except.pure]

/-! ## End to end: read holding registers -/

theorem frameOf_lt (p : List Nat) (hp : ∀ b ∈ p, b < 256) : ∀ b ∈ frameOf p, b < 256 := by
  intro b hb
  unfold frameOf at hb
  have hc := crc16_lt p hp
  rcases List.mem_append.1 hb with h | h
  · exact hp b h
  · simp only [List.mem_cons, List.mem_singleton, List.not_mem_nil, or_false] at h
    rcases h with h | h <;> omega

theorem getD_frameOf (p : List Nat) (i : Nat) (hi : i < p.length) :
    (frameOf p).getD i 0 = p.getD i 0 := by
  simp [frameOf, List.getD_eq_getElem?_getD, List.getElem?_append_left hi]

/-- The slave answers a read request for `Q` registers from `A` that lies inside the table. -/
theorem poll_regs_read_request (s : Modbus) (T : List Nat) (sid f A Q N t1 t2 fuel : Nat)
    (hbuf : bufferOK s.au8Buffer) (hsid : s.u8id = sid) (hs256 : sid < 256)
    (hf : f = 3 ∨ f = 4) (hN : T.length = N) (hN255 : N ≤ 255)
    (hQ : Q ≤ 29) (hAQ : A + Q ≤ N) (hfuel : Q ≤ fuel) (hT : T35 ≤ sub32 t2 t1) :
    ∃ s1, (received s (frameOf [sid, f, 0, A, 0, Q]) t1).poll_regs T N t2 fuel
          = .ok (((5 + 2 * Q : Nat) : Int), s1)
      ∧ s1.MODBUS_SERIAL.tx = s.MODBUS_SERIAL.tx ++
          [frameOf ([sid, f, 2 * Q] ++ bigEndian ((T.drop A).take Q))]
      ∧ s1.au16regs = T
      ∧ s1.u16errCnt = s.u16errCnt := by
  have hp : ∀ b ∈ [sid, f, 0, A, 0, Q], b < 256 := by
    intro b hb
    simp only [List.mem_cons, List.mem_singleton, List.not_mem_nil, or_false] at hb
    rcases hb with h | h | h | h | h | h <;> omega
  have hfb := frameOf_lt _ hp
  have hfl : (frameOf [sid, f, 0, A, 0, Q]).length = 8 := rfl
  rw [poll_regs_received s _ T t1 N t2 fuel hbuf hfb (by rw [hfl]; decide) (by rw [hfl]; decide) hT]
  generalize hs0 : afterRx (withTable (received s (frameOf [sid, f, 0, A, 0, Q]) t1) T N)
    (frameOf [sid, f, 0, A, 0, Q]) = s0
  have hb0 : bufferOK s0.au8Buffer := by
    rw [← hs0]; exact bufferOK_afterRx _ _ hbuf hfb (by rw [hfl]; decide)
  have g : ∀ i, i < 6 → s0.au8Buffer.getD i 0 = [sid, f, 0, A, 0, Q].getD i 0 := by
    intro i hi
    rw [← hs0, getD_afterRx _ _ i (by rw [hfl]; omega), getD_frameOf _ i (by simpa using hi)]
  have g0 : s0.au8Buffer.getD 0 0 = sid := g 0 (by decide)
  have g1 : s0.au8Buffer.getD 1 0 = f := g 1 (by decide)
  have g2 : s0.au8Buffer.getD 2 0 = 0 := g 2 (by decide)
  have g3 : s0.au8Buffer.getD 3 0 = A := g 3 (by decide)
  have g4 : s0.au8Buffer.getD 4 0 = 0 := g 4 (by decide)
  have g5 : s0.au8Buffer.getD 5 0 = Q := g 5 (by decide)
  have hsz : s0.u8BufferSize = 8 := by rw [← hs0]; rfl
  have hid0 : s0.u8id = sid := by rw [← hs0]; exact hsid
  have hreg : s0.au16regs = T := by rw [← hs0]; rfl
  have hrs : s0.u8regsize = N := by rw [← hs0]; exact Nat.mod_eq_of_lt (by omega)
  have htx : s0.MODBUS_SERIAL.tx = s.MODBUS_SERIAL.tx := by rw [← hs0]; rfl
  have herr : s0.u16errCnt = s.u16errCnt := by rw [← hs0]; rfl
  have hgood : validFrame (s0.au8Buffer.take 8) := by
    rw [← hsz, ← hs0, take_afterRx]; exact validFrame_frameOf _
  have wA : word (s0.au8Buffer.getD 2 0) (s0.au8Buffer.getD 3 0) = A := by
    rw [g2, g3, word_eq (by decide) (by omega)]; omega
  have wQ : word (s0.au8Buffer.getD 4 0) (s0.au8Buffer.getD 5 0) = Q := by
    rw [g4, g5, word_eq (by decide) (by omega)]; omega
  rw [hfl]
  rw [poll_regs_frame_read_regs s0 8 t2 fuel hb0 (by decide) (by decide) hsz
    (by rw [g0, hid0]) hgood (by rw [g1]; exact hf)
    (by rw [wA, wQ, hrs]; omega)]
  obtain ⟨s1, h1, h2, h3, h4, -⟩ := process_FC3_eq
    { s0 with u32timeOut := t2 % 4294967296, u8lastError := 0 } t2 fuel A Q hb0
    (by show word (s0.au8Buffer.getD 2 0) (s0.au8Buffer.getD 3 0) % 256 = A; rw [wA]; omega)
    (by show word (s0.au8Buffer.getD 4 0) (s0.au8Buffer.getD 5 0) % 256 = Q; rw [wQ]; omega)
    (by show A + Q ≤ s0.au16regs.length; rw [hreg, hN]; exact hAQ) (by omega) (by omega) hfuel
  refine ⟨s1, h1, ?_, ?_, ?_⟩
  · rw [h2]
    show s0.MODBUS_SERIAL.tx ++ [frameOf ([s0.au8Buffer.getD 0 0, s0.au8Buffer.getD 1 0, 2 * Q]
      ++ bigEndian ((s0.au16regs.drop A).take Q))] = _
    rw [htx, g0, g1, hreg]
  · rw [h3]; exact hreg
  · rw [h4]; exact herr

/-- The master takes the words of a read answer into the first entries of its table. -/
theorem poll_read_answer (m : Modbus) (rs : List Nat) (sid f t3 t4 : Nat)
    (hbuf : bufferOK m.au8Buffer) (hs256 : sid < 256) (hf : f = 3 ∨ f = 4)
    (hrs : regsOK rs) (hQ1 : 1 ≤ rs.length) (hQ : rs.length ≤ 29)
    (hM : rs.length ≤ m.au16regs.length)
    (hT : T35 ≤ sub32 t4 t3) (hwd : ¬ sub32 t4 m.u32timeOut > m.u16timeOut) :
    ∃ m2, (received m (frameOf ([sid, f, 2 * rs.length] ++ bigEndian rs)) t3).poll t4
          = .ok (((5 + 2 * rs.length : Nat) : Int), m2)
      ∧ m2.u8state = COM_IDLE
      ∧ m2.au16regs = rs ++ m.au16regs.drop rs.length
      ∧ m2.u8AnswerID = sid
      ∧ m2.u16errCnt = m.u16errCnt
      ∧ m2.MODBUS_SERIAL.tx = m.MODBUS_SERIAL.tx := by
  have hp : ∀ b ∈ [sid, f, 2 * rs.length] ++ bigEndian rs, b < 256 := by
    intro b hb
    rcases List.mem_append.1 hb with h | h
    · simp only [List.mem_cons, List.mem_singleton, List.not_mem_nil, or_false] at h
      rcases h with h | h | h <;> omega
    · exact bigEndian_lt _ b h
  have hfb := frameOf_lt _ hp
  have hpl : ([sid, f, 2 * rs.length] ++ bigEndian rs).length = 3 + 2 * rs.length := by
    rw [List.length_append, bigEndian_length]; rfl
  have hfl : (frameOf ([sid, f, 2 * rs.length] ++ bigEndian rs)).length = 5 + 2 * rs.length := by
    rw [frameOf_length, hpl]; omega
  rw [poll_received m _ t3 t4 hbuf hfb (by rw [hfl]; omega) (by rw [hfl]; omega) hT hwd]
  generalize hm0 : afterRx (withAnswerCleared
    (received m (frameOf ([sid, f, 2 * rs.length] ++ bigEndian rs)) t3))
    (frameOf ([sid, f, 2 * rs.length] ++ bigEndian rs)) = m0
  have hb0 : bufferOK m0.au8Buffer := by
    rw [← hm0]; exact bufferOK_afterRx _ _ hbuf hfb (by rw [hfl]; omega)
  have hsz : m0.u8BufferSize = 5 + 2 * rs.length := by rw [← hm0]; exact hfl
  have hreg : m0.au16regs = m.au16regs := by rw [← hm0]; rfl
  have herr : m0.u16errCnt = m.u16errCnt := by rw [← hm0]; rfl
  have htx : m0.MODBUS_SERIAL.tx = m.MODBUS_SERIAL.tx := by rw [← hm0]; rfl
  have hbuf0 : m0.au8Buffer = [sid, f, 2 * rs.length] ++ bigEndian rs
      ++ ([crc16 ([sid, f, 2 * rs.length] ++ bigEndian rs) % 256,
            crc16 ([sid, f, 2 * rs.length] ++ bigEndian rs) / 256]
          ++ m.au8Buffer.drop (5 + 2 * rs.length)) := by
    rw [← hm0]
    show frameOf _ ++ List.drop (frameOf _).length m.au8Buffer = _
    rw [hfl]
    simp [frameOf]
  have g0 : m0.au8Buffer.getD 0 0 = sid := by rw [hbuf0]; rfl
  have g1 : m0.au8Buffer.getD 1 0 = f := by rw [hbuf0]; rfl
  have hgood : validFrame (m0.au8Buffer.take (5 + 2 * rs.length)) := by
    rw [← hsz, ← hm0, take_afterRx]; exact validFrame_frameOf _
  rw [hfl, poll_frame_read_regs m0 (5 + 2 * rs.length) hb0 (by omega) (by omega) hsz hgood
    (by rw [g1]; exact hf)]
  rw [get_FC3_eq { m0 with u8AnswerID := m0.au8Buffer.getD 0 0 } hb0 sid f rs _ hrs hbuf0
    (by show rs.length ≤ m0.au16regs.length; rw [hreg]; exact hM)]
  have hret : toInt8 m0.u8BufferSize = ((5 + 2 * rs.length : Nat) : Int) := by
    rw [hsz]
    unfold toInt8
    rw [Nat.mod_eq_of_lt (show 5 + 2 * rs.length < 256 by omega),
      if_pos (show 5 + 2 * rs.length < 128 by omega)]
  simp only [Except.bind, hret]
  refine ⟨_, rfl, rfl, ?_, g0, herr, htx⟩
  show rs ++ m0.au16regs.drop rs.length = _
  rw [hreg]

/-- C4: end to end, for every slave address `s` in 1..247, slave table `T` of declared size
`N`, start `A` and quantity `Q` with `1 ≤ Q ≤ 29` and `A + Q ≤ N`: an idle master (address 0)
runs `query {node=s, function=3, start=A, quantity=Q, registers=M}`, the slave's poll processes
the transmitted request and the master's poll processes the slave's transmitted response
(frames delivered whole, silence interval elapsed, watchdog not expired); then the master's
poll returns the response length `5 + 2Q`, the master is back in `COM_IDLE`, and
`M[i] = T[A + i]` for every `i < Q`. -/
theorem end_to_end_read_holding (m s : Modbus) (T M : List Nat)
    (sid A Q N t0 t1 t2 t3 t4 fuel : Nat)
    (hm : bufferOK m.au8Buffer) (hmid : m.u8id = 0) (hidle : m.u8state = COM_IDLE)
    (hs : bufferOK s.au8Buffer) (hsid : s.u8id = sid) (h1 : 1 ≤ sid) (h247 : sid ≤ 247)
    (hT : regsOK T) (hN : T.length = N) (hN255 : N ≤ 255)
    (hQ1 : 1 ≤ Q) (hQ29 : Q ≤ 29) (hAQ : A + Q ≤ N) (hM : Q ≤ M.length) (hfuel : Q ≤ fuel)
    (hsil1 : T35 ≤ sub32 t2 t1) (hsil2 : T35 ≤ sub32 t4 t3)
    (hwd : sub32 t4 t0 ≤ m.u16timeOut) :
    ∃ m1 s1 m2,
      m.query ⟨sid, 3, A, Q, M⟩ t0 = .ok (0, m1)
      ∧ (received s (lastTx m1) t1).poll_regs T N t2 fuel = .ok (((5 + 2 * Q : Nat) : Int), s1)
      ∧ lastTx s1 = frameOf ([sid, 3, 2 * Q] ++ bigEndian ((T.drop A).take Q))
      ∧ (received m1 (lastTx s1) t3).poll t4 = .ok (((5 + 2 * Q : Nat) : Int), m2)
      ∧ m2.u8state = COM_IDLE
      ∧ m2.au16regs.length = M.length
      ∧ ∀ i, i < Q → m2.au16regs[i]? = T[A + i]? := by
  have hq := query_read_eq m ⟨sid, 3, A, Q, M⟩ t0 hm hmid hidle h1 h247 (Or.inr (Or.inr (Or.inl rfl)))
  generalize hm1 : ({ m with
      MODBUS_SERIAL :=
        { rx := if m.u8txenpin > 1 then [] else m.MODBUS_SERIAL.rx
          tx := m.MODBUS_SERIAL.tx ++ [frameOf [sid, 3, A / 256 % 256, A % 256,
            Q / 256 % 256, Q % 256]] }
      txen := if m.u8txenpin > 1 then false else m.txen
      au16regs := M
      au8Buffer := frameOf [sid, 3, A / 256 % 256, A % 256, Q / 256 % 256, Q % 256]
        ++ m.au8Buffer.drop 8
      u8BufferSize := 0
      u32timeOut := t0 % 4294967296
      u16OutCnt := (m.u16OutCnt + 1) % 65536
      u8state := COM_WAITING
      u8lastError := 0 } : Modbus) = m1 at hq
  have eA1 : A / 256 % 256 = 0 := by omega
  have eA2 : A % 256 = A := by omega
  have eQ1 : Q / 256 % 256 = 0 := by omega
  have eQ2 : Q % 256 = Q := by omega
  have hp : ∀ b ∈ [sid, 3, 0, A, 0, Q], b < 256 := by
    intro b hb
    simp only [List.mem_cons, List.mem_singleton, List.not_mem_nil, or_false] at hb
    rcases hb with h | h | h | h | h | h <;> omega
  have hltx : lastTx m1 = frameOf [sid, 3, 0, A, 0, Q] := by
    rw [← hm1]
    simp [lastTx, eA1, eA2, eQ1, eQ2]
  have hb1 : bufferOK m1.au8Buffer := by
    rw [← hm1]
    exact bufferOK_append_drop (frameOf [sid, 3, A / 256 % 256, A % 256,
      Q / 256 % 256, Q % 256]) hm (by rw [eA1, eA2, eQ1, eQ2]; exact frameOf_lt _ hp)
      (by rw [frameOf_length]; simp)
  have hreg1 : m1.au16regs = M := by rw [← hm1]
  have hwd1 : ¬ sub32 t4 m1.u32timeOut > m1.u16timeOut := by
    rw [← hm1]
    show ¬ sub32 t4 (t0 % 4294967296) > m.u16timeOut
    rw [sub32_mod]; omega
  obtain ⟨s1, hs1, hs1tx, -, -⟩ := poll_regs_read_request s T sid 3 A Q N t1 t2 fuel hs hsid
    (by omega) (Or.inl rfl) hN hN255 hQ29 hAQ hfuel hsil1
  have hrl : ((T.drop A).take Q).length = Q := by
    rw [List.length_take, List.length_drop]; omega
  have hltx1 : lastTx s1 = frameOf ([sid, 3, 2 * Q] ++ bigEndian ((T.drop A).take Q)) := by
    simp [lastTx, hs1tx]
  have hrs : regsOK ((T.drop A).take Q) :=
    fun r hr => hT r (List.mem_of_mem_drop (List.mem_of_mem_take hr))
  obtain ⟨m2, hm2, hst, hregs, -, -, -⟩ := poll_read_answer m1 ((T.drop A).take Q) sid 3 t3 t4
    hb1 (by omega) (Or.inl rfl) hrs (by rw [hrl]; exact hQ1) (by rw [hrl]; exact hQ29)
    (by rw [hrl, hreg1]; exact hM)
    hsil2 hwd1
  rw [hrl] at hm2 hregs
  refine ⟨m1, s1, m2, hq, ?_, hltx1, ?_, hst, ?_, ?_⟩
  · rw [hltx]; exact hs1
  · rw [hltx1]; exact hm2
  · rw [hregs, List.length_append, hrl, hreg1, List.length_drop]; omega
  · intro i hi
    rw [hregs, List.getElem?_append_left (by rw [hrl]; exact hi), List.getElem?_take_of_lt hi,
      List.getElem?_drop]

set_option maxRecDepth 20000 in
/-- C4 on the scenario of the specification: slave 5 with table `[10, 20, 30]`, start 0,
quantity 2; the response is `05 03 04 00 0A 00 14 crc crc` and the master's table becomes
`[10, 20]`. -/
theorem end_to_end_read_holding_witness :
    ∃ m1 s1 m2,
      (exampleNode 0 []).query ⟨5, 3, 0, 2, [0, 0]⟩ 100 = .ok (0, m1)
      ∧ (received (exampleNode 5 []) (lastTx m1) 100).poll_regs [10, 20, 30] 3 110 2
          = .ok (9, s1)
      ∧ lastTx s1 = [5, 3, 4, 0, 10, 0, 20, 0x9F, 0xFE]
      ∧ (received m1 (lastTx s1) 110).poll 120 = .ok (9, m2)
      ∧ m2.u8state = COM_IDLE
      ∧ m2.au16regs = [10, 20] := by
  obtain ⟨m1, s1, m2, h1, h2, h3, h4, h5, h6, h7⟩ :=
    end_to_end_read_holding (exampleNode 0 []) (exampleNode 5 []) [10, 20, 30] [0, 0]
      5 0 2 3 100 100 110 110 120 2 (by decide) (by decide) (by decide) (by decide) (by decide)
      (by decide) (by decide) (by decide) (by decide) (by decide) (by decide) (by decide)
      (by decide) (by decide) (by decide) (by decide) (by decide) (by decide)
  refine ⟨m1, s1, m2, h1, h2, ?_, h4, h5, ?_⟩
  · rw [h3]; decide
  · apply List.ext_getElem?
    intro n
    rcases Nat.lt_or_ge n 2 with hn | hn
    · rw [h7 n hn]
      interval_cases n <;> rfl
    · rw [List.getElem?_eq_none (by rw [h6]; exact hn), List.getElem?_eq_none (by exact hn)]

/-! ## Slave: exception answers -/

/-- `buildException` followed by `sendTxBuffer`: the frame sent is
`[u8id, u8func + 0x80, u8exception]` plus checksum, the function byte being computed in a
`uint8_t`. -/
theorem exception_reply (m : Modbus) (e now : Nat) (hbuf : bufferOK m.au8Buffer)
    (hid : m.u8id < 256) (he : e < 256) :
    ∃ x m', m.buildException e = .ok x ∧ x.sendTxBuffer now = .ok m'
      ∧ m'.MODBUS_SERIAL.tx = m.MODBUS_SERIAL.tx ++
          [frameOf [m.u8id, (m.au8Buffer.getD 1 0 + 0x80) % 256, e]]
      ∧ m'.au16regs = m.au16regs
      ∧ m'.u16errCnt = m.u16errCnt
      ∧ m'.u16OutCnt = (m.u16OutCnt + 1) % 65536 := by
  have hlen : m.au8Buffer.length = 64 := hbuf.1
  have r1 := rdBuf_getD (show 1 < m.au8Buffer.length by omega)
  unfold buildException
  simp only [FUNC, ID, r1, bind, Except.bind]
  rw [wrBuf_ok _ (by omega)]
  simp only []
  rw [wrBuf_ok _ (by rw [List.length_set]; omega)]
  simp only []
  rw [wrBuf_ok _ (by simp only [List.length_set]; omega)]
  simp only [pure, Except.pure, EXCEPTION_SIZE]
  have h3 : (((m.au8Buffer.set 0 (m.u8id % 256)).set 1 ((m.au8Buffer.getD 1 0 + 128) % 256)).set 2
      (e % 256)).take 3 = [m.u8id, (m.au8Buffer.getD 1 0 + 128) % 256, e] := by
    rw [take3_set2 _ _ (by simp only [List.length_set]; omega), Nat.mod_eq_of_lt hid,
      Nat.mod_eq_of_lt he]
    match hb : m.au8Buffer, hlen with
    | _ :: _ :: _ :: rest, _ => simp
  have hok : bufferOK (((m.au8Buffer.set 0 (m.u8id % 256)).set 1
      ((m.au8Buffer.getD 1 0 + 128) % 256)).set 2 (e % 256)) :=
    bufferOK_set (bufferOK_set (bufferOK_set hbuf _ _ (Nat.mod_lt _ (by decide))) _ _
      (Nat.mod_lt _ (by decide))) _ _ (Nat.mod_lt _ (by decide))
  refine ⟨_, _, rfl, sendTxBuffer_eq _ now hok (show 3 + 2 ≤ 64 by omega), ?_, rfl, rfl, rfl⟩
  simp only [h3]

theorem validateRequest_unsupported (m : Modbus) (hbuf : bufferOK m.au8Buffer)
    (h2 : 2 ≤ m.u8BufferSize) (h64 : m.u8BufferSize ≤ 64)
    (hgood : validFrame (m.au8Buffer.take m.u8BufferSize))
    (hfun : isSupported (m.au8Buffer.getD 1 0) = false) :
    m.validateRequest
      = .ok (EXC_FUNC_CODE, { m with u16errCnt := (m.u16errCnt + 1) % 65536 }) := by
  obtain ⟨hi, lo, crc, e1, e2, e3, hiff⟩ := crc_compare m hbuf h2 h64
  have hne : ¬ (crc ≠ ((hi <<< 8) ||| lo) % 65536) := fun h => hiff.1 h hgood
  have hlen : m.au8Buffer.length = 64 := hbuf.1
  have r1 := rdBuf_getD (show 1 < m.au8Buffer.length by omega)
  unfold validateRequest
  simp only [e1, e2, e3, hne, r1, bind, Except.bind, pure, Except.pure,
    show ¬ m.u8BufferSize < 2 by omega, if_false, FUNC, hfun, Bool.not_false, if_true]

/-- The slave's dispatch on a checksum-valid request whose function code is not supported:
exception 1 is answered whatever the other fields are. -/
theorem poll_regs_frame_unsupported (m : Modbus) (n now fuel : Nat)
    (hbuf : bufferOK m.au8Buffer) (h7 : 7 ≤ n) (h64 : n ≤ 64) (hsz : m.u8BufferSize = n)
    (hid : m.u8id < 256)
    (haddr : m.au8Buffer.getD 0 0 = m.u8id) (hgood : validFrame (m.au8Buffer.take n))
    (hfun : isSupported (m.au8Buffer.getD 1 0) = false) :
    ∃ m', m.poll_regs_frame (n : Int) now fuel = .ok (1, m')
      ∧ m'.MODBUS_SERIAL.tx = m.MODBUS_SERIAL.tx ++
          [frameOf [m.u8id, (m.au8Buffer.getD 1 0 + 0x80) % 256, EXC_FUNC_CODE]]
      ∧ m'.au16regs = m.au16regs
      ∧ m'.u16errCnt = (m.u16errCnt + 1) % 65536
      ∧ m'.u8lastError = EXC_FUNC_CODE := by
  have hlen : m.au8Buffer.length = 64 := hbuf.1
  have hv := validateRequest_unsupported { m with u8lastError := toUInt8 (n : Int) } hbuf
    (show 2 ≤ m.u8BufferSize by omega) (show m.u8BufferSize ≤ 64 by omega)
    (by rw [hsz]; exact hgood) hfun
  have r0 := rdBuf_getD (show 0 < m.au8Buffer.length by omega)
  obtain ⟨x, m', hx, hx', htx, hreg, herr, -⟩ := exception_reply { m with
    u8lastError := toUInt8 (n : Int)
    u16errCnt := (m.u16errCnt + 1) % 65536 } EXC_FUNC_CODE now hbuf hid (by decide)
  unfold poll_regs_frame
  simp only [show ¬ ((n : Int) < 7) by omega, if_false, ID, r0, haddr, bind, Except.bind,
    ne_eq, not_true_eq_false]
  rw [hv]
  simp only [EXC_FUNC_CODE, NO_REPLY, gt_iff_lt, show (0 : Nat) < 1 by decide,
    show ¬ (1 : Nat) = 255 by decide, if_true, not_false_eq_true]
  simp only [EXC_FUNC_CODE] at hx
  rw [hx]
  simp only []
  rw [hx']
  exact ⟨_, rfl, htx, hreg, herr, rfl⟩

/-- C8: for every complete frame of 7 to 63 bytes addressed to the slave whose trailing
checksum is wrong, the slave's poll transmits nothing, leaves the register table unchanged,
increments the error counter by one and reports `NO_REPLY` (the last error is `NO_REPLY`, the
returned `int8_t` is `NO_REPLY` narrowed), whatever the function code and the address and
quantity fields are.  The checksum is decided first; on a frame with a correct checksum the
function-code check comes next and an unsupported code is answered with `EXC_FUNC_CODE`
whatever the address and quantity fields are. -/
theorem poll_regs_bad_crc (s : Modbus) (f regs : List Nat) (t u8size now fuel : Nat)
    (hbuf : bufferOK s.au8Buffer) (hf : ∀ b ∈ f, b < 256)
    (h7 : 7 ≤ f.length) (h63 : f.length ≤ 63) (hT : T35 ≤ sub32 now t)
    (haddr : f.getD 0 0 = s.u8id) (hbad : ¬ validFrame f) :
    (∃ s', (received s f t).poll_regs regs u8size now fuel = .ok (toInt8 NO_REPLY, s')
      ∧ s'.MODBUS_SERIAL.tx = s.MODBUS_SERIAL.tx
      ∧ s'.u16OutCnt = s.u16OutCnt
      ∧ s'.au16regs = regs
      ∧ s'.u16errCnt = (s.u16errCnt + 1) % 65536
      ∧ s'.u8lastError = NO_REPLY)
    ∧ (∀ g : List Nat, (∀ b ∈ g, b < 256) → 7 ≤ g.length → g.length ≤ 63 →
        g.getD 0 0 = s.u8id → validFrame g → isSupported (g.getD 1 0) = false →
        ∃ s', (received s g t).poll_regs regs u8size now fuel = .ok ((EXC_FUNC_CODE : Nat), s')
          ∧ s'.au16regs = regs
          ∧ s'.u16errCnt = (s.u16errCnt + 1) % 65536
          ∧ s'.u8lastError = EXC_FUNC_CODE) := by
  constructor
  · rw [poll_regs_received s f regs t u8size now fuel hbuf hf (by omega) (by omega) hT]
    rw [poll_regs_frame_bad_crc (afterRx (withTable (received s f t) regs u8size) f)
      f.length now fuel
      (bufferOK_afterRx (withTable (received s f t) regs u8size) f hbuf hf (by omega))
      h7 (by omega) rfl
      (by rw [getD_afterRx _ f 0 (by omega)]; exact haddr)
      (by rw [show f.length
            = (afterRx (withTable (received s f t) regs u8size) f).u8BufferSize from rfl,
          take_afterRx]; exact hbad)]
    exact ⟨_, rfl, rfl, rfl, rfl, rfl, rfl⟩
  · intro g hg g7 g63 gaddr ggood gfun
    have hid : s.u8id < 256 := by
      rw [← gaddr, List.getD_eq_getElem?_getD, List.getElem?_eq_getElem (by omega)]
      exact hg _ (List.getElem_mem _)
    rw [poll_regs_received s g regs t u8size now fuel hbuf hg (by omega) (by omega) hT]
    obtain ⟨s', h1, -, h3, h4, h5⟩ :=
      poll_regs_frame_unsupported (afterRx (withTable (received s g t) regs u8size) g)
        g.length now fuel
        (bufferOK_afterRx (withTable (received s g t) regs u8size) g hbuf hg (by omega))
        g7 (by omega) rfl hid
        (by rw [getD_afterRx _ g 0 (by omega)]; exact gaddr)
        (by rw [show g.length
              = (afterRx (withTable (received s g t) regs u8size) g).u8BufferSize from rfl,
            take_afterRx]; exact ggood)
        (by rw [getD_afterRx _ g 1 (by omega)]; exact gfun)
    exact ⟨s', h1, h3, h4, h5⟩

set_option maxRecDepth 20000 in
/-- C8 on slave 5: the frame `05 03 00 00 00 01 00 00` has wrong checksum bytes; the frame
`05 21 FF FF FF FF BD DD` has a correct checksum and the unsupported function code `0x21`. -/
theorem poll_regs_bad_crc_witness :
    (∃ s', (received (exampleNode 5 []) [0x05, 0x03, 0x00, 0x00, 0x00, 0x01, 0x00, 0x00] 0).poll_regs
          [10, 20, 30] 3 5 0 = .ok (-1, s')
      ∧ s'.MODBUS_SERIAL.tx = []
      ∧ s'.u16OutCnt = 0
      ∧ s'.au16regs = [10, 20, 30]
      ∧ s'.u16errCnt = 1
      ∧ s'.u8lastError = 255)
    ∧ (∃ s', (received (exampleNode 5 []) [0x05, 0x21, 0xFF, 0xFF, 0xFF, 0xFF, 0xBD, 0xDD] 0).poll_regs
          [10, 20, 30] 3 5 0 = .ok (1, s')
      ∧ s'.au16regs = [10, 20, 30]
      ∧ s'.u16errCnt = 1
      ∧ s'.u8lastError = 1) :=
  ⟨(poll_regs_bad_crc (exampleNode 5 []) [0x05, 0x03, 0x00, 0x00, 0x00, 0x01, 0x00, 0x00]
      [10, 20, 30] 0 3 5 0 (by decide) (by decide) (by decide) (by decide) (by decide)
      (by decide) (by decide)).1,
    (poll_regs_bad_crc (exampleNode 5 []) [0x05, 0x03, 0x00, 0x00, 0x00, 0x01, 0x00, 0x00]
      [10, 20, 30] 0 3 5 0 (by decide) (by decide) (by decide) (by decide) (by decide)
      (by decide) (by decide)).2 [0x05, 0x21, 0xFF, 0xFF, 0xFF, 0xFF, 0xBD, 0xDD]
      (by decide) (by decide) (by decide) (by decide) (by decide) (by decide)⟩

set_option maxRecDepth 20000 in
/-- C9 as stated fails: slave 5 sees the complete 4-byte frame `07 01 02 03`, which is not
addressed to it; the length test comes before the address test and its poll returns 4, not 0.
On a complete frame of 64 bytes for node 7 it returns `ERR_BUFF_OVERFLOW` and counts an
error. -/
theorem poll_regs_other_address_short_frame :
    [0x07, 0x01, 0x02, 0x03].getD 0 0 ≠ (exampleNode 5 []).u8id
      ∧ ((received (exampleNode 5 []) [0x07, 0x01, 0x02, 0x03] 0).poll_regs
          [0, 0, 0] 3 5 0).map Prod.fst = .ok 4
      ∧ ((received (exampleNode 5 []) (0x07 :: List.replicate 63 0) 0).poll_regs
          [0, 0, 0] 3 5 0).map (fun r => (r.1, r.2.u16errCnt)) = .ok (ERR_BUFF_OVERFLOW, 1) := by
  refine ⟨by decide, ?_, ?_⟩
  · rfl
  · rfl

/-! ## Slave: requests on which the code departs from the specification -/

set_option maxRecDepth 20000 in
/-- C5 fails on the code: slave 1 holds a table of 10 words, declared with size 10, and
receives the checksum-valid request `01 06 00 0A 12 34 A4 BF` (write single register at address
10).  `validateRequest` compares with `>` and lets address 10 through, and `process_FC6` stores
to `regs[10]`, one past the end of the table: the run ends in `Fault.regs` instead of an
exception answer. -/
theorem poll_regs_FC6_writes_past_table :
    validFrame [0x01, 0x06, 0x00, 0x0A, 0x12, 0x34, 0xA4, 0xBF]
      ∧ (List.replicate 10 0).length = 10
      ∧ (received (exampleNode 1 []) [0x01, 0x06, 0x00, 0x0A, 0x12, 0x34, 0xA4, 0xBF] 0).poll_regs
          (List.replicate 10 0) 10 5 0 = .error Fault.regs := by
  refine ⟨by decide, by decide, ?_⟩
  rfl

set_option maxRecDepth 20000 in
/-- C6 fails on the code.  Slave 1 with table size 10 receives the checksum-valid request
`01 03 01 00 00 01 85 F6` (read 1 register from start 256, so start + quantity = 257 > 10):
`validateRequest` narrows the sum to `uint8_t` (257 becomes 1) before comparing, no exception
is raised, the poll returns 7 and transmits the ordinary answer `01 03 02 00 07 F9 86`.
With table size 50 and the request `01 03 00 C8 00 64 C5 DF` (start 200, quantity 100, sum 300
narrowed to 44) `process_FC3` reads `regs[200]`, outside the table.
On the example of the specification (size 10, start 8, quantity 5) the exception frame
`01 83 02 C0 F1` is sent and the table is unchanged. -/
theorem poll_regs_read_range_check_truncates :
    validFrame [0x01, 0x03, 0x01, 0x00, 0x00, 0x01, 0x85, 0xF6]
      ∧ word 0x01 0x00 + word 0x00 0x01 > 10
      ∧ ((received (exampleNode 1 []) [0x01, 0x03, 0x01, 0x00, 0x00, 0x01, 0x85, 0xF6] 0).poll_regs
          (List.replicate 10 7) 10 5 1).map (fun r => (r.1, r.2.MODBUS_SERIAL.tx, r.2.au16regs))
        = .ok (7, [[0x01, 0x03, 0x02, 0x00, 0x07, 0xF9, 0x86]], List.replicate 10 7)
      ∧ validFrame [0x01, 0x03, 0x00, 0xC8, 0x00, 0x64, 0xC5, 0xDF]
      ∧ (received (exampleNode 1 []) [0x01, 0x03, 0x00, 0xC8, 0x00, 0x64, 0xC5, 0xDF] 0).poll_regs
          (List.replicate 50 7) 50 5 300 = .error Fault.regs
      ∧ ((received (exampleNode 1 []) [0x01, 0x03, 0x00, 0x08, 0x00, 0x05, 0x04, 0x0B] 0).poll_regs
          (List.replicate 10 7) 10 5 5).map (fun r => (r.1, r.2.MODBUS_SERIAL.tx, r.2.au16regs))
        = .ok ((EXC_ADDR_RANGE : Nat), [[0x01, 0x83, 0x02, 0xC0, 0xF1]], List.replicate 10 7) := by
  refine ⟨by decide, by decide, ?_, by decide, ?_, ?_⟩
  · rfl
  · rfl
  · rfl

set_option maxRecDepth 20000 in
/-- C7 fails on the code: slave 5 receives the checksum-valid request `05 83 00 00 00 01 84 50`
whose function-code byte `0x83` fails the function-code check with exception code 1.
`buildException` computes `u8func + 0x80` in a `uint8_t`, which is `0x03`, not
`0x83 | 0x80 = 0x83`: the frame transmitted is `05 03 01 A0 F1` and not `05 83 01 C1 31`. -/
theorem poll_regs_exception_function_byte_wraps :
    validFrame [0x05, 0x83, 0x00, 0x00, 0x00, 0x01, 0x84, 0x50]
      ∧ ((received (exampleNode 5 []) [0x05, 0x83, 0x00, 0x00, 0x00, 0x01, 0x84, 0x50] 0).poll_regs
          (List.replicate 10 7) 10 5 1).map (fun r => (r.1, r.2.MODBUS_SERIAL.tx))
        = .ok (1, [[0x05, 0x03, 0x01, 0xA0, 0xF1]])
      ∧ frameOf [0x05, 0x83 ||| 0x80, 0x01] = [0x05, 0x83, 0x01, 0xC1, 0x31] := by
  refine ⟨by decide, ?_, by decide⟩
  rfl

/-! ## Master: rejected queries and the watchdog -/

/-- C11: `query` rejects atomically.  Whenever the instance is configured as a slave (own
address not 0, result -2), or a query is already outstanding (state not `COM_IDLE`, result -1),
or the telegram's node address is 0 or greater than 247 (result -3), `query` returns that
negative code (the tests are made in this order) and the whole engine record is returned as it
was: nothing is transmitted, and the state, the frame buffer and its length, the stored table,
the last error, the watchdog reference and the three counters are unchanged. -/
theorem query_rejects_atomically (m : Modbus) (tg : modbus_t) (now : Nat)
    (hrej : m.u8id ≠ 0 ∨ m.u8state ≠ COM_IDLE ∨ tg.u8id = 0 ∨ tg.u8id > 247) :
    m.query tg now
      = .ok (if m.u8id ≠ 0 then -2 else if m.u8state ≠ COM_IDLE then -1 else -3, m) := by
  unfold query
  by_cases h1 : m.u8id ≠ 0
  · rw [if_pos h1, if_pos h1]; rfl
  · by_cases h2 : m.u8state ≠ COM_IDLE
    · rw [if_neg h1, if_pos h2, if_neg h1, if_pos h2]; rfl
    · have h3 : tg.u8id = 0 ∨ tg.u8id > 247 := by
        rcases hrej with h | h | h
        · exact absurd h h1
        · exact absurd h h2
        · exact h
      rw [if_neg h1, if_neg h2, if_pos h3, if_neg h1, if_neg h2]; rfl

/-- C11 on a slave (address 5), on a master that is waiting, and on an idle master given the
node addresses 0 and 248. -/
theorem query_rejects_atomically_witness :
    (exampleNode 5 []).query ⟨7, 3, 0, 1, [0]⟩ 100 = .ok (-2, exampleNode 5 [])
      ∧ ({ exampleNode 0 [] with u8state := COM_WAITING } : Modbus).query ⟨7, 3, 0, 1, [0]⟩ 100
          = .ok (-1, { exampleNode 0 [] with u8state := COM_WAITING })
      ∧ (exampleNode 0 []).query ⟨0, 3, 0, 1, [0]⟩ 100 = .ok (-3, exampleNode 0 [])
      ∧ (exampleNode 0 []).query ⟨248, 3, 0, 1, [0]⟩ 100 = .ok (-3, exampleNode 0 []) :=
  ⟨query_rejects_atomically (exampleNode 5 []) ⟨7, 3, 0, 1, [0]⟩ 100 (by decide),
    query_rejects_atomically { exampleNode 0 [] with u8state := COM_WAITING }
      ⟨7, 3, 0, 1, [0]⟩ 100 (by decide),
    query_rejects_atomically (exampleNode 0 []) ⟨0, 3, 0, 1, [0]⟩ 100 (by decide),
    query_rejects_atomically (exampleNode 0 []) ⟨248, 3, 0, 1, [0]⟩ 100 (by decide)⟩

/-- C12: for a master in `COM_WAITING`, whenever `(now - u32timeOut)` taken modulo `2^32` is
strictly greater than the configured timeout, `poll()` returns 0, sets the state to `COM_IDLE`,
sets the last error to `NO_REPLY` (255) and increments the error counter by one, before looking
at the frame: the stream (pending bytes and writes), the frame buffer and the caller's table are
as they were, whatever is waiting on the transport. -/
theorem poll_watchdog_expired (m : Modbus) (now : Nat) (hw : m.u8state = COM_WAITING)
    (hexp : sub32 now m.u32timeOut > m.u16timeOut) :
    ∃ m', m.poll now = .ok (0, m')
      ∧ m'.u8state = COM_IDLE
      ∧ m'.u8lastError = NO_REPLY
      ∧ m'.u16errCnt = (m.u16errCnt + 1) % 65536
      ∧ m'.MODBUS_SERIAL = m.MODBUS_SERIAL
      ∧ m'.au16regs = m.au16regs
      ∧ m'.au8Buffer = m.au8Buffer
      ∧ m'.u8BufferSize = m.u8BufferSize
      ∧ m'.u16InCnt = m.u16InCnt := by
  have _ := hw
  unfold poll
  simp only [hexp, if_true]
  exact ⟨_, rfl, rfl, rfl, rfl, rfl, rfl, rfl, rfl, rfl⟩

theorem poll_expired_eq (m : Modbus) (now : Nat)
    (hexp : sub32 now m.u32timeOut > m.u16timeOut) :
    m.poll now = .ok (0, { m with
      u8AnswerID := 0
      u8state := COM_IDLE
      u8lastError := NO_REPLY
      u16errCnt := (m.u16errCnt + 1) % 65536 }) := by
  unfold poll
  simp only [hexp, if_true]
  rfl

set_option maxRecDepth 20000 in
/-- C12 on a master that is waiting with timeout 1000 ms since time 0, polled at time 5000
while the valid answer `05 03 04 00 0A 00 14 9F FE` is pending and released by the silence
rule. -/
theorem poll_watchdog_expired_witness :
    validFrame [0x05, 0x03, 0x04, 0x00, 0x0A, 0x00, 0x14, 0x9F, 0xFE]
      ∧ frameReady (received { exampleNode 0 [] with u8state := COM_WAITING, au16regs := [0, 0] }
          [0x05, 0x03, 0x04, 0x00, 0x0A, 0x00, 0x14, 0x9F, 0xFE] 110) 5000
      ∧ ∃ m', (received { exampleNode 0 [] with u8state := COM_WAITING, au16regs := [0, 0] }
            [0x05, 0x03, 0x04, 0x00, 0x0A, 0x00, 0x14, 0x9F, 0xFE] 110).poll 5000 = .ok (0, m')
          ∧ m'.u8state = COM_IDLE
          ∧ m'.u8lastError = 255
          ∧ m'.u16errCnt = 1
          ∧ m'.MODBUS_SERIAL.rx = [0x05, 0x03, 0x04, 0x00, 0x0A, 0x00, 0x14, 0x9F, 0xFE]
          ∧ m'.au16regs = [0, 0] := by
  refine ⟨by decide, by decide, ?_⟩
  obtain ⟨m', h1, h2, h3, h4, h5, h6, -⟩ := poll_watchdog_expired
    (received { exampleNode 0 [] with u8state := COM_WAITING, au16regs := [0, 0] }
      [0x05, 0x03, 0x04, 0x00, 0x0A, 0x00, 0x14, 0x9F, 0xFE] 110) 5000 (by decide) (by decide)
  exact ⟨m', h1, h2, h3, h4, by rw [h5]; rfl, by rw [h6]; rfl⟩

/-! ## Master: faulty answers -/

set_option maxRecDepth 20000 in
/-- C13 fails on the code.  The master sends `{node=5, function=3, start=8, quantity=5}`; slave 5
with table size 10 answers with the exception frame `05 83 02 81 30` that `buildException` and
`sendTxBuffer` produce; the master's poll takes the 5 bytes, finds `i8state < 6` and returns 5
before `validateAnswer` is reached: the result is 5 and not `ERR_EXCEPTION` (-5).  The state is
`COM_IDLE`, the error counter is 1 and the last error stays 0. -/
theorem poll_exception_answer_too_short :
    ((exampleNode 0 []).query ⟨5, 3, 8, 5, [0, 0, 0, 0, 0]⟩ 100).bind (fun q =>
      ((received (exampleNode 5 []) (lastTx q.2) 100).poll_regs
          (List.replicate 10 7) 10 110 5).bind (fun s =>
        ((received q.2 (lastTx s.2) 110).poll 120).map (fun r =>
          (lastTx s.2, r.1, r.2.u8state, r.2.u8lastError, r.2.u16errCnt, r.2.au16regs))))
      = .ok ([0x05, 0x83, 0x02, 0x81, 0x30], 5, COM_IDLE, 0, 1, [0, 0, 0, 0, 0])
    ∧ validFrame [0x05, 0x83, 0x02, 0x81, 0x30]
    ∧ ERR_EXCEPTION = -5 := by
  refine ⟨?_, by decide, rfl⟩
  rfl

/-- The master's statements after `getRxBuffer` on a frame of at least 6 bytes whose checksum
is wrong: `NO_REPLY` narrowed to `int8_t` is returned, one error is counted, the state becomes
`COM_IDLE`; `u8lastError` is not assigned. -/
theorem poll_frame_bad_crc (m : Modbus) (n : Nat)
    (hbuf : bufferOK m.au8Buffer) (h6 : 6 ≤ n) (h64 : n ≤ 64) (hsz : m.u8BufferSize = n)
    (hbad : ¬ validFrame (m.au8Buffer.take n)) :
    m.poll_frame (n : Int) = .ok (toInt8 NO_REPLY, { m with
      u16errCnt := (m.u16errCnt + 1) % 65536
      u8state := COM_IDLE }) := by
  have hv := validateAnswer_bad_crc m hbuf (by omega) (by omega) (by rw [hsz]; exact hbad)
  unfold poll_frame
  simp only [show ¬ ((n : Int) < 6) by omega, if_false, hv, bind, Except.bind, NO_REPLY,
    ne_eq, show ¬ (255 : Nat) = 0 by decide, not_false_eq_true, if_true, pure, Except.pure]

/-- C14 as amended: on the master, after processing a complete frame of 6 to 63 bytes with a
bad checksum, the error-counter increment (one) and the resulting state (`COM_IDLE`) are the
same as after a poll in which the watchdog has expired, and the caller's table is untouched in
both; the return value is `NO_REPLY` narrowed to `int8_t` (-1), where the expired watchdog
returns 0. -/
theorem poll_bad_crc_like_expiry (m : Modbus) (f : List Nat) (t now later : Nat)
    (hbuf : bufferOK m.au8Buffer) (hf : ∀ b ∈ f, b < 256)
    (h6 : 6 ≤ f.length) (h63 : f.length ≤ 63) (hT : T35 ≤ sub32 now t)
    (hwd : ¬ sub32 now m.u32timeOut > m.u16timeOut) (hbad : ¬ validFrame f)
    (hexp : sub32 later m.u32timeOut > m.u16timeOut) :
    ∃ a b, (received m f t).poll now = .ok (toInt8 NO_REPLY, a)
      ∧ (received m f t).poll later = .ok (0, b)
      ∧ a.u8state = COM_IDLE ∧ b.u8state = COM_IDLE
      ∧ a.u16errCnt = (m.u16errCnt + 1) % 65536 ∧ b.u16errCnt = (m.u16errCnt + 1) % 65536
      ∧ a.au16regs = m.au16regs ∧ b.au16regs = m.au16regs
      ∧ a.MODBUS_SERIAL.tx = m.MODBUS_SERIAL.tx ∧ b.MODBUS_SERIAL.tx = m.MODBUS_SERIAL.tx := by
  rw [poll_received m f t now hbuf hf (by omega) (by omega) hT hwd,
    poll_frame_bad_crc (afterRx (withAnswerCleared (received m f t)) f) f.length
      (bufferOK_afterRx (withAnswerCleared (received m f t)) f hbuf hf (by omega))
      h6 (by omega) rfl
      (by rw [show f.length
            = (afterRx (withAnswerCleared (received m f t)) f).u8BufferSize from rfl,
          take_afterRx]; exact hbad),
    poll_expired_eq (received m f t) later hexp]
  exact ⟨_, _, rfl, rfl, rfl, rfl, rfl, rfl, rfl, rfl, rfl, rfl⟩

set_option maxRecDepth 20000 in
/-- C14 as amended, on a master that is waiting (timeout 1000 ms since time 0) and the frame
`05 03 04 00 0A 00 14 00 00`, whose checksum bytes are wrong; polled at 120 and at 5000. -/
theorem poll_bad_crc_like_expiry_witness :
    ∃ a b, (received { exampleNode 0 [] with u8state := COM_WAITING, au16regs := [0, 0] }
          [0x05, 0x03, 0x04, 0x00, 0x0A, 0x00, 0x14, 0x00, 0x00] 110).poll 120 = .ok (-1, a)
      ∧ (received { exampleNode 0 [] with u8state := COM_WAITING, au16regs := [0, 0] }
          [0x05, 0x03, 0x04, 0x00, 0x0A, 0x00, 0x14, 0x00, 0x00] 110).poll 5000 = .ok (0, b)
      ∧ a.u8state = COM_IDLE ∧ b.u8state = COM_IDLE
      ∧ a.u16errCnt = 1 ∧ b.u16errCnt = 1
      ∧ a.au16regs = [0, 0] ∧ b.au16regs = [0, 0]
      ∧ a.MODBUS_SERIAL.tx = [] ∧ b.MODBUS_SERIAL.tx = [] :=
  poll_bad_crc_like_expiry { exampleNode 0 [] with u8state := COM_WAITING, au16regs := [0, 0] }
    [0x05, 0x03, 0x04, 0x00, 0x0A, 0x00, 0x14, 0x00, 0x00] 110 120 5000
    (by decide) (by decide) (by decide) (by decide) (by decide) (by decide) (by decide)
    (by decide)

set_option maxRecDepth 20000 in
/-- C14 as stated fails: the same waiting master (last error 0 after `query`) polled on the
frame with the bad checksum returns -1 and keeps the last error 0; polled with the watchdog
expired it returns 0 and records the last error `NO_REPLY` (255). -/
theorem poll_bad_crc_differs_from_expiry :
    ¬ validFrame [0x05, 0x03, 0x04, 0x00, 0x0A, 0x00, 0x14, 0x00, 0x00]
      ∧ ((received { exampleNode 0 [] with u8state := COM_WAITING, au16regs := [0, 0] }
          [0x05, 0x03, 0x04, 0x00, 0x0A, 0x00, 0x14, 0x00, 0x00] 110).poll 120).map
            (fun r => (r.1, r.2.u8lastError)) = .ok (-1, 0)
      ∧ ((received { exampleNode 0 [] with u8state := COM_WAITING, au16regs := [0, 0] }
          [0x05, 0x03, 0x04, 0x00, 0x0A, 0x00, 0x14, 0x00, 0x00] 110).poll 5000).map
            (fun r => (r.1, r.2.u8lastError)) = .ok (0, NO_REPLY) := by
  refine ⟨by decide, ?_, ?_⟩
  · rfl
  · rfl

/-! ## Master: polling while idle -/

/-- The fields that no statement of `poll()` assigns, and the state, which it can only set to
`COM_IDLE`. -/
theorem getRxBuffer_keeps (m : Modbus) (r : Int) (m' : Modbus) (h : m.getRxBuffer = .ok (r, m')) :
    m'.MODBUS_SERIAL.tx = m.MODBUS_SERIAL.tx ∧ m'.u16OutCnt = m.u16OutCnt
      ∧ m'.u8state = m.u8state := by
  unfold getRxBuffer at h
  simp only [bind, Except.bind, pure, Except.pure] at h
  split at h
  · cases h
  · split at h
    all_goals
      simp only [Except.ok.injEq, Prod.mk.injEq] at h
      obtain ⟨-, rfl⟩ := h
      by_cases hp : m.u8txenpin > 1 <;> simp [hp]

theorem validateAnswer_keeps (m : Modbus) (e : Nat) (m' : Modbus)
    (h : m.validateAnswer = .ok (e, m')) :
    m'.MODBUS_SERIAL.tx = m.MODBUS_SERIAL.tx ∧ m'.u16OutCnt = m.u16OutCnt
      ∧ m'.u8state = m.u8state := by
  unfold validateAnswer at h
  simp only [bind, Except.bind, pure, Except.pure] at h
  repeat' split at h
  all_goals first
    | cases h; done
    | (simp only [Except.ok.injEq, Prod.mk.injEq] at h
       obtain ⟨-, rfl⟩ := h
       exact ⟨rfl, rfl, rfl⟩)

theorem get_FC1_keeps (m m' : Modbus) (h : m.get_FC1 = .ok m') :
    m'.MODBUS_SERIAL.tx = m.MODBUS_SERIAL.tx ∧ m'.u16OutCnt = m.u16OutCnt
      ∧ m'.u8state = m.u8state ∧ m'.u8BufferSize = m.u8BufferSize := by
  unfold get_FC1 at h
  simp only [bind, Except.bind, pure, Except.pure] at h
  repeat' split at h
  all_goals first
    | cases h; done
    | (simp only [Except.ok.injEq] at h
       subst h
       exact ⟨rfl, rfl, rfl, rfl⟩)

theorem get_FC3_keeps (m m' : Modbus) (h : m.get_FC3 = .ok m') :
    m'.MODBUS_SERIAL.tx = m.MODBUS_SERIAL.tx ∧ m'.u16OutCnt = m.u16OutCnt
      ∧ m'.u8state = m.u8state ∧ m'.u8BufferSize = m.u8BufferSize := by
  unfold get_FC3 at h
  simp only [bind, Except.bind, pure, Except.pure] at h
  repeat' split at h
  all_goals first
    | cases h; done
    | (simp only [Except.ok.injEq] at h
       subst h
       exact ⟨rfl, rfl, rfl, rfl⟩)

theorem poll_frame_keeps (m : Modbus) (i8state r : Int) (m' : Modbus)
    (h : m.poll_frame i8state = .ok (r, m')) :
    m'.MODBUS_SERIAL.tx = m.MODBUS_SERIAL.tx ∧ m'.u16OutCnt = m.u16OutCnt
      ∧ m'.u8state = COM_IDLE := by
  unfold poll_frame at h
  by_cases h6 : i8state < 6
  · simp only [h6, if_true, pure, Except.pure, Except.ok.injEq, Prod.mk.injEq] at h
    obtain ⟨-, rfl⟩ := h
    exact ⟨rfl, rfl, rfl⟩
  · simp only [h6, if_false, bind, Except.bind] at h
    split at h
    · cases h
    · rename_i v hv
      obtain ⟨e, m1⟩ := v
      obtain ⟨k1, k2, -⟩ := validateAnswer_keeps m e m1 hv
      by_cases he : e = 0
      swap
      · simp only [ne_eq, he, not_false_eq_true, if_true, pure, Except.pure, Except.ok.injEq,
          Prod.mk.injEq] at h
        obtain ⟨-, rfl⟩ := h
        exact ⟨k1, k2, rfl⟩
      · subst he
        simp only [ne_eq, not_true_eq_false, if_false] at h
        split at h
        · cases h
        · split at h
          · cases h
          · split at h
            · split at h
              · cases h
              · rename_i m2 hm2
                simp only [pure, Except.pure, Except.ok.injEq, Prod.mk.injEq] at h
                obtain ⟨-, rfl⟩ := h
                obtain ⟨a, b, -, -⟩ := get_FC1_keeps _ _ hm2
                exact ⟨a.trans k1, b.trans k2, rfl⟩
            · split at h
              · split at h
                · cases h
                · rename_i m2 hm2
                  simp only [pure, Except.pure, Except.ok.injEq, Prod.mk.injEq] at h
                  obtain ⟨-, rfl⟩ := h
                  obtain ⟨a, b, -, -⟩ := get_FC3_keeps _ _ hm2
                  exact ⟨a.trans k1, b.trans k2, rfl⟩
              · simp only [pure, Except.pure, Except.ok.injEq, Prod.mk.injEq] at h
                obtain ⟨-, rfl⟩ := h
                exact ⟨k1, k2, rfl⟩

/-- A call of `poll()` that returns writes nothing, leaves the outgoing-message counter alone
and either keeps the state or sets it to `COM_IDLE`. -/
theorem poll_keeps (m : Modbus) (now : Nat) (r : Int) (m' : Modbus)
    (h : m.poll now = .ok (r, m')) :
    m'.MODBUS_SERIAL.tx = m.MODBUS_SERIAL.tx ∧ m'.u16OutCnt = m.u16OutCnt
      ∧ (m'.u8state = m.u8state ∨ m'.u8state = COM_IDLE) := by
  by_cases hexp : sub32 now m.u32timeOut > m.u16timeOut
  · rw [poll_expired_eq m now hexp] at h
    simp only [Except.ok.injEq, Prod.mk.injEq] at h
    obtain ⟨-, rfl⟩ := h
    exact ⟨rfl, rfl, Or.inr rfl⟩
  · by_cases hready : frameReady m now
    · rw [poll_eq_frame m now hexp hready] at h
      simp only [Except.bind] at h
      split at h
      · cases h
      · rename_i v hv
        obtain ⟨i8, m1⟩ := v
        obtain ⟨a1, a2, -⟩ := getRxBuffer_keeps _ _ _ hv
        obtain ⟨b1, b2, b3⟩ := poll_frame_keeps m1 i8 r m' h
        exact ⟨b1.trans a1, b2.trans a2, Or.inr b3⟩
    · unfold poll at h
      simp only [hexp, if_false] at h
      by_cases h0 : m.MODBUS_SERIAL.rx.length % 256 = 0
      · simp only [h0, if_true, pure, Except.pure, Except.ok.injEq, Prod.mk.injEq] at h
        obtain ⟨-, rfl⟩ := h
        exact ⟨rfl, rfl, Or.inl rfl⟩
      · by_cases h1 : m.MODBUS_SERIAL.rx.length % 256 = m.u8lastRec
        · have h2 : sub32 now m.u32time < T35 := by
            rcases Nat.lt_or_ge (sub32 now m.u32time) T35 with h' | h'
            · exact h'
            · exact absurd ⟨h0, h1, h'⟩ hready
          simp only [h0, if_false, ne_eq, h1, not_true_eq_false, h2, if_true] at h
          rw [← h1] at h
          simp only [h0, if_false, pure, Except.pure, Except.ok.injEq, Prod.mk.injEq] at h
          obtain ⟨-, rfl⟩ := h
          exact ⟨rfl, rfl, Or.inl rfl⟩
        · simp only [h0, if_false, ne_eq, h1, not_false_eq_true, if_true, pure, Except.pure,
            Except.ok.injEq, Prod.mk.injEq] at h
          obtain ⟨-, rfl⟩ := h
          exact ⟨rfl, rfl, Or.inl rfl⟩

set_option maxRecDepth 20000 in
/-- C15 fails on the code, through the unbounded loop of `getRxBuffer`.  An idle master
(timeout 1000 ms since time 0) on whose transport 65 bytes arrive is polled at time 10, where it
records the count 65 and returns 0, and at time 20, where the silence rule releases the bytes:
`poll()` hands them to `getRxBuffer`, which stores the 65th at `au8Buffer[64]`, outside the
array, so the call leaves defined behaviour (`Fault.buffer`) instead of returning with the
outgoing-message counter and the state as they were.  In the class the members that follow
`au8Buffer` are `u8BufferSize`, `u8lastRec`, `au16regs`, `u16InCnt` and `u16OutCnt`. -/
theorem poll_idle_overruns_buffer :
    (exampleNode 0 []).u8state = COM_IDLE
      ∧ (exampleNode 0 []).au8Buffer.length = 64
      ∧ ((arrive (exampleNode 0 []) (List.replicate 65 0xAA)).poll 10).map
          (fun r => (r.1, r.2.u8lastRec, r.2.MODBUS_SERIAL.rx.length, r.2.u8state))
        = .ok (0, 65, 65, COM_IDLE)
      ∧ ((arrive (exampleNode 0 []) (List.replicate 65 0xAA)).poll 10).bind
          (fun r => r.2.poll 20) = .error Fault.buffer := by
  refine ⟨rfl, rfl, ?_, ?_⟩
  · rfl
  · rfl

/-! ## Master: the request for function 15 -/

set_option maxRecDepth 20000 in
/-- C20 fails on the code (the case is marked `TODO: implement "sending coils"` in `query`).
For quantity 9 the byte count sent is 1, not `ceil(9/8) = 2`, and one data byte follows.
For quantity 16 and the table word `0x0001` the data bytes are `00 01` (the word high byte
first): bit 0 of the first data byte is 0 while bit 0 of the table word is 1, so coil 0 is not
in bit 0 of the first data byte, and the slave's `process_FC15`, given this request, stores
`0x0100`. -/
theorem query_FC15_packing :
    ((exampleNode 0 []).query ⟨5, 15, 0, 9, [0x0001]⟩ 100).map (fun r => r.2.MODBUS_SERIAL.tx)
        = .ok [[0x05, 0x0F, 0x00, 0x00, 0x00, 0x09, 0x01, 0x00, 0xAE, 0xA6]]
      ∧ ((exampleNode 0 []).query ⟨5, 15, 0, 16, [0x0001]⟩ 100).map
          (fun r => r.2.MODBUS_SERIAL.tx)
        = .ok [[0x05, 0x0F, 0x00, 0x00, 0x00, 0x10, 0x02, 0x00, 0x01, 0x11, 0x20]]
      ∧ (0x00 : Nat).testBit 0 = false ∧ (0x0001 : Nat).testBit 0 = true
      ∧ ((received (exampleNode 5 [])
            [0x05, 0x0F, 0x00, 0x00, 0x00, 0x10, 0x02, 0x00, 0x01, 0x11, 0x20] 100).poll_regs
          [0] 1 110 0).map (fun r => r.2.au16regs) = .ok [0x0100] := by
  refine ⟨?_, ?_, by decide, by decide, ?_⟩
  · rfl
  · rfl
  · rfl

/-! ## Slave: write registers (function 16) and read them back -/

/-- The range check of `validateRequest` for function 16 on a checksum-valid frame. -/
theorem validateRequest_write_regs (m : Modbus) (hbuf : bufferOK m.au8Buffer)
    (h2 : 2 ≤ m.u8BufferSize) (h64 : m.u8BufferSize ≤ 64)
    (hgood : validFrame (m.au8Buffer.take m.u8BufferSize))
    (hfun : m.au8Buffer.getD 1 0 = 16) :
    m.validateRequest = .ok
      (if (word (m.au8Buffer.getD 2 0) (m.au8Buffer.getD 3 0)
            + word (m.au8Buffer.getD 4 0) (m.au8Buffer.getD 5 0)) % 65536 % 256 > m.u8regsize
        then EXC_ADDR_RANGE else 0, m) := by
  obtain ⟨hi, lo, crc, e1, e2, e3, hiff⟩ := crc_compare m hbuf h2 h64
  have hne : ¬ (crc ≠ ((hi <<< 8) ||| lo) % 65536) := fun h => hiff.1 h hgood
  have hlen : m.au8Buffer.length = 64 := hbuf.1
  have r1 := rdBuf_getD (show 1 < m.au8Buffer.length by omega)
  have r2 := rdBuf_getD (show 2 < m.au8Buffer.length by omega)
  have r3 := rdBuf_getD (show 3 < m.au8Buffer.length by omega)
  have r4 := rdBuf_getD (show 4 < m.au8Buffer.length by omega)
  have r5 := rdBuf_getD (show 5 < m.au8Buffer.length by omega)
  have hsup : isSupported (m.au8Buffer.getD 1 0) = true := by
    rw [isSupported_iff]; omega
  unfold validateRequest
  simp only [e1, e2, e3, hne, r1, r2, r3, r4, r5, bind, Except.bind, pure, Except.pure,
    show ¬ m.u8BufferSize < 2 by omega, if_false, hsup, FUNC, ADD_HI, ADD_LO, NB_HI, NB_LO,
    MB_FC_READ_COILS, MB_FC_READ_DISCRETE_INPUT, MB_FC_WRITE_MULTIPLE_COILS, MB_FC_WRITE_COIL,
    MB_FC_WRITE_REGISTER, MB_FC_READ_REGISTERS, MB_FC_READ_INPUT_REGISTER,
    MB_FC_WRITE_MULTIPLE_REGISTERS]
  simp only [hfun]
  simp
  split <;> rfl

/-- The range check of `validateRequest` for the coil functions 1, 2 and 15 on a
checksum-valid frame. -/
theorem validateRequest_coils (m : Modbus) (hbuf : bufferOK m.au8Buffer)
    (h2 : 2 ≤ m.u8BufferSize) (h64 : m.u8BufferSize ≤ 64)
    (hgood : validFrame (m.au8Buffer.take m.u8BufferSize))
    (hfun : m.au8Buffer.getD 1 0 = 1 ∨ m.au8Buffer.getD 1 0 = 2 ∨ m.au8Buffer.getD 1 0 = 15) :
    m.validateRequest = .ok
      (if (word (m.au8Buffer.getD 2 0) (m.au8Buffer.getD 3 0) / 16
            + word (m.au8Buffer.getD 4 0) (m.au8Buffer.getD 5 0) / 16) % 65536 % 256
            > m.u8regsize
        then EXC_ADDR_RANGE else 0, m) := by
  obtain ⟨hi, lo, crc, e1, e2, e3, hiff⟩ := crc_compare m hbuf h2 h64
  have hne : ¬ (crc ≠ ((hi <<< 8) ||| lo) % 65536) := fun h => hiff.1 h hgood
  have hlen : m.au8Buffer.length = 64 := hbuf.1
  have r1 := rdBuf_getD (show 1 < m.au8Buffer.length by omega)
  have r2 := rdBuf_getD (show 2 < m.au8Buffer.length by omega)
  have r3 := rdBuf_getD (show 3 < m.au8Buffer.length by omega)
  have r4 := rdBuf_getD (show 4 < m.au8Buffer.length by omega)
  have r5 := rdBuf_getD (show 5 < m.au8Buffer.length by omega)
  have hsup : isSupported (m.au8Buffer.getD 1 0) = true := by
    rw [isSupported_iff]; omega
  unfold validateRequest
  simp only [e1, e2, e3, hne, r1, r2, r3, r4, r5, bind, Except.bind, pure, Except.pure,
    show ¬ m.u8BufferSize < 2 by omega, if_false, hsup, FUNC, ADD_HI, ADD_LO, NB_HI, NB_LO,
    MB_FC_READ_COILS, MB_FC_READ_DISCRETE_INPUT, MB_FC_WRITE_MULTIPLE_COILS, MB_FC_WRITE_COIL,
    MB_FC_WRITE_REGISTER, MB_FC_READ_REGISTERS, MB_FC_READ_INPUT_REGISTER,
    MB_FC_WRITE_MULTIPLE_REGISTERS]
  rcases hfun with h | h | h <;> simp only [h] <;> simp <;> split <;> rfl

/-- The slave's dispatch on a checksum-valid request that passed `validateRequest` with
result 0: the handler of the function code runs on the state with the watchdog restarted. -/
theorem poll_regs_frame_dispatch (m : Modbus) (n now fuel : Nat)
    (hbuf : bufferOK m.au8Buffer) (h7 : 7 ≤ n) (hsz : m.u8BufferSize = n)
    (haddr : m.au8Buffer.getD 0 0 = m.u8id)
    (hv : validateRequest { m with u8lastError := toUInt8 (n : Int) }
      = .ok (0, { m with u8lastError := toUInt8 (n : Int) })) :
    m.poll_regs_frame (n : Int) now fuel
      = (if m.au8Buffer.getD 1 0 = 1 ∨ m.au8Buffer.getD 1 0 = 2 then
          process_FC1 { m with u32timeOut := now % 4294967296, u8lastError := 0 } now
        else if m.au8Buffer.getD 1 0 = 4 ∨ m.au8Buffer.getD 1 0 = 3 then
          process_FC3 { m with u32timeOut := now % 4294967296, u8lastError := 0 } now fuel
        else if m.au8Buffer.getD 1 0 = 5 then
          process_FC5 { m with u32timeOut := now % 4294967296, u8lastError := 0 } now
        else if m.au8Buffer.getD 1 0 = 6 then
          process_FC6 { m with u32timeOut := now % 4294967296, u8lastError := 0 } now
        else if m.au8Buffer.getD 1 0 = 15 then
          process_FC15 { m with u32timeOut := now % 4294967296, u8lastError := 0 } now
        else if m.au8Buffer.getD 1 0 = 16 then
          process_FC16 { m with u32timeOut := now % 4294967296, u8lastError := 0 } now
        else .ok ((n : Int), { m with u32timeOut := now % 4294967296, u8lastError := 0 })) := by
  have hlen : m.au8Buffer.length = 64 := hbuf.1
  have r0 := rdBuf_getD (show 0 < m.au8Buffer.length by omega)
  have r1 := rdBuf_getD (show 1 < m.au8Buffer.length by omega)
  unfold poll_regs_frame
  simp only [show ¬ ((n : Int) < 7) by omega, if_false, ID, r0, haddr, bind, Except.bind,
    ne_eq, not_true_eq_false]
  rw [hv]
  simp only [gt_iff_lt, Nat.lt_irrefl, if_false, FUNC, r1, MB_FC_READ_COILS,
    MB_FC_READ_DISCRETE_INPUT, MB_FC_READ_INPUT_REGISTER, MB_FC_READ_REGISTERS,
    MB_FC_WRITE_COIL, MB_FC_WRITE_REGISTER, MB_FC_WRITE_MULTIPLE_COILS,
    MB_FC_WRITE_MULTIPLE_REGISTERS]
  rfl
theorem bigEndian_getD (V : List Nat) : ∀ j, j < V.length →
    (bigEndian V).getD (2 * j) 0 = V.getD j 0 / 256 % 256
      ∧ (bigEndian V).getD (2 * j + 1) 0 = V.getD j 0 % 256 := by
  induction V with
  | nil => intro j hj; cases hj
  | cons v V ih =>
    intro j hj
    rw [bigEndian_cons]
    cases j with
    | zero => exact ⟨rfl, rfl⟩
    | succ j =>
      have := ih j (by simpa using hj)
      rw [show 2 * (j + 1) = 2 * j + 1 + 1 by omega]
      simpa using this

theorem take_succ_set (l : List Nat) (k v : Nat) (hk : k < l.length) :
    (l.set k v).take (k + 1) = l.take k ++ [v] := by
  induction l generalizing k with
  | nil => cases hk
  | cons a l ih =>
    cases k with
    | zero => simp
    | succ k => simp [ih k (by simpa using hk)]

theorem drop_succ_set (l : List Nat) (k v n : Nat) :
    (l.set k v).drop (k + 1 + n) = l.drop (k + 1 + n) := by
  induction l generalizing k with
  | nil => simp
  | cons a l ih =>
    cases k with
    | zero => rw [show 0 + 1 + n = n + 1 by omega]; simp
    | succ k =>
      rw [show k + 1 + 1 + n = (k + 1 + n) + 1 by omega]
      simp [ih k]

/-- The loop of `process_FC16` stores the words `V` found in the frame, high byte first from
byte 7, at the table positions from `u8StartAdd + i`. -/
theorem process_FC16_loop_eq (buf : List Nat) (hlen : buf.length = 64) (A : Nat) :
    ∀ (V : List Nat) (i : Nat) (regs : List Nat), regsOK V → 7 + 2 * (i + V.length) ≤ 64 →
      A + i + V.length ≤ regs.length →
      (∀ j, j < V.length → buf.getD (7 + 2 * (i + j)) 0 = V.getD j 0 / 256 % 256
        ∧ buf.getD (8 + 2 * (i + j)) 0 = V.getD j 0 % 256) →
      process_FC16_loop buf A V.length i regs
        = .ok (regs.take (A + i) ++ V ++ regs.drop (A + i + V.length)) := by
  intro V
  induction V with
  | nil =>
    intro i regs _ _ _ _
    simp [process_FC16_loop, pure, Except.pure]
  | cons v V ih =>
    intro i regs hV hfit hrange hbytes
    have hv : v < 65536 := hV v (List.mem_cons_self _ _)
    have h0 := hbytes 0 (by simp)
    simp only [Nat.add_zero, List.getD_cons_zero] at h0
    have e7 : BYTE_CNT + 1 + i * 2 = 7 + 2 * i := by simp only [BYTE_CNT]; omega
    have e8 : BYTE_CNT + 2 + i * 2 = 8 + 2 * i := by simp only [BYTE_CNT]; omega
    simp only [List.length_cons] at hfit hrange ⊢
    unfold process_FC16_loop
    rw [e7, e8, rdBuf_getD (by omega), rdBuf_getD (by omega)]
    simp only [bind, Except.bind, h0.1, h0.2]
    rw [word_eq (by omega) (by omega), wrReg_ok _ (by omega)]
    simp only []
    have hw : v / 256 % 256 * 256 + v % 256 = v := by omega
    rw [hw, Nat.mod_eq_of_lt hv, ih (i + 1) (regs.set (A + i) v) (fun r hr => hV r (List.mem_cons_of_mem _ hr))
      (by omega) (by rw [List.length_set]; omega)
      (by
        intro j hj
        have := hbytes (j + 1) (by simpa using hj)
        simp only [List.getD_cons_succ] at this
        rw [show i + 1 + j = i + (j + 1) by omega]
        exact this)]
    rw [show A + (i + 1) = (A + i) + 1 by omega, take_succ_set _ _ _ (by omega),
      show A + i + 1 + V.length = (A + i) + 1 + V.length by omega, drop_succ_set,
      show A + i + (V.length + 1) = (A + i) + 1 + V.length by omega]
    simp
theorem getD_set_ne (l : List Nat) (k i v : Nat) (h : k ≠ i) :
    (l.set k v).getD i 0 = l.getD i 0 := by
  simp [List.getD_eq_getElem?_getD, List.getElem?_set_ne h]

theorem take6_set45 (buf : List Nat) (a b : Nat) (h : 6 ≤ buf.length) :
    ((buf.set 4 a).set 5 b).take 6
      = [buf.getD 0 0, buf.getD 1 0, buf.getD 2 0, buf.getD 3 0, a, b] := by
  match buf, h with
  | _ :: _ :: _ :: _ :: _ :: _ :: rest, _ => simp

theorem getD_lt_of_bufferOK {buf : List Nat} (hbuf : bufferOK buf) (i : Nat) :
    buf.getD i 0 < 256 := by
  rw [List.getD_eq_getElem?_getD]
  by_cases h : i < buf.length
  · rw [List.getElem?_eq_getElem h]
    exact hbuf.2 _ (List.getElem_mem _)
  · rw [List.getElem?_eq_none (by omega)]
    decide

/-- What `process_FC16` does when the words `V` of the request lie inside the frame buffer and
the addressed registers inside the table: `A` and `V.length` are the request fields narrowed
to `uint8_t`. -/
theorem process_FC16_eq (m : Modbus) (now A : Nat) (V : List Nat) (hbuf : bufferOK m.au8Buffer)
    (hA : ((m.au8Buffer.getD 2 0 <<< 8) ||| m.au8Buffer.getD 3 0) % 256 = A)
    (hn : ((m.au8Buffer.getD 4 0 <<< 8) ||| m.au8Buffer.getD 5 0) % 256 = V.length)
    (hV : regsOK V) (hfit : 7 + 2 * V.length ≤ 64) (hrange : A + V.length ≤ m.au16regs.length)
    (hbytes : ∀ j, j < V.length → m.au8Buffer.getD (7 + 2 * j) 0 = V.getD j 0 / 256 % 256
        ∧ m.au8Buffer.getD (8 + 2 * j) 0 = V.getD j 0 % 256) :
    ∃ m', m.process_FC16 now = .ok (8, m')
      ∧ m'.MODBUS_SERIAL.tx = m.MODBUS_SERIAL.tx ++
          [frameOf [m.au8Buffer.getD 0 0, m.au8Buffer.getD 1 0, m.au8Buffer.getD 2 0,
            m.au8Buffer.getD 3 0, 0, V.length]]
      ∧ m'.au16regs = m.au16regs.take A ++ V ++ m.au16regs.drop (A + V.length)
      ∧ m'.u16errCnt = m.u16errCnt
      ∧ m'.u8id = m.u8id
      ∧ bufferOK m'.au8Buffer := by
  have hlen : m.au8Buffer.length = 64 := hbuf.1
  have r2 := rdBuf_getD (show 2 < m.au8Buffer.length by omega)
  have r3 := rdBuf_getD (show 3 < m.au8Buffer.length by omega)
  have r4 := rdBuf_getD (show 4 < m.au8Buffer.length by omega)
  have r5 := rdBuf_getD (show 5 < m.au8Buffer.length by omega)
  have hok : bufferOK ((m.au8Buffer.set 4 0).set 5 V.length) :=
    bufferOK_set (bufferOK_set hbuf _ _ (by decide)) _ _ (by omega)
  unfold process_FC16
  simp only [ADD_HI, ADD_LO, NB_HI, NB_LO, r2, r3, r4, r5, hA, hn, bind, Except.bind]
  rw [wrBuf_ok _ (by omega)]
  simp only []
  rw [wrBuf_ok _ (by rw [List.length_set]; omega)]
  simp only []
  have hl := process_FC16_loop_eq ((m.au8Buffer.set 4 0).set 5 V.length) hok.1 A V 0
    m.au16regs hV (by omega) (by omega)
    (by
      intro j hj
      rw [getD_set_ne _ _ _ _ (by omega), getD_set_ne _ _ _ _ (by omega),
        getD_set_ne _ _ _ _ (by omega), getD_set_ne _ _ _ _ (by omega), Nat.zero_add]
      exact hbytes j hj)
  rw [Nat.add_zero] at hl
  rw [Nat.mod_eq_of_lt (show 0 < 256 by decide), Nat.mod_eq_of_lt (show V.length < 256 by omega),
    hl]
  simp only [RESPONSE_SIZE]
  rw [sendTxBuffer_eq _ now hok (show 6 + 2 ≤ 64 by decide)]
  simp only [pure, Except.pure, take6_set45 _ _ _ (show 6 ≤ m.au8Buffer.length by omega)]
  have hP : ∀ b ∈ [m.au8Buffer.getD 0 0, m.au8Buffer.getD 1 0, m.au8Buffer.getD 2 0,
      m.au8Buffer.getD 3 0, 0, V.length], b < 256 := by
    intro b hb
    simp only [List.mem_cons, List.mem_singleton, List.not_mem_nil, or_false] at hb
    rcases hb with h | h | h | h | h | h
    · rw [h]; exact getD_lt_of_bufferOK hbuf 0
    · rw [h]; exact getD_lt_of_bufferOK hbuf 1
    · rw [h]; exact getD_lt_of_bufferOK hbuf 2
    · rw [h]; exact getD_lt_of_bufferOK hbuf 3
    · omega
    · omega
  refine ⟨_, rfl, rfl, rfl, rfl, rfl, ?_⟩
  exact bufferOK_append_drop _ hok (frameOf_lt _ hP) (by rw [frameOf_length]; simp)
/-- The slave carries out a checksum-valid function-16 request that writes the words `V` from
register `A`, inside the table, and echoes the request header. -/
theorem poll_regs_write_request (s : Modbus) (T V : List Nat) (sid A N t1 t2 fuel : Nat)
    (hbuf : bufferOK s.au8Buffer) (hsid : s.u8id = sid) (hs256 : sid < 256)
    (hN : T.length = N) (hN255 : N ≤ 255) (hV : regsOK V)
    (hn : V.length ≤ 27) (hAn : A + V.length ≤ N) (hT : T35 ≤ sub32 t2 t1) :
    ∃ s1, (received s (frameOf ([sid, 16, 0, A, 0, V.length, 2 * V.length] ++ bigEndian V))
            t1).poll_regs T N t2 fuel = .ok (8, s1)
      ∧ s1.MODBUS_SERIAL.tx = s.MODBUS_SERIAL.tx ++ [frameOf [sid, 16, 0, A, 0, V.length]]
      ∧ s1.au16regs = T.take A ++ V ++ T.drop (A + V.length)
      ∧ s1.u16errCnt = s.u16errCnt
      ∧ s1.u8id = sid
      ∧ bufferOK s1.au8Buffer := by
  generalize hpd : [sid, 16, 0, A, 0, V.length, 2 * V.length] ++ bigEndian V = p
  have hpl : p.length = 7 + 2 * V.length := by
    rw [← hpd, List.length_append, bigEndian_length]; simp
  have hp : ∀ b ∈ p, b < 256 := by
    intro b hb
    rw [← hpd] at hb
    rcases List.mem_append.1 hb with h | h
    · simp only [List.mem_cons, List.mem_singleton, List.not_mem_nil, or_false] at h
      rcases h with h | h | h | h | h | h | h <;> omega
    · exact bigEndian_lt _ b h
  have hfb := frameOf_lt _ hp
  have hfl : (frameOf p).length = 9 + 2 * V.length := by rw [frameOf_length, hpl]; omega
  rw [poll_regs_received s _ T t1 N t2 fuel hbuf hfb (by omega) (by omega) hT]
  generalize hs0 : afterRx (withTable (received s (frameOf p) t1) T N) (frameOf p) = s0
  have hb0 : bufferOK s0.au8Buffer := by
    rw [← hs0]; exact bufferOK_afterRx _ _ hbuf hfb (by omega)
  have g : ∀ i, i < 7 + 2 * V.length → s0.au8Buffer.getD i 0 = p.getD i 0 := by
    intro i hi
    rw [← hs0, getD_afterRx _ _ i (by omega), getD_frameOf _ i (by omega)]
  have gh : ∀ i, i < 7 →
      p.getD i 0 = [sid, 16, 0, A, 0, V.length, 2 * V.length].getD i 0 := by
    intro i hi
    rw [← hpd, List.getD_eq_getElem?_getD, List.getD_eq_getElem?_getD,
      List.getElem?_append_left (by simpa using hi)]
  have gt : ∀ i, p.getD (7 + i) 0 = (bigEndian V).getD i 0 := by
    intro i
    rw [← hpd, List.getD_eq_getElem?_getD, List.getD_eq_getElem?_getD,
      List.getElem?_append_right (by simp)]
    simp
  have g0 : s0.au8Buffer.getD 0 0 = sid := by rw [g 0 (by omega), gh 0 (by decide)]; rfl
  have g1 : s0.au8Buffer.getD 1 0 = 16 := by rw [g 1 (by omega), gh 1 (by decide)]; rfl
  have g2 : s0.au8Buffer.getD 2 0 = 0 := by rw [g 2 (by omega), gh 2 (by decide)]; rfl
  have g3 : s0.au8Buffer.getD 3 0 = A := by rw [g 3 (by omega), gh 3 (by decide)]; rfl
  have g4 : s0.au8Buffer.getD 4 0 = 0 := by rw [g 4 (by omega), gh 4 (by decide)]; rfl
  have g5 : s0.au8Buffer.getD 5 0 = V.length := by
    rw [g 5 (by omega), gh 5 (by decide)]; rfl
  have hsz : s0.u8BufferSize = 9 + 2 * V.length := by rw [← hs0]; exact hfl
  have hid0 : s0.u8id = sid := by rw [← hs0]; exact hsid
  have hreg : s0.au16regs = T := by rw [← hs0]; rfl
  have hrs : s0.u8regsize = N := by rw [← hs0]; exact Nat.mod_eq_of_lt (by omega)
  have htx : s0.MODBUS_SERIAL.tx = s.MODBUS_SERIAL.tx := by rw [← hs0]; rfl
  have herr : s0.u16errCnt = s.u16errCnt := by rw [← hs0]; rfl
  have hgood : validFrame (s0.au8Buffer.take s0.u8BufferSize) := by
    rw [← hs0, take_afterRx]; exact validFrame_frameOf _
  have wA : word (s0.au8Buffer.getD 2 0) (s0.au8Buffer.getD 3 0) = A := by
    rw [g2, g3, word_eq (by decide) (by omega)]; omega
  have wQ : word (s0.au8Buffer.getD 4 0) (s0.au8Buffer.getD 5 0) = V.length := by
    rw [g4, g5, word_eq (by decide) (by omega)]; omega
  have hv := validateRequest_write_regs
    { s0 with u8lastError := toUInt8 ((9 + 2 * V.length : Nat) : Int) } hb0
    (show 2 ≤ s0.u8BufferSize by omega) (show s0.u8BufferSize ≤ 64 by omega) hgood g1
  rw [if_neg (by
    show ¬ (word (s0.au8Buffer.getD 2 0) (s0.au8Buffer.getD 3 0)
      + word (s0.au8Buffer.getD 4 0) (s0.au8Buffer.getD 5 0)) % 65536 % 256 > s0.u8regsize
    rw [wA, wQ, hrs]; omega)] at hv
  rw [hfl, poll_regs_frame_dispatch s0 (9 + 2 * V.length) t2 fuel hb0 (by omega) hsz
    (by rw [g0, hid0]) hv, g1]
  simp only [show ¬ ((16 : Nat) = 1 ∨ (16 : Nat) = 2) by decide,
    show ¬ ((16 : Nat) = 4 ∨ (16 : Nat) = 3) by decide, show ¬ (16 : Nat) = 5 by decide,
    show ¬ (16 : Nat) = 6 by decide, show ¬ (16 : Nat) = 15 by decide, if_false, if_true]
  obtain ⟨s1, h1, h2, h3, h4, h5, h6⟩ := process_FC16_eq
    { s0 with u32timeOut := t2 % 4294967296, u8lastError := 0 } t2 A V hb0
    (by
      show ((s0.au8Buffer.getD 2 0 <<< 8) ||| s0.au8Buffer.getD 3 0) % 256 = A
      rw [g2, g3, shl8_or (by omega)]; omega)
    (by
      show ((s0.au8Buffer.getD 4 0 <<< 8) ||| s0.au8Buffer.getD 5 0) % 256 = V.length
      rw [g4, g5, shl8_or (by omega)]; omega)
    hV (by omega) (by show A + V.length ≤ s0.au16regs.length; rw [hreg, hN]; exact hAn)
    (by
      intro j hj
      show s0.au8Buffer.getD (7 + 2 * j) 0 = _ ∧ s0.au8Buffer.getD (8 + 2 * j) 0 = _
      rw [g (7 + 2 * j) (by omega), g (8 + 2 * j) (by omega), gt,
        show 8 + 2 * j = 7 + (2 * j + 1) by omega, gt]
      exact bigEndian_getD V j hj)
  refine ⟨s1, h1, ?_, ?_, ?_, ?_, h6⟩
  · rw [h2]
    show s0.MODBUS_SERIAL.tx ++ [frameOf [s0.au8Buffer.getD 0 0, s0.au8Buffer.getD 1 0,
      s0.au8Buffer.getD 2 0, s0.au8Buffer.getD 3 0, 0, V.length]] = _
    rw [htx, g0, g1, g2, g3]
  · rw [h3]
    show s0.au16regs.take A ++ V ++ s0.au16regs.drop (A + V.length) = _
    rw [hreg]
  · rw [h4]; exact herr
  · rw [h5]; exact hid0

/-- C17: for every slave with a table `T` of `N ≤ 255` words, every start address `A` and every
list `V` of at most 27 16-bit values with `A + V.length ≤ N`: the slave's poll on the
checksum-valid function-16 request writing `V` at `A` returns 8 and leaves the table holding
`V` at `A .. A + n - 1` and otherwise unchanged, and its next poll, on the function-3 request
for `n` registers at `A`, transmits exactly `[id, 3, 2n, hi(V0), lo(V0), ..., crc_lo, crc_hi]`
and leaves the table as it is. -/
theorem write_then_read_registers (s : Modbus) (T V : List Nat)
    (sid A N t1 t2 t3 t4 fuel : Nat)
    (hbuf : bufferOK s.au8Buffer) (hsid : s.u8id = sid) (hs256 : sid < 256)
    (hN : T.length = N) (hN255 : N ≤ 255) (hV : regsOK V)
    (hn : V.length ≤ 27) (hAn : A + V.length ≤ N) (hfuel : V.length ≤ fuel)
    (hT1 : T35 ≤ sub32 t2 t1) (hT2 : T35 ≤ sub32 t4 t3) :
    ∃ s1 s2,
      (received s (frameOf ([sid, 16, 0, A, 0, V.length, 2 * V.length] ++ bigEndian V))
          t1).poll_regs T N t2 fuel = .ok (8, s1)
      ∧ s1.au16regs = T.take A ++ V ++ T.drop (A + V.length)
      ∧ (received s1 (frameOf [sid, 3, 0, A, 0, V.length]) t3).poll_regs s1.au16regs N t4 fuel
          = .ok (((5 + 2 * V.length : Nat) : Int), s2)
      ∧ s2.MODBUS_SERIAL.tx = s1.MODBUS_SERIAL.tx ++
          [frameOf ([sid, 3, 2 * V.length] ++ bigEndian V)]
      ∧ s2.au16regs = s1.au16regs := by
  obtain ⟨s1, h1, -, h3, -, h5, h6⟩ :=
    poll_regs_write_request s T V sid A N t1 t2 fuel hbuf hsid hs256 hN hN255 hV hn hAn hT1
  have hlen1 : s1.au16regs.length = N := by
    rw [h3, List.length_append, List.length_append, List.length_take, List.length_drop, hN]
    omega
  obtain ⟨s2, k1, k2, k3, -⟩ :=
    poll_regs_read_request s1 s1.au16regs sid 3 A V.length N t3 t4 fuel h6 h5 hs256
      (Or.inl rfl) hlen1 hN255 (by omega) hAn hfuel hT2
  have hsel : (s1.au16regs.drop A).take V.length = V := by
    have hA : (T.take A).length = A := by rw [List.length_take]; omega
    rw [h3, List.append_assoc, List.drop_append_eq_append_drop, hA, Nat.sub_self,
      List.drop_of_length_le (by omega), List.nil_append, List.drop_zero,
      List.take_left' rfl]
  rw [hsel] at k2
  exact ⟨s1, s2, h1, h3, k1, k2, k3⟩

set_option maxRecDepth 20000 in
/-- C17 on slave 5 with a table of 16 zero words: writing `[0x0001, 0xFFFF, 0x1234]` at
address 10 and reading 3 registers from address 10. -/
theorem write_then_read_registers_witness :
    ∃ s1 s2,
      (received (exampleNode 5 [])
          (frameOf ([5, 16, 0, 10, 0, [0x0001, 0xFFFF, 0x1234].length,
            2 * [0x0001, 0xFFFF, 0x1234].length] ++ bigEndian [0x0001, 0xFFFF, 0x1234]))
          0).poll_regs (List.replicate 16 0) 16 5 3 = .ok (8, s1)
      ∧ s1.au16regs = (List.replicate 16 0).take 10 ++ [0x0001, 0xFFFF, 0x1234]
          ++ (List.replicate 16 0).drop (10 + [0x0001, 0xFFFF, 0x1234].length)
      ∧ (received s1 (frameOf [5, 3, 0, 10, 0, [0x0001, 0xFFFF, 0x1234].length])
          100).poll_regs s1.au16regs 16 105 3
          = .ok (((5 + 2 * [0x0001, 0xFFFF, 0x1234].length : Nat) : Int), s2)
      ∧ s2.MODBUS_SERIAL.tx = s1.MODBUS_SERIAL.tx ++
          [frameOf ([5, 3, 2 * [0x0001, 0xFFFF, 0x1234].length]
            ++ bigEndian [0x0001, 0xFFFF, 0x1234])]
      ∧ s2.au16regs = s1.au16regs :=
  write_then_read_registers (exampleNode 5 []) (List.replicate 16 0) [0x0001, 0xFFFF, 0x1234]
    5 10 16 0 5 100 105 3 (by decide) rfl (by decide) rfl (by decide) (by decide) (by decide)
    (by decide) (by decide) (by decide) (by decide)

/-! ## Slave: coils (functions 1, 2 and 15) -/

theorem rdReg_getD {regs : List Nat} {i : Nat} (h : i < regs.length) :
    rdReg regs i = .ok (regs.getD i 0) := by
  simp [rdReg, List.getD, List.getElem?_eq_getElem h, pure, Except.pure]

theorem bitRead_ne_zero (v b : Nat) : decide (bitRead v b ≠ 0) = v.testBit b := by
  unfold bitRead Nat.testBit
  rw [Nat.and_comm]
  cases h : (1 &&& v >>> b != 0) <;> simp_all

theorem bitWrite_lt (w v b : Nat) (x : Bool) : bitWrite w v b x < 2 ^ w := by
  unfold bitWrite
  split <;> exact Nat.mod_lt _ (Nat.two_pow_pos w)

theorem bitWrite_testBit (w v b j : Nat) (x : Bool) (hb : b < w) (hj : j < w) :
    (bitWrite w v b x).testBit j = if j = b then x else v.testBit j := by
  unfold bitWrite
  cases x
  · simp only [Bool.false_eq_true, if_false]
    rw [Nat.testBit_mod_two_pow, Nat.testBit_xor, Nat.testBit_and, Nat.one_shiftLeft,
      Nat.testBit_two_pow]
    by_cases h : j = b
    · subst h; simp [hj]
    · have h' : ¬ b = j := fun e => h e.symm
      simp [hj, h, h']
  · simp only [if_true]
    rw [Nat.testBit_mod_two_pow, Nat.testBit_or, Nat.one_shiftLeft, Nat.testBit_two_pow]
    by_cases h : j = b
    · subst h; simp [hj]
    · have h' : ¬ b = j := fun e => h e.symm
      simp [hj, h, h']

theorem getD_set_eq (l : List Nat) (k v : Nat) (h : k < l.length) :
    (l.set k v).getD k 0 = v := by
  simp [List.getD_eq_getElem?_getD, List.getElem?_set_self, h]
/-- The loop of `process_FC1`, run for `n` coils from coil number `c` of the request: bit
`k mod 8` of buffer byte `3 + k div 8` receives coil `A + k` of the table, that is bit
`(A + k) mod 16` of word `(A + k) div 16`, for `c ≤ k < c + n`, and no other bit of the buffer
changes. -/
theorem process_FC1_loop_eq (regs : List Nat) (A : Nat) (hN : regs.length ≤ 255) :
    ∀ (n c : Nat) (buf : List Nat), bufferOK buf → A + c + n ≤ 16 * regs.length →
      c + n ≤ 488 →
      ∃ buf', process_FC1_loop regs A n c buf (3 + c / 8) (c % 8) = .ok (buf', 3 + (c + n) / 8)
        ∧ bufferOK buf'
        ∧ ∀ idx j, j < 8 → (buf'.getD idx 0).testBit j
            = if 3 ≤ idx ∧ c ≤ 8 * (idx - 3) + j ∧ 8 * (idx - 3) + j < c + n then
                (regs.getD ((A + (8 * (idx - 3) + j)) / 16) 0).testBit
                  ((A + (8 * (idx - 3) + j)) % 16)
              else (buf.getD idx 0).testBit j := by
  intro n
  induction n with
  | zero =>
    intro c buf hbuf _ _
    refine ⟨buf, by simp [process_FC1_loop, pure, Except.pure], hbuf, ?_⟩
    intro idx j _
    rw [if_neg (by omega)]
  | succ n ih =>
    intro c buf hbuf hrange hfit
    have hlen : buf.length = 64 := hbuf.1
    have e1 : (A + c) % 65536 = A + c := Nat.mod_eq_of_lt (by omega)
    have e2 : (A + c) / 16 % 256 = (A + c) / 16 := Nat.mod_eq_of_lt (by omega)
    have e3 : (A + c) % 16 % 256 = (A + c) % 16 := Nat.mod_eq_of_lt (by omega)
    have hok1 : bufferOK (buf.set (3 + c / 8)
        (bitWrite 8 (buf.getD (3 + c / 8) 0) (c % 8)
          ((regs.getD ((A + c) / 16) 0).testBit ((A + c) % 16)))) :=
      bufferOK_set hbuf _ _ (bitWrite_lt 8 _ _ _)
    obtain ⟨buf', hrun, hok', hbits⟩ := ih (c + 1) _ hok1 (by omega) (by omega)
    refine ⟨buf', ?_, hok', ?_⟩
    · unfold process_FC1_loop
      simp only [e1, e2, e3, bind, Except.bind]
      rw [rdReg_getD (by omega), rdBuf_getD (by omega)]
      simp only [bitRead_ne_zero]
      rw [wrBuf_ok _ (by omega),
        Nat.mod_eq_of_lt (show bitWrite 8 _ _ _ < 256 from bitWrite_lt 8 _ _ _)]
      simp only []
      rw [show c + (n + 1) = c + 1 + n by omega, ← hrun]
      by_cases h7 : c % 8 = 7
      · rw [if_pos (by rw [h7]; decide),
          show (3 + c / 8 + 1) % 256 = 3 + (c + 1) / 8 by omega,
          show (c + 1) % 8 = 0 by omega]
      · rw [if_neg (by omega), show (c % 8 + 1) % 256 = (c + 1) % 8 by omega,
          show 3 + c / 8 = 3 + (c + 1) / 8 by omega]
    · intro idx j hj
      rw [hbits idx j hj]
      by_cases hin : 3 ≤ idx ∧ c + 1 ≤ 8 * (idx - 3) + j ∧ 8 * (idx - 3) + j < c + 1 + n
      · rw [if_pos hin, if_pos (by omega)]
      · rw [if_neg hin]
        by_cases hc : idx = 3 + c / 8
        · subst hc
          rw [getD_set_eq _ _ _ (by omega), bitWrite_testBit 8 _ _ _ _ (by omega) hj]
          by_cases hjc : j = c % 8
          · rw [if_pos hjc, if_pos (by omega)]
            have : 8 * (3 + c / 8 - 3) + j = c := by omega
            rw [this]
          · rw [if_neg hjc, if_neg (by omega)]
        · rw [getD_set_ne _ _ _ _ (fun e => hc e.symm), if_neg (by omega)]
theorem byte_eq_of_testBit {a b : Nat} (ha : a < 256) (hb : b < 256)
    (h : ∀ j, j < 8 → a.testBit j = b.testBit j) : a = b := by
  apply Nat.eq_of_testBit_eq
  intro j
  by_cases hj : j < 8
  · exact h j hj
  · have h256 : 256 ≤ 2 ^ j :=
      Nat.pow_le_pow_right (by decide : 0 < 2) (show 8 ≤ j by omega)
    rw [Nat.testBit_lt_two_pow (by omega), Nat.testBit_lt_two_pow (by omega)]

theorem take_three_add (l : List Nat) (B : Nat) (h : 3 ≤ l.length) :
    l.take (3 + B) = [l.getD 0 0, l.getD 1 0, l.getD 2 0] ++ (l.drop 3).take B := by
  match l, h with
  | _ :: _ :: _ :: rest, _ =>
    rw [show 3 + B = B + 1 + 1 + 1 by omega]
    simp

theorem getD_take_drop (l : List Nat) (k B i : Nat) (hi : i < B) :
    ((l.drop k).take B).getD i 0 = l.getD (k + i) 0 := by
  simp [List.getD_eq_getElem?_getD, List.getElem?_take, hi]

/-- What `process_FC1` does for a request whose coils lie inside the table and whose answer
fits the buffer: `A` and `Q` are the start coil and quantity fields of the request, and the
answer carries `ceil(Q / 8)` data bytes. -/
theorem process_FC1_eq (m : Modbus) (now A Q : Nat) (hbuf : bufferOK m.au8Buffer)
    (hA : word (m.au8Buffer.getD 2 0) (m.au8Buffer.getD 3 0) = A)
    (hQ : word (m.au8Buffer.getD 4 0) (m.au8Buffer.getD 5 0) = Q)
    (hN : m.au16regs.length ≤ 255) (hrange : A + Q ≤ 16 * m.au16regs.length)
    (hfit : Q ≤ 472) :
    ∃ m' D, m.process_FC1 now = .ok ((((Q + 7) / 8 + 5 : Nat) : Int), m')
      ∧ m'.MODBUS_SERIAL.tx = m.MODBUS_SERIAL.tx ++
          [frameOf ([m.au8Buffer.getD 0 0, m.au8Buffer.getD 1 0, (Q + 7) / 8] ++ D)]
      ∧ D.length = (Q + 7) / 8
      ∧ (∀ d ∈ D, d < 256)
      ∧ (∀ i j, i < (Q + 7) / 8 → j < 8 → (D.getD i 0).testBit j
          = if 8 * i + j < Q then
              (m.au16regs.getD ((A + (8 * i + j)) / 16) 0).testBit ((A + (8 * i + j)) % 16)
            else false)
      ∧ m'.au16regs = m.au16regs
      ∧ m'.u16errCnt = m.u16errCnt
      ∧ m'.u8id = m.u8id
      ∧ bufferOK m'.au8Buffer := by
  have hlen : m.au8Buffer.length = 64 := hbuf.1
  have r2 := rdBuf_getD (show 2 < m.au8Buffer.length by omega)
  have r3 := rdBuf_getD (show 3 < m.au8Buffer.length by omega)
  have r4 := rdBuf_getD (show 4 < m.au8Buffer.length by omega)
  have r5 := rdBuf_getD (show 5 < m.au8Buffer.length by omega)
  have hB : (if Q % 8 ≠ 0 then (Q / 8 % 256 + 1) % 256 else Q / 8 % 256) = (Q + 7) / 8 := by
    split <;> omega
  have hok2 : bufferOK ((m.au8Buffer.set 2 ((Q + 7) / 8)).set (2 + (Q + 7) / 8) 0) :=
    bufferOK_set (bufferOK_set hbuf _ _ (by omega)) _ _ (by decide)
  obtain ⟨buf', hrun, hok', hbits⟩ := process_FC1_loop_eq m.au16regs A hN Q 0 _ hok2
    (by omega) (by omega)
  simp only [Nat.zero_div, Nat.zero_mod, Nat.add_zero, Nat.zero_add] at hrun
  have hsz : (if Q % 8 ≠ 0 then (3 + Q / 8 + 1) % 256 else 3 + Q / 8) = 3 + (Q + 7) / 8 := by
    split <;> omega
  unfold process_FC1
  simp only [ADD_HI, ADD_LO, NB_HI, NB_LO, r2, r3, r4, r5, hA, hQ, hB, bind, Except.bind]
  rw [wrBuf_ok _ (by omega)]
  simp only []
  rw [wrBuf_ok _ (by rw [List.length_set]; omega)]
  simp only []
  rw [Nat.mod_eq_of_lt (show (Q + 7) / 8 < 256 by omega),
    Nat.mod_eq_of_lt (show 0 < 256 by decide), hrun]
  simp only [hsz]
  rw [sendTxBuffer_eq _ now hok' (show 3 + (Q + 7) / 8 + 2 ≤ 64 by omega)]
  have hlen' : buf'.length = 64 := hok'.1
  have keep : ∀ idx, idx < 3 → buf'.getD idx 0
      = ((m.au8Buffer.set 2 ((Q + 7) / 8)).set (2 + (Q + 7) / 8) 0).getD idx 0 := by
    intro idx hidx
    apply byte_eq_of_testBit (getD_lt_of_bufferOK hok' idx) (getD_lt_of_bufferOK hok2 idx)
    intro j hj
    rw [hbits idx j hj, if_neg (by omega)]
  have k0 : buf'.getD 0 0 = m.au8Buffer.getD 0 0 := by
    rw [keep 0 (by decide), getD_set_ne _ _ _ _ (by omega), getD_set_ne _ _ _ _ (by omega)]
  have k1 : buf'.getD 1 0 = m.au8Buffer.getD 1 0 := by
    rw [keep 1 (by decide), getD_set_ne _ _ _ _ (by omega), getD_set_ne _ _ _ _ (by omega)]
  have k2 : buf'.getD 2 0 = (Q + 7) / 8 := by
    rw [keep 2 (by decide)]
    by_cases h0 : (Q + 7) / 8 = 0
    · rw [h0]; exact getD_set_eq _ _ _ (by rw [List.length_set]; omega)
    · rw [getD_set_ne _ _ _ _ (by omega), getD_set_eq _ _ _ (by omega)]
  have htk : buf'.take (3 + (Q + 7) / 8)
      = [m.au8Buffer.getD 0 0, m.au8Buffer.getD 1 0, (Q + 7) / 8]
        ++ (buf'.drop 3).take ((Q + 7) / 8) := by
    rw [take_three_add _ _ (by omega), k0, k1, k2]
  have hret : toInt8 ((3 + (Q + 7) / 8 + 2) % 256) = (((Q + 7) / 8 + 5 : Nat) : Int) := by
    unfold toInt8
    rw [Nat.mod_mod, Nat.mod_eq_of_lt (show 3 + (Q + 7) / 8 + 2 < 256 by omega),
      if_pos (show 3 + (Q + 7) / 8 + 2 < 128 by omega)]
    congr 1; omega
  have hD : ∀ d ∈ (buf'.drop 3).take ((Q + 7) / 8), d < 256 := fun d hd =>
    hok'.2 d (List.mem_of_mem_drop (List.mem_of_mem_take hd))
  simp only [pure, Except.pure, hret]
  refine ⟨_, (buf'.drop 3).take ((Q + 7) / 8), rfl, ?_, ?_, hD, ?_, rfl, rfl, rfl, ?_⟩
  · show m.MODBUS_SERIAL.tx ++ [frameOf (List.take (3 + (Q + 7) / 8) buf')] = _
    rw [htk]
  · rw [List.length_take, List.length_drop, hlen']; omega
  · intro i j hi hj
    rw [getD_take_drop _ _ _ _ hi, hbits (3 + i) j hj, show 3 + i - 3 = i by omega]
    by_cases hq : 8 * i + j < Q
    · rw [if_pos ⟨by omega, by omega, by omega⟩, if_pos hq]
    · rw [if_neg (by omega), if_neg hq]
      have hi2 : 3 + i = 2 + (Q + 7) / 8 := by omega
      rw [hi2, getD_set_eq _ _ _ (by rw [List.length_set]; omega)]
      exact Nat.zero_testBit j
  · show bufferOK (frameOf (List.take (3 + (Q + 7) / 8) buf') ++ List.drop (3 + (Q + 7) / 8 + 2) buf')
    have hfl : (frameOf (List.take (3 + (Q + 7) / 8) buf')).length = 3 + (Q + 7) / 8 + 2 := by
      rw [frameOf_length, List.length_take, hlen']; omega
    have := bufferOK_append_drop (frameOf (List.take (3 + (Q + 7) / 8) buf')) hok'
      (frameOf_lt _ (fun b hb => hok'.2 b (List.mem_of_mem_take hb))) (by rw [hfl]; omega)
    rw [hfl] at this
    exact this
/-- The slave answers a checksum-valid request of function 1 or 2 for `Q` coils from coil `A`
inside the table with the packed coils. -/
theorem poll_regs_coils_request (s : Modbus) (T : List Nat) (sid f A Q N t1 t2 fuel : Nat)
    (hbuf : bufferOK s.au8Buffer) (hsid : s.u8id = sid) (hs256 : sid < 256)
    (hf : f = 1 ∨ f = 2) (hN : T.length = N) (hN255 : N ≤ 255)
    (hrange : A + Q ≤ 16 * N) (hQ : Q ≤ 472) (hT : T35 ≤ sub32 t2 t1) :
    ∃ s1 D, (received s (frameOf [sid, f, A / 256, A % 256, Q / 256, Q % 256]) t1).poll_regs
          T N t2 fuel = .ok ((((Q + 7) / 8 + 5 : Nat) : Int), s1)
      ∧ s1.MODBUS_SERIAL.tx = s.MODBUS_SERIAL.tx ++ [frameOf ([sid, f, (Q + 7) / 8] ++ D)]
      ∧ D.length = (Q + 7) / 8
      ∧ (∀ d ∈ D, d < 256)
      ∧ (∀ i j, i < (Q + 7) / 8 → j < 8 → (D.getD i 0).testBit j
          = if 8 * i + j < Q then
              (T.getD ((A + (8 * i + j)) / 16) 0).testBit ((A + (8 * i + j)) % 16)
            else false)
      ∧ s1.au16regs = T
      ∧ s1.u16errCnt = s.u16errCnt
      ∧ s1.u8id = sid
      ∧ bufferOK s1.au8Buffer := by
  have hp : ∀ b ∈ [sid, f, A / 256, A % 256, Q / 256, Q % 256], b < 256 := by
    intro b hb
    simp only [List.mem_cons, List.mem_singleton, List.not_mem_nil, or_false] at hb
    rcases hb with h | h | h | h | h | h <;> omega
  have hfb := frameOf_lt _ hp
  have hfl : (frameOf [sid, f, A / 256, A % 256, Q / 256, Q % 256]).length = 8 := rfl
  rw [poll_regs_received s _ T t1 N t2 fuel hbuf hfb (by rw [hfl]; decide) (by rw [hfl]; decide)
    hT]
  generalize hs0 : afterRx (withTable (received s
    (frameOf [sid, f, A / 256, A % 256, Q / 256, Q % 256]) t1) T N)
    (frameOf [sid, f, A / 256, A % 256, Q / 256, Q % 256]) = s0
  have hb0 : bufferOK s0.au8Buffer := by
    rw [← hs0]; exact bufferOK_afterRx _ _ hbuf hfb (by rw [hfl]; decide)
  have g : ∀ i, i < 6 → s0.au8Buffer.getD i 0
      = [sid, f, A / 256, A % 256, Q / 256, Q % 256].getD i 0 := by
    intro i hi
    rw [← hs0, getD_afterRx _ _ i (by rw [hfl]; omega), getD_frameOf _ i (by simpa using hi)]
  have g0 : s0.au8Buffer.getD 0 0 = sid := g 0 (by decide)
  have g1 : s0.au8Buffer.getD 1 0 = f := g 1 (by decide)
  have g2 : s0.au8Buffer.getD 2 0 = A / 256 := g 2 (by decide)
  have g3 : s0.au8Buffer.getD 3 0 = A % 256 := g 3 (by decide)
  have g4 : s0.au8Buffer.getD 4 0 = Q / 256 := g 4 (by decide)
  have g5 : s0.au8Buffer.getD 5 0 = Q % 256 := g 5 (by decide)
  have hsz : s0.u8BufferSize = 8 := by rw [← hs0]; rfl
  have hid0 : s0.u8id = sid := by rw [← hs0]; exact hsid
  have hreg : s0.au16regs = T := by rw [← hs0]; rfl
  have hrs : s0.u8regsize = N := by rw [← hs0]; exact Nat.mod_eq_of_lt (by omega)
  have htx : s0.MODBUS_SERIAL.tx = s.MODBUS_SERIAL.tx := by rw [← hs0]; rfl
  have herr : s0.u16errCnt = s.u16errCnt := by rw [← hs0]; rfl
  have hgood : validFrame (s0.au8Buffer.take s0.u8BufferSize) := by
    rw [← hs0, take_afterRx]; exact validFrame_frameOf _
  have wA : word (s0.au8Buffer.getD 2 0) (s0.au8Buffer.getD 3 0) = A := by
    rw [g2, g3, word_eq (by omega) (by omega)]; omega
  have wQ : word (s0.au8Buffer.getD 4 0) (s0.au8Buffer.getD 5 0) = Q := by
    rw [g4, g5, word_eq (by omega) (by omega)]; omega
  have hv := validateRequest_coils { s0 with u8lastError := toUInt8 ((8 : Nat) : Int) } hb0
    (show 2 ≤ s0.u8BufferSize by omega) (show s0.u8BufferSize ≤ 64 by omega) hgood
    (by
      show s0.au8Buffer.getD 1 0 = 1 ∨ s0.au8Buffer.getD 1 0 = 2 ∨ s0.au8Buffer.getD 1 0 = 15
      rw [g1]; omega)
  rw [if_neg (by
    show ¬ (word (s0.au8Buffer.getD 2 0) (s0.au8Buffer.getD 3 0) / 16
      + word (s0.au8Buffer.getD 4 0) (s0.au8Buffer.getD 5 0) / 16) % 65536 % 256
        > s0.u8regsize
    rw [wA, wQ, hrs]; omega)] at hv
  rw [hfl, poll_regs_frame_dispatch s0 8 t2 fuel hb0 (by decide) hsz (by rw [g0, hid0]) hv, g1,
    if_pos hf]
  obtain ⟨s1, D, h1, h2, h3, h4, h5, h6, h7, h8, h9⟩ := process_FC1_eq
    { s0 with u32timeOut := t2 % 4294967296, u8lastError := 0 } t2 A Q hb0 wA wQ
    (by show s0.au16regs.length ≤ 255; rw [hreg, hN]; exact hN255)
    (by show A + Q ≤ 16 * s0.au16regs.length; rw [hreg, hN]; exact hrange) hQ
  refine ⟨s1, D, h1, ?_, h3, h4, ?_, ?_, ?_, ?_, h9⟩
  · rw [h2]
    show s0.MODBUS_SERIAL.tx ++ [frameOf ([s0.au8Buffer.getD 0 0, s0.au8Buffer.getD 1 0,
      (Q + 7) / 8] ++ D)] = _
    rw [htx, g0, g1]
  · intro i j hi hj
    rw [h5 i j hi hj]
    show (if 8 * i + j < Q then
      (s0.au16regs.getD ((A + (8 * i + j)) / 16) 0).testBit ((A + (8 * i + j)) % 16)
      else false) = _
    rw [hreg]
  · rw [h6]; exact hreg
  · rw [h7]; exact herr
  · rw [h8]; exact hid0

/-- C19: for every slave with a table `T` of `N ≤ 255` words and every checksum-valid request
of function 1 or 2 addressed to it with start coil `A` and quantity `Q`, `A + Q ≤ 16 N` and
`Q ≤ 472`: the slave transmits `[id, f, B, d_0, ..., d_(B-1), crc_lo, crc_hi]` with
`B = ceil(Q / 8)`, where bit `j` of `d_i` is bit `(A + 8i + j) mod 16` of
`T[(A + 8i + j) div 16]` for `8i + j < Q` and 0 for `8i + j ≥ Q`; poll returns `B + 5` and the
register table is unchanged. -/
theorem poll_regs_read_coils (s : Modbus) (T : List Nat) (sid f A Q N t1 t2 fuel : Nat)
    (hbuf : bufferOK s.au8Buffer) (hsid : s.u8id = sid) (hs256 : sid < 256)
    (hf : f = 1 ∨ f = 2) (hN : T.length = N) (hN255 : N ≤ 255)
    (hrange : A + Q ≤ 16 * N) (hQ : Q ≤ 472) (hT : T35 ≤ sub32 t2 t1) :
    ∃ s1 D, (received s (frameOf [sid, f, A / 256, A % 256, Q / 256, Q % 256]) t1).poll_regs
          T N t2 fuel = .ok ((((Q + 7) / 8 + 5 : Nat) : Int), s1)
      ∧ s1.MODBUS_SERIAL.tx = s.MODBUS_SERIAL.tx ++ [frameOf ([sid, f, (Q + 7) / 8] ++ D)]
      ∧ D.length = (Q + 7) / 8
      ∧ (∀ d ∈ D, d < 256)
      ∧ (∀ i j, i < (Q + 7) / 8 → j < 8 → (D.getD i 0).testBit j
          = if 8 * i + j < Q then
              (T.getD ((A + (8 * i + j)) / 16) 0).testBit ((A + (8 * i + j)) % 16)
            else false)
      ∧ s1.au16regs = T := by
  obtain ⟨s1, D, h1, h2, h3, h4, h5, h6, -⟩ :=
    poll_regs_coils_request s T sid f A Q N t1 t2 fuel hbuf hsid hs256 hf hN hN255 hrange hQ hT
  exact ⟨s1, D, h1, h2, h3, h4, h5, h6⟩
set_option maxRecDepth 20000 in
/-- C19 on slave 5 with the table `[0xA5C3, 0x0F0F]`: 13 coils from coil 3, function 1. -/
theorem poll_regs_read_coils_witness :
    ∃ s1 D, (received (exampleNode 5 []) (frameOf [5, 1, 3 / 256, 3 % 256, 13 / 256, 13 % 256])
          0).poll_regs [0xA5C3, 0x0F0F] 2 5 0 = .ok ((((13 + 7) / 8 + 5 : Nat) : Int), s1)
      ∧ s1.MODBUS_SERIAL.tx = (exampleNode 5 []).MODBUS_SERIAL.tx
          ++ [frameOf ([5, 1, (13 + 7) / 8] ++ D)]
      ∧ D.length = (13 + 7) / 8
      ∧ (∀ d ∈ D, d < 256)
      ∧ (∀ i j, i < (13 + 7) / 8 → j < 8 → (D.getD i 0).testBit j
          = if 8 * i + j < 13 then
              (([0xA5C3, 0x0F0F] : List Nat).getD ((3 + (8 * i + j)) / 16) 0).testBit
                ((3 + (8 * i + j)) % 16)
            else false)
      ∧ s1.au16regs = [0xA5C3, 0x0F0F] :=
  poll_regs_read_coils (exampleNode 5 []) [0xA5C3, 0x0F0F] 5 1 3 13 2 0 5 0 (by decide) rfl
    (by decide) (Or.inl rfl) rfl (by decide) (by decide) (by decide) (by decide)

/-- The loop of `process_FC15`, run for `n` coils from coil number `c` of the request: coil
`A + k` of the table, that is bit `(A + k) mod 16` of word `(A + k) div 16`, receives bit
`k mod 8` of frame byte `7 + k div 8`, for `c ≤ k < c + n`, and no other of the 16 bits of any
table word changes. -/
theorem process_FC15_loop_eq (buf : List Nat) (hlen : buf.length = 64) (A : Nat) :
    ∀ (n c : Nat) (regs : List Nat), regs.length ≤ 255 → A + c + n ≤ 16 * regs.length →
      c + n ≤ 456 →
      ∃ regs', process_FC15_loop buf A n c regs (7 + c / 8) (c % 8) = .ok regs'
        ∧ regs'.length = regs.length
        ∧ ∀ idx j, j < 16 → (regs'.getD idx 0).testBit j
            = if A + c ≤ 16 * idx + j ∧ 16 * idx + j < A + c + n then
                (buf.getD (7 + (16 * idx + j - A) / 8) 0).testBit ((16 * idx + j - A) % 8)
              else (regs.getD idx 0).testBit j := by
  intro n
  induction n with
  | zero =>
    intro c regs _ _ _
    refine ⟨regs, by simp [process_FC15_loop, pure, Except.pure], rfl, ?_⟩
    intro idx j _
    rw [if_neg (by omega)]
  | succ n ih =>
    intro c regs hN hrange hfit
    have e1 : (A + c) % 65536 = A + c := Nat.mod_eq_of_lt (by omega)
    have e2 : (A + c) / 16 % 256 = (A + c) / 16 := Nat.mod_eq_of_lt (by omega)
    have e3 : (A + c) % 16 % 256 = (A + c) % 16 := Nat.mod_eq_of_lt (by omega)
    obtain ⟨regs', hrun, hlen', hbits⟩ := ih (c + 1)
      (regs.set ((A + c) / 16) (bitWrite 16 (regs.getD ((A + c) / 16) 0) ((A + c) % 16)
        ((buf.getD (7 + c / 8) 0).testBit (c % 8))))
      (by rw [List.length_set]; exact hN) (by rw [List.length_set]; omega) (by omega)
    refine ⟨regs', ?_, by rw [hlen', List.length_set], ?_⟩
    · unfold process_FC15_loop
      simp only [e1, e2, e3, bind, Except.bind]
      rw [rdBuf_getD (by omega), rdReg_getD (by omega)]
      simp only [bitRead_ne_zero]
      rw [wrReg_ok _ (by omega),
        Nat.mod_eq_of_lt (show bitWrite 16 _ _ _ < 65536 from bitWrite_lt 16 _ _ _)]
      simp only []
      rw [← hrun]
      by_cases h7 : c % 8 = 7
      · rw [if_pos (by rw [h7]; decide),
          show (7 + c / 8 + 1) % 256 = 7 + (c + 1) / 8 by omega,
          show (c + 1) % 8 = 0 by omega]
      · rw [if_neg (by omega), show (c % 8 + 1) % 256 = (c + 1) % 8 by omega,
          show 7 + c / 8 = 7 + (c + 1) / 8 by omega]
    · intro idx j hj
      rw [hbits idx j hj]
      by_cases hin : A + (c + 1) ≤ 16 * idx + j ∧ 16 * idx + j < A + (c + 1) + n
      · rw [if_pos hin, if_pos (by omega)]
      · rw [if_neg hin]
        by_cases hc : idx = (A + c) / 16
        · subst hc
          rw [getD_set_eq _ _ _ (by omega), bitWrite_testBit 16 _ _ _ _ (by omega) hj]
          by_cases hjc : j = (A + c) % 16
          · rw [if_pos hjc, if_pos (by omega)]
            have : 16 * ((A + c) / 16) + j - A = c := by omega
            rw [this]
          · rw [if_neg hjc, if_neg (by omega)]
        · rw [getD_set_ne _ _ _ _ (fun e => hc e.symm), if_neg (by omega)]

/-- What `process_FC15` does for a request whose coils lie inside the table and whose data
bytes lie inside the frame buffer: `A` and `Q` are the start coil and quantity fields. -/
theorem process_FC15_eq (m : Modbus) (now A Q : Nat) (hbuf : bufferOK m.au8Buffer)
    (hA : word (m.au8Buffer.getD 2 0) (m.au8Buffer.getD 3 0) = A)
    (hQ : word (m.au8Buffer.getD 4 0) (m.au8Buffer.getD 5 0) = Q)
    (hN : m.au16regs.length ≤ 255) (hrange : A + Q ≤ 16 * m.au16regs.length)
    (hfit : Q ≤ 456) :
    ∃ m', m.process_FC15 now = .ok (8, m')
      ∧ m'.MODBUS_SERIAL.tx = m.MODBUS_SERIAL.tx ++ [frameOf (m.au8Buffer.take 6)]
      ∧ m'.au16regs.length = m.au16regs.length
      ∧ (∀ idx j, j < 16 → (m'.au16regs.getD idx 0).testBit j
          = if A ≤ 16 * idx + j ∧ 16 * idx + j < A + Q then
              (m.au8Buffer.getD (7 + (16 * idx + j - A) / 8) 0).testBit ((16 * idx + j - A) % 8)
            else (m.au16regs.getD idx 0).testBit j)
      ∧ m'.u16errCnt = m.u16errCnt
      ∧ m'.u8id = m.u8id
      ∧ bufferOK m'.au8Buffer := by
  have hlen : m.au8Buffer.length = 64 := hbuf.1
  have r2 := rdBuf_getD (show 2 < m.au8Buffer.length by omega)
  have r3 := rdBuf_getD (show 3 < m.au8Buffer.length by omega)
  have r4 := rdBuf_getD (show 4 < m.au8Buffer.length by omega)
  have r5 := rdBuf_getD (show 5 < m.au8Buffer.length by omega)
  obtain ⟨regs', hrun, hlen', hbits⟩ := process_FC15_loop_eq m.au8Buffer hlen A Q 0
    m.au16regs hN (by omega) (by omega)
  simp only [Nat.zero_div, Nat.zero_mod, Nat.add_zero, Nat.zero_add] at hrun hbits
  unfold process_FC15
  simp only [ADD_HI, ADD_LO, NB_HI, NB_LO, r2, r3, r4, r5, hA, hQ, bind, Except.bind, hrun]
  rw [sendTxBuffer_eq { m with au16regs := regs', u8BufferSize := 6 } now hbuf
    (show 6 + 2 ≤ 64 by decide)]
  simp only [pure, Except.pure]
  refine ⟨_, rfl, rfl, hlen', hbits, rfl, rfl, ?_⟩
  show bufferOK (frameOf (List.take 6 m.au8Buffer) ++ List.drop (6 + 2) m.au8Buffer)
  have hfl : (frameOf (List.take 6 m.au8Buffer)).length = 6 + 2 := by
    rw [frameOf_length, List.length_take, hlen]; rfl
  have := bufferOK_append_drop (frameOf (List.take 6 m.au8Buffer)) hbuf
    (frameOf_lt _ (fun b hb => hbuf.2 b (List.mem_of_mem_take hb))) (by rw [hfl]; decide)
  rw [hfl] at this
  exact this

theorem take6_eq (buf : List Nat) (h : 6 ≤ buf.length) :
    buf.take 6 = [buf.getD 0 0, buf.getD 1 0, buf.getD 2 0, buf.getD 3 0, buf.getD 4 0,
      buf.getD 5 0] := by
  match buf, h with
  | _ :: _ :: _ :: _ :: _ :: _ :: rest, _ => simp

/-- The slave carries out a checksum-valid function-15 request of at most 63 bytes that writes
the packed coils `P` from coil `A`, inside the table, and echoes the request header. -/
theorem poll_regs_write_coils_request (s : Modbus) (T P : List Nat)
    (sid A Q N t1 t2 fuel : Nat)
    (hbuf : bufferOK s.au8Buffer) (hsid : s.u8id = sid) (hs256 : sid < 256)
    (hN : T.length = N) (hN255 : N ≤ 255) (hrange : A + Q ≤ 16 * N)
    (hP : ∀ b ∈ P, b < 256) (hPl : P.length = (Q + 7) / 8) (hfit : 9 + (Q + 7) / 8 ≤ 63)
    (hT : T35 ≤ sub32 t2 t1) :
    ∃ s1, (received s (frameOf ([sid, 15, A / 256, A % 256, Q / 256, Q % 256, (Q + 7) / 8] ++ P))
            t1).poll_regs T N t2 fuel = .ok (8, s1)
      ∧ s1.MODBUS_SERIAL.tx = s.MODBUS_SERIAL.tx
          ++ [frameOf [sid, 15, A / 256, A % 256, Q / 256, Q % 256]]
      ∧ s1.au16regs.length = N
      ∧ (∀ idx j, j < 16 → (s1.au16regs.getD idx 0).testBit j
          = if A ≤ 16 * idx + j ∧ 16 * idx + j < A + Q then
              (P.getD ((16 * idx + j - A) / 8) 0).testBit ((16 * idx + j - A) % 8)
            else (T.getD idx 0).testBit j)
      ∧ s1.u16errCnt = s.u16errCnt
      ∧ s1.u8id = sid
      ∧ bufferOK s1.au8Buffer := by
  generalize hpd : [sid, 15, A / 256, A % 256, Q / 256, Q % 256, (Q + 7) / 8] ++ P = p
  have hpl : p.length = 7 + (Q + 7) / 8 := by
    rw [← hpd, List.length_append, hPl]; simp
  have hp : ∀ b ∈ p, b < 256 := by
    intro b hb
    rw [← hpd] at hb
    rcases List.mem_append.1 hb with h | h
    · simp only [List.mem_cons, List.mem_singleton, List.not_mem_nil, or_false] at h
      rcases h with h | h | h | h | h | h | h <;> omega
    · exact hP b h
  have hfb := frameOf_lt _ hp
  have hfl : (frameOf p).length = 9 + (Q + 7) / 8 := by rw [frameOf_length, hpl]; omega
  rw [poll_regs_received s _ T t1 N t2 fuel hbuf hfb (by omega) (by omega) hT]
  generalize hs0 : afterRx (withTable (received s (frameOf p) t1) T N) (frameOf p) = s0
  have hb0 : bufferOK s0.au8Buffer := by
    rw [← hs0]; exact bufferOK_afterRx _ _ hbuf hfb (by omega)
  have g : ∀ i, i < 7 + (Q + 7) / 8 → s0.au8Buffer.getD i 0 = p.getD i 0 := by
    intro i hi
    rw [← hs0, getD_afterRx _ _ i (by omega), getD_frameOf _ i (by omega)]
  have gh : ∀ i, i < 7 → p.getD i 0
      = [sid, 15, A / 256, A % 256, Q / 256, Q % 256, (Q + 7) / 8].getD i 0 := by
    intro i hi
    rw [← hpd, List.getD_eq_getElem?_getD, List.getD_eq_getElem?_getD,
      List.getElem?_append_left (by simpa using hi)]
  have gt : ∀ i, p.getD (7 + i) 0 = P.getD i 0 := by
    intro i
    rw [← hpd, List.getD_eq_getElem?_getD, List.getD_eq_getElem?_getD,
      List.getElem?_append_right (by simp)]
    simp
  have g0 : s0.au8Buffer.getD 0 0 = sid := by rw [g 0 (by omega), gh 0 (by decide)]; rfl
  have g1 : s0.au8Buffer.getD 1 0 = 15 := by rw [g 1 (by omega), gh 1 (by decide)]; rfl
  have g2 : s0.au8Buffer.getD 2 0 = A / 256 := by
    rw [g 2 (by omega), gh 2 (by decide)]; rfl
  have g3 : s0.au8Buffer.getD 3 0 = A % 256 := by
    rw [g 3 (by omega), gh 3 (by decide)]; rfl
  have g4 : s0.au8Buffer.getD 4 0 = Q / 256 := by
    rw [g 4 (by omega), gh 4 (by decide)]; rfl
  have g5 : s0.au8Buffer.getD 5 0 = Q % 256 := by
    rw [g 5 (by omega), gh 5 (by decide)]; rfl
  have hsz : s0.u8BufferSize = 9 + (Q + 7) / 8 := by rw [← hs0]; exact hfl
  have hid0 : s0.u8id = sid := by rw [← hs0]; exact hsid
  have hreg : s0.au16regs = T := by rw [← hs0]; rfl
  have hrs : s0.u8regsize = N := by rw [← hs0]; exact Nat.mod_eq_of_lt (by omega)
  have htx : s0.MODBUS_SERIAL.tx = s.MODBUS_SERIAL.tx := by rw [← hs0]; rfl
  have herr : s0.u16errCnt = s.u16errCnt := by rw [← hs0]; rfl
  have hgood : validFrame (s0.au8Buffer.take s0.u8BufferSize) := by
    rw [← hs0, take_afterRx]; exact validFrame_frameOf _
  have wA : word (s0.au8Buffer.getD 2 0) (s0.au8Buffer.getD 3 0) = A := by
    rw [g2, g3, word_eq (by omega) (by omega)]; omega
  have wQ : word (s0.au8Buffer.getD 4 0) (s0.au8Buffer.getD 5 0) = Q := by
    rw [g4, g5, word_eq (by omega) (by omega)]; omega
  have hv := validateRequest_coils
    { s0 with u8lastError := toUInt8 ((9 + (Q + 7) / 8 : Nat) : Int) } hb0
    (show 2 ≤ s0.u8BufferSize by omega) (show s0.u8BufferSize ≤ 64 by omega) hgood
    (by
      show s0.au8Buffer.getD 1 0 = 1 ∨ s0.au8Buffer.getD 1 0 = 2 ∨ s0.au8Buffer.getD 1 0 = 15
      rw [g1]; omega)
  rw [if_neg (by
    show ¬ (word (s0.au8Buffer.getD 2 0) (s0.au8Buffer.getD 3 0) / 16
      + word (s0.au8Buffer.getD 4 0) (s0.au8Buffer.getD 5 0) / 16) % 65536 % 256
        > s0.u8regsize
    rw [wA, wQ, hrs]; omega)] at hv
  rw [hfl, poll_regs_frame_dispatch s0 (9 + (Q + 7) / 8) t2 fuel hb0 (by omega) hsz
    (by rw [g0, hid0]) hv, g1]
  simp only [show ¬ ((15 : Nat) = 1 ∨ (15 : Nat) = 2) by decide,
    show ¬ ((15 : Nat) = 4 ∨ (15 : Nat) = 3) by decide, show ¬ (15 : Nat) = 5 by decide,
    show ¬ (15 : Nat) = 6 by decide, if_false, if_true]
  obtain ⟨s1, h1, h2, h3, h4, h5, h6, h7⟩ := process_FC15_eq
    { s0 with u32timeOut := t2 % 4294967296, u8lastError := 0 } t2 A Q hb0 wA wQ
    (by show s0.au16regs.length ≤ 255; rw [hreg, hN]; exact hN255)
    (by show A + Q ≤ 16 * s0.au16regs.length; rw [hreg, hN]; exact hrange) (by omega)
  refine ⟨s1, h1, ?_, ?_, ?_, ?_, ?_, h7⟩
  · rw [h2]
    show s0.MODBUS_SERIAL.tx ++ [frameOf (s0.au8Buffer.take 6)] = _
    rw [take6_eq _ (by rw [hb0.1]; decide), htx, g0, g1, g2, g3, g4, g5]
  · rw [h3]; show s0.au16regs.length = N; rw [hreg, hN]
  · intro idx j hj
    rw [h4 idx j hj]
    show (if A ≤ 16 * idx + j ∧ 16 * idx + j < A + Q then
      (s0.au8Buffer.getD (7 + (16 * idx + j - A) / 8) 0).testBit ((16 * idx + j - A) % 8)
      else (s0.au16regs.getD idx 0).testBit j) = _
    rw [hreg]
    by_cases hin : A ≤ 16 * idx + j ∧ 16 * idx + j < A + Q
    · rw [if_pos hin, if_pos hin, g _ (by omega), gt]
    · rw [if_neg hin, if_neg hin]
  · rw [h5]; exact herr
  · rw [h6]; exact hid0

/-- C18 as amended: for every slave with a table `T` of `N ≤ 255` words, every start coil `A`
and quantity `Q` with `A + Q ≤ 16 N` whose function-15 request frame has at most 63 bytes
(`9 + ceil(Q / 8) ≤ 63`), and every packed payload `P` of `ceil(Q / 8)` bytes: the slave's poll
on the checksum-valid function-15 request writing `P` at `A` returns 8, and its next poll, on
the function-1 request for `Q` coils at `A`, transmits `[id, 1, B, d_0, ..., d_(B-1), crc_lo,
crc_hi]` with `B = ceil(Q / 8)`, where bit `j` of `d_i` equals bit `j` of `P_i` for
`8i + j < Q` and is 0 for `8i + j ≥ Q`. -/
theorem coil_round_trip (s : Modbus) (T P : List Nat) (sid A Q N t1 t2 t3 t4 fuel : Nat)
    (hbuf : bufferOK s.au8Buffer) (hsid : s.u8id = sid) (hs256 : sid < 256)
    (hN : T.length = N) (hN255 : N ≤ 255) (hrange : A + Q ≤ 16 * N)
    (hP : ∀ b ∈ P, b < 256) (hPl : P.length = (Q + 7) / 8) (hfit : 9 + (Q + 7) / 8 ≤ 63)
    (hT1 : T35 ≤ sub32 t2 t1) (hT2 : T35 ≤ sub32 t4 t3) :
    ∃ s1 s2 D,
      (received s (frameOf ([sid, 15, A / 256, A % 256, Q / 256, Q % 256, (Q + 7) / 8] ++ P))
          t1).poll_regs T N t2 fuel = .ok (8, s1)
      ∧ (received s1 (frameOf [sid, 1, A / 256, A % 256, Q / 256, Q % 256]) t3).poll_regs
          s1.au16regs N t4 fuel = .ok ((((Q + 7) / 8 + 5 : Nat) : Int), s2)
      ∧ s2.MODBUS_SERIAL.tx = s1.MODBUS_SERIAL.tx ++ [frameOf ([sid, 1, (Q + 7) / 8] ++ D)]
      ∧ D.length = (Q + 7) / 8
      ∧ (∀ d ∈ D, d < 256)
      ∧ ∀ i j, i < (Q + 7) / 8 → j < 8 → (D.getD i 0).testBit j
          = if 8 * i + j < Q then (P.getD i 0).testBit j else false := by
  obtain ⟨s1, h1, -, h3, h4, -, h6, h7⟩ := poll_regs_write_coils_request s T P sid A Q N t1 t2
    fuel hbuf hsid hs256 hN hN255 hrange hP hPl hfit hT1
  obtain ⟨s2, D, k1, k2, k3, k4, k5, -⟩ := poll_regs_coils_request s1 s1.au16regs sid 1 A Q N
    t3 t4 fuel h7 h6 hs256 (Or.inl rfl) h3 hN255 hrange (by omega) hT2
  refine ⟨s1, s2, D, h1, k1, k2, k3, k4, ?_⟩
  intro i j hi hj
  rw [k5 i j hi hj]
  by_cases hq : 8 * i + j < Q
  · rw [if_pos hq, if_pos hq, h4 _ _ (Nat.mod_lt _ (by decide)),
      if_pos ⟨by omega, by omega⟩]
    have e : 16 * ((A + (8 * i + j)) / 16) + (A + (8 * i + j)) % 16 - A = 8 * i + j := by omega
    rw [e, show (8 * i + j) / 8 = i by omega, show (8 * i + j) % 8 = j by omega]
  · rw [if_neg hq, if_neg hq]

set_option maxRecDepth 20000 in
/-- C18 as amended, on slave 5 with the table `[0xFFFF, 0x0000, 0xAAAA]` and start coil 12, for
the quantities 1, 7, 8, 9 and 16. -/
theorem coil_round_trip_witness :
    (∃ s1 s2 D,
      (received (exampleNode 5 [])
          (frameOf ([5, 15, 12 / 256, 12 % 256, 1 / 256, 1 % 256, (1 + 7) / 8] ++ [0xFF]))
          0).poll_regs [0xFFFF, 0x0000, 0xAAAA] 3 5 0 = .ok (8, s1)
      ∧ (received s1 (frameOf [5, 1, 12 / 256, 12 % 256, 1 / 256, 1 % 256]) 100).poll_regs
          s1.au16regs 3 105 0 = .ok (((((1 + 7) / 8 + 5 : Nat)) : Int), s2)
      ∧ s2.MODBUS_SERIAL.tx = s1.MODBUS_SERIAL.tx ++ [frameOf ([5, 1, (1 + 7) / 8] ++ D)]
      ∧ D.length = (1 + 7) / 8
      ∧ (∀ d ∈ D, d < 256)
      ∧ ∀ i j, i < (1 + 7) / 8 → j < 8 → (D.getD i 0).testBit j
          = if 8 * i + j < 1 then (([0xFF] : List Nat).getD i 0).testBit j else false)
    ∧ (∃ s1 s2 D,
      (received (exampleNode 5 [])
          (frameOf ([5, 15, 12 / 256, 12 % 256, 7 / 256, 7 % 256, (7 + 7) / 8] ++ [0x55]))
          0).poll_regs [0xFFFF, 0x0000, 0xAAAA] 3 5 0 = .ok (8, s1)
      ∧ (received s1 (frameOf [5, 1, 12 / 256, 12 % 256, 7 / 256, 7 % 256]) 100).poll_regs
          s1.au16regs 3 105 0 = .ok (((((7 + 7) / 8 + 5 : Nat)) : Int), s2)
      ∧ s2.MODBUS_SERIAL.tx = s1.MODBUS_SERIAL.tx ++ [frameOf ([5, 1, (7 + 7) / 8] ++ D)]
      ∧ D.length = (7 + 7) / 8
      ∧ (∀ d ∈ D, d < 256)
      ∧ ∀ i j, i < (7 + 7) / 8 → j < 8 → (D.getD i 0).testBit j
          = if 8 * i + j < 7 then (([0x55] : List Nat).getD i 0).testBit j else false)
    ∧ (∃ s1 s2 D,
      (received (exampleNode 5 [])
          (frameOf ([5, 15, 12 / 256, 12 % 256, 8 / 256, 8 % 256, (8 + 7) / 8] ++ [0xA5]))
          0).poll_regs [0xFFFF, 0x0000, 0xAAAA] 3 5 0 = .ok (8, s1)
      ∧ (received s1 (frameOf [5, 1, 12 / 256, 12 % 256, 8 / 256, 8 % 256]) 100).poll_regs
          s1.au16regs 3 105 0 = .ok (((((8 + 7) / 8 + 5 : Nat)) : Int), s2)
      ∧ s2.MODBUS_SERIAL.tx = s1.MODBUS_SERIAL.tx ++ [frameOf ([5, 1, (8 + 7) / 8] ++ D)]
      ∧ D.length = (8 + 7) / 8
      ∧ (∀ d ∈ D, d < 256)
      ∧ ∀ i j, i < (8 + 7) / 8 → j < 8 → (D.getD i 0).testBit j
          = if 8 * i + j < 8 then (([0xA5] : List Nat).getD i 0).testBit j else false)
    ∧ (∃ s1 s2 D,
      (received (exampleNode 5 [])
          (frameOf ([5, 15, 12 / 256, 12 % 256, 9 / 256, 9 % 256, (9 + 7) / 8] ++ [0xA5, 0x01]))
          0).poll_regs [0xFFFF, 0x0000, 0xAAAA] 3 5 0 = .ok (8, s1)
      ∧ (received s1 (frameOf [5, 1, 12 / 256, 12 % 256, 9 / 256, 9 % 256]) 100).poll_regs
          s1.au16regs 3 105 0 = .ok (((((9 + 7) / 8 + 5 : Nat)) : Int), s2)
      ∧ s2.MODBUS_SERIAL.tx = s1.MODBUS_SERIAL.tx ++ [frameOf ([5, 1, (9 + 7) / 8] ++ D)]
      ∧ D.length = (9 + 7) / 8
      ∧ (∀ d ∈ D, d < 256)
      ∧ ∀ i j, i < (9 + 7) / 8 → j < 8 → (D.getD i 0).testBit j
          = if 8 * i + j < 9 then (([0xA5, 0x01] : List Nat).getD i 0).testBit j else false)
    ∧ (∃ s1 s2 D,
      (received (exampleNode 5 [])
          (frameOf ([5, 15, 12 / 256, 12 % 256, 16 / 256, 16 % 256, (16 + 7) / 8] ++ [0x3C, 0xC3]))
          0).poll_regs [0xFFFF, 0x0000, 0xAAAA] 3 5 0 = .ok (8, s1)
      ∧ (received s1 (frameOf [5, 1, 12 / 256, 12 % 256, 16 / 256, 16 % 256]) 100).poll_regs
          s1.au16regs 3 105 0 = .ok (((((16 + 7) / 8 + 5 : Nat)) : Int), s2)
      ∧ s2.MODBUS_SERIAL.tx = s1.MODBUS_SERIAL.tx ++ [frameOf ([5, 1, (16 + 7) / 8] ++ D)]
      ∧ D.length = (16 + 7) / 8
      ∧ (∀ d ∈ D, d < 256)
      ∧ ∀ i j, i < (16 + 7) / 8 → j < 8 → (D.getD i 0).testBit j
          = if 8 * i + j < 16 then (([0x3C, 0xC3] : List Nat).getD i 0).testBit j else false) :=
  ⟨coil_round_trip (exampleNode 5 []) [0xFFFF, 0x0000, 0xAAAA] [0xFF] 5 12 1 3 0 5 100 105 0
      (by decide) rfl (by decide) rfl (by decide) (by decide) (by decide) rfl (by decide)
      (by decide) (by decide),
    coil_round_trip (exampleNode 5 []) [0xFFFF, 0x0000, 0xAAAA] [0x55] 5 12 7 3 0 5 100 105 0
      (by decide) rfl (by decide) rfl (by decide) (by decide) (by decide) rfl (by decide)
      (by decide) (by decide),
    coil_round_trip (exampleNode 5 []) [0xFFFF, 0x0000, 0xAAAA] [0xA5] 5 12 8 3 0 5 100 105 0
      (by decide) rfl (by decide) rfl (by decide) (by decide) (by decide) rfl (by decide)
      (by decide) (by decide),
    coil_round_trip (exampleNode 5 []) [0xFFFF, 0x0000, 0xAAAA] [0xA5, 0x01] 5 12 9 3 0 5 100 105 0
      (by decide) rfl (by decide) rfl (by decide) (by decide) (by decide) rfl (by decide)
      (by decide) (by decide),
    coil_round_trip (exampleNode 5 []) [0xFFFF, 0x0000, 0xAAAA] [0x3C, 0xC3] 5 12 16 3 0 5 100 105 0
      (by decide) rfl (by decide) rfl (by decide) (by decide) (by decide) rfl (by decide)
      (by decide) (by decide)⟩

/-- The receive loop on pending bytes that fill the buffer to its last index: all of them are
stored, and the overflow flag is raised with the 64th. -/
theorem getRxBuffer_loop_full (rx : List Nat) (hrx : ∀ b ∈ rx, b < 256) :
    ∀ (buf : List Nat) (size : Nat) (ovf : Bool), buf.length = 64 → 0 < rx.length →
      size + rx.length = 64 →
      getRxBuffer_loop rx buf size ovf = .ok (buf.take size ++ rx, 64, true) := by
  induction rx with
  | nil => intro buf size ovf _ h0 _; cases h0
  | cons b bs ih =>
    intro buf size ovf hlen _ hsz
    simp only [List.length_cons] at hsz
    have hb : b < 256 := hrx b (List.mem_cons_self _ _)
    have e1 : (buf.set size b).take (size + 1) = buf.take size ++ [b] :=
      take_succ_set buf size b (by omega)
    rw [getRxBuffer_loop, wrBuf_ok _ (by omega)]
    simp only [bind, Except.bind]
    rw [Nat.mod_eq_of_lt (show size + 1 < 256 by omega), Nat.mod_eq_of_lt hb]
    by_cases hbs : bs = []
    · subst hbs
      simp only [List.length_nil, Nat.add_zero] at hsz
      rw [if_pos (show size + 1 ≥ MAX_BUFFER by simp only [MAX_BUFFER]; omega)]
      simp only [getRxBuffer_loop, pure, Except.pure]
      rw [← hsz, ← e1, List.take_of_length_le (by rw [List.length_set]; omega)]
    · have hpos : 0 < bs.length := List.length_pos.2 hbs
      rw [ih (fun x hx => hrx x (List.mem_cons_of_mem _ hx)) _ _ _
        (by rw [List.length_set]; exact hlen) hpos (by omega), e1]
      simp

/-- The slave poll on a released frame of exactly 64 bytes: `getRxBuffer` reports an overflow,
the poll returns `ERR_BUFF_OVERFLOW` and the frame is not processed. -/
theorem poll_regs_full_buffer (s : Modbus) (f regs : List Nat) (t u8size now fuel : Nat)
    (hbuf : bufferOK s.au8Buffer) (hf : ∀ b ∈ f, b < 256) (h64 : f.length = 64)
    (hT : T35 ≤ sub32 now t) :
    ∃ s1, (received s f t).poll_regs regs u8size now fuel = .ok (ERR_BUFF_OVERFLOW, s1)
      ∧ s1.au16regs = regs
      ∧ s1.MODBUS_SERIAL.tx = s.MODBUS_SERIAL.tx
      ∧ s1.u16errCnt = (s.u16errCnt + 1) % 65536
      ∧ s1.u8id = s.u8id
      ∧ bufferOK s1.au8Buffer := by
  have hready : frameReady (received s f t) now := by
    refine ⟨?_, rfl, ?_⟩
    · show f.length % 256 ≠ 0
      omega
    · show T35 ≤ sub32 now (t % 4294967296)
      rw [sub32_mod]; exact hT
  have hl := getRxBuffer_loop_full f hf s.au8Buffer 0 false hbuf.1 (by omega) (by omega)
  rw [List.take_zero, List.nil_append] at hl
  rw [poll_regs_eq_frame _ _ _ _ _ hready]
  unfold getRxBuffer
  by_cases hp : s.u8txenpin > 1
  · have hp' : (received s f t).u8txenpin > 1 := hp
    simp only [hp', if_true]
    rw [show getRxBuffer_loop (received s f t).MODBUS_SERIAL.rx (received s f t).au8Buffer 0
      false = .ok (f, 64, true) from hl]
    exact ⟨_, rfl, rfl, rfl, rfl, rfl, h64, hf⟩
  · have hp' : ¬ (received s f t).u8txenpin > 1 := hp
    simp only [hp', if_false]
    rw [show getRxBuffer_loop (received s f t).MODBUS_SERIAL.rx (received s f t).au8Buffer 0
      false = .ok (f, 64, true) from hl]
    exact ⟨_, rfl, rfl, rfl, rfl, rfl, h64, hf⟩

/-- C18 fails for a request of exactly 64 bytes, which fills the 64-byte buffer: slave 5 with a
table of 28 zero words receives the checksum-valid function-15 request for 433 coils from coil
0 with all 55 data bytes `0xFF`.  `getRxBuffer` flags the frame as an overflow, the poll
returns -3, nothing is written and nothing is sent; the function-1 request for the same coils
is then answered with 55 data bytes of which the first has bit 0 clear, although bit 0 of the
first payload byte is 1. -/
theorem coil_round_trip_full_buffer :
    (frameOf ([5, 15, 0 / 256, 0 % 256, 433 / 256, 433 % 256, (433 + 7) / 8]
        ++ List.replicate 55 0xFF)).length = 64
      ∧ ∃ s1, (received (exampleNode 5 [])
            (frameOf ([5, 15, 0 / 256, 0 % 256, 433 / 256, 433 % 256, (433 + 7) / 8]
              ++ List.replicate 55 0xFF)) 0).poll_regs (List.replicate 28 0) 28 5 0
          = .ok (-3, s1)
        ∧ s1.au16regs = List.replicate 28 0
        ∧ s1.MODBUS_SERIAL.tx = []
        ∧ ∃ s2 D, (received s1 (frameOf [5, 1, 0 / 256, 0 % 256, 433 / 256, 433 % 256])
              100).poll_regs s1.au16regs 28 105 0 = .ok ((((433 + 7) / 8 + 5 : Nat) : Int), s2)
          ∧ s2.MODBUS_SERIAL.tx = [frameOf ([5, 1, (433 + 7) / 8] ++ D)]
          ∧ (D.getD 0 0).testBit 0 = false
          ∧ ((List.replicate 55 0xFF).getD 0 0).testBit 0 = true := by
  have hp : ∀ b ∈ [5, 15, 0 / 256, 0 % 256, 433 / 256, 433 % 256, (433 + 7) / 8]
      ++ List.replicate 55 0xFF, b < 256 := by
    intro b hb
    rcases List.mem_append.1 hb with h | h
    · simp only [List.mem_cons, List.mem_singleton, List.not_mem_nil, or_false] at h
      rcases h with h | h | h | h | h | h | h <;> omega
    · rw [List.eq_of_mem_replicate h]; decide
  have hfl : (frameOf ([5, 15, 0 / 256, 0 % 256, 433 / 256, 433 % 256, (433 + 7) / 8]
      ++ List.replicate 55 0xFF)).length = 64 := by
    rw [frameOf_length]; rfl
  refine ⟨hfl, ?_⟩
  obtain ⟨s1, h1, h2, h3, -, h5, h4⟩ := poll_regs_full_buffer (exampleNode 5 [])
    (frameOf ([5, 15, 0 / 256, 0 % 256, 433 / 256, 433 % 256, (433 + 7) / 8]
      ++ List.replicate 55 0xFF)) (List.replicate 28 0) 0 28 5 0 (by decide)
    (frameOf_lt _ hp) hfl (by decide)
  obtain ⟨s2, D, k1, k2, -, -, k5, -⟩ := poll_regs_coils_request s1 s1.au16regs 5 1 0 433 28
    100 105 0 h4 h5 (by decide) (Or.inl rfl) (by rw [h2]; rfl) (by decide) (by decide)
    (by decide) (by decide)
  refine ⟨s1, h1, h2, h3, s2, D, k1, ?_, ?_, by decide⟩
  · rw [k2, h3]; rfl
  · rw [k5 0 0 (by decide) (by decide), h2]
    decide

/-! ## Master: the request for function 16 -/

/-- The loop of `query` for function 16 copies `k` table entries from `i` on to the buffer,
two bytes each, high byte first. -/
theorem query_FC16_loop_eq (regs : List Nat) :
    ∀ (k i : Nat) (buf : List Nat) (size : Nat), i + k ≤ regs.length →
      size + 2 * k ≤ 64 → buf.length = 64 →
      query_FC16_loop regs k i buf size
        = .ok (buf.take size ++ bigEndian ((regs.drop i).take k) ++ buf.drop (size + 2 * k),
            size + 2 * k) := by
  intro k
  induction k with
  | zero =>
    intro i buf size _ _ _
    simp [query_FC16_loop, bigEndian, pure, Except.pure]
  | succ k ih =>
    intro i buf size hik hsz hlen
    have hi : i < regs.length := by omega
    rw [query_FC16_loop, rdReg_ok hi]
    simp only [bind, Except.bind]
    rw [wrBuf_ok _ (by omega)]
    simp only []
    rw [Nat.mod_eq_of_lt (show size + 1 < 256 by omega), wrBuf_ok _ (by rw [List.length_set]; omega)]
    simp only []
    rw [Nat.mod_eq_of_lt (show size + 1 + 1 < 256 by omega),
      ih (i + 1) _ (size + 1 + 1) (by omega) (by omega)
        (by simp only [List.length_set]; exact hlen)]
    rw [set_set_eq _ _ _ _ (by omega)]
    have hd : regs.drop i = regs[i] :: regs.drop (i + 1) := List.drop_eq_getElem_cons hi
    rw [hd, List.take_succ_cons, bigEndian_cons, highByte_eq, lowByte_eq, Nat.mod_mod, Nat.mod_mod]
    have hl : (List.take size buf).length = size := by rw [List.length_take]; omega
    have hPX : (List.take size buf ++ [regs[i] / 256 % 256, regs[i] % 256]).length
        = size + 1 + 1 := by
      rw [List.length_append, hl]; rfl
    have e0 : List.take size buf ++ regs[i] / 256 % 256 :: regs[i] % 256 :: List.drop (size + 2) buf
        = (List.take size buf ++ [regs[i] / 256 % 256, regs[i] % 256])
          ++ List.drop (size + 2) buf := by
      simp
    rw [e0, List.take_left' hPX, ← hPX, List.drop_append, List.drop_drop, hPX]
    have e3 : size + 2 + 2 * k = size + 2 * (k + 1) := by omega
    rw [e3]
    simp

theorem set7 (buf : List Nat) (h : 7 ≤ buf.length) (a0 a1 a2 a3 a4 a5 a6 : Nat) :
    ((((((buf.set 0 a0).set 1 a1).set 2 a2).set 3 a3).set 4 a4).set 5 a5).set 6 a6
      = [a0, a1, a2, a3, a4, a5, a6] ++ buf.drop 7 := by
  match buf, h with
  | _ :: _ :: _ :: _ :: _ :: _ :: _ :: rest, _ => simp
/-- What `query` does with a function-16 telegram for `Q ≤ 27` registers held by the caller's
table. -/
theorem query_write_regs_eq (m : Modbus) (tg : modbus_t) (now : Nat)
    (hbuf : bufferOK m.au8Buffer) (hid : m.u8id = 0) (hidle : m.u8state = COM_IDLE)
    (h1 : 1 ≤ tg.u8id) (h247 : tg.u8id ≤ 247) (hf : tg.u8fct = 16)
    (hQ : tg.u16CoilsNo ≤ 27) (hT : tg.u16CoilsNo ≤ tg.au16reg.length) :
    ∃ m', m.query tg now = .ok (0, m')
      ∧ m'.MODBUS_SERIAL.tx = m.MODBUS_SERIAL.tx ++
          [frameOf ([tg.u8id, 16, tg.u16RegAdd / 256 % 256, tg.u16RegAdd % 256,
              tg.u16CoilsNo / 256 % 256, tg.u16CoilsNo % 256, 2 * tg.u16CoilsNo]
            ++ bigEndian (tg.au16reg.take tg.u16CoilsNo))]
      ∧ bufferOK m'.au8Buffer
      ∧ m'.au16regs = tg.au16reg
      ∧ m'.u16OutCnt = (m.u16OutCnt + 1) % 65536
      ∧ m'.u16errCnt = m.u16errCnt
      ∧ m'.u32timeOut = now % 4294967296
      ∧ m'.u8lastError = 0
      ∧ m'.u8state = COM_WAITING := by
  have hlen : m.au8Buffer.length = 64 := hbuf.1
  unfold query
  simp only [hid, hidle, ne_eq, not_true_eq_false, if_false,
    show ¬ (tg.u8id = 0 ∨ tg.u8id > 247) by omega, hf, MB_FC_READ_COILS,
    MB_FC_READ_DISCRETE_INPUT, MB_FC_READ_REGISTERS, MB_FC_READ_INPUT_REGISTER, MB_FC_WRITE_COIL,
    MB_FC_WRITE_REGISTER, MB_FC_WRITE_MULTIPLE_COILS, MB_FC_WRITE_MULTIPLE_REGISTERS,
    show ¬ ((16 : Nat) = 1 ∨ (16 : Nat) = 2 ∨ (16 : Nat) = 3 ∨ (16 : Nat) = 4) by decide,
    show ¬ (16 : Nat) = 5 by decide, show ¬ (16 : Nat) = 6 by decide,
    show ¬ (16 : Nat) = 15 by decide, if_true]
  simp only [ID, FUNC, ADD_HI, ADD_LO, NB_HI, NB_LO, BYTE_CNT]
  rw [wrBuf_ok _ (by omega)]
  simp only [bind, Except.bind]
  rw [wrBuf_ok _ (by simp only [List.length_set]; omega)]
  simp only []
  rw [wrBuf_ok _ (by simp only [List.length_set]; omega)]
  simp only []
  rw [wrBuf_ok _ (by simp only [List.length_set]; omega)]
  simp only []
  rw [wrBuf_ok _ (by simp only [List.length_set]; omega)]
  simp only []
  rw [wrBuf_ok _ (by simp only [List.length_set]; omega)]
  simp only []
  rw [wrBuf_ok _ (by simp only [List.length_set]; omega)]
  simp only []
  rw [set7 _ (by omega), Nat.mod_eq_of_lt (show tg.u16CoilsNo < 65536 by omega),
    query_FC16_loop_eq tg.au16reg tg.u16CoilsNo 0 _ 7 (by omega) (by omega)
      (by simp only [List.length_append, List.length_drop, List.length_cons, List.length_nil]
          omega)]
  simp only [highByte_eq, lowByte_eq, Nat.mod_mod, Nat.mod_eq_of_lt (show tg.u8id < 256 by omega),
    Nat.mod_eq_of_lt (show (16 : Nat) < 256 by decide),
    Nat.mod_eq_of_lt (show tg.u16CoilsNo * 2 < 256 by omega),
    Nat.mod_eq_of_lt (show 2 * tg.u16CoilsNo < 256 by omega), Nat.mul_comm tg.u16CoilsNo 2,
    List.drop_zero]
  generalize hP : [tg.u8id, 16, tg.u16RegAdd / 256 % 256, tg.u16RegAdd % 256,
    tg.u16CoilsNo / 256 % 256, tg.u16CoilsNo % 256, 2 * tg.u16CoilsNo] = hdr
  have hhl : hdr.length = 7 := by rw [← hP]; rfl
  have hhb : ∀ b ∈ hdr, b < 256 := by
    intro b hb
    rw [← hP] at hb
    simp only [List.mem_cons, List.mem_singleton, List.not_mem_nil, or_false] at hb
    rcases hb with h | h | h | h | h | h | h <;> omega
  have htk : List.take 7 (hdr ++ List.drop 7 m.au8Buffer) = hdr := by
    rw [← hhl]; exact List.take_left _ _
  have hBl : (bigEndian (tg.au16reg.take tg.u16CoilsNo)).length = 2 * tg.u16CoilsNo := by
    rw [bigEndian_length, List.length_take, Nat.min_eq_left hT]
  have hpl : (hdr ++ bigEndian (tg.au16reg.take tg.u16CoilsNo)).length
      = 7 + 2 * tg.u16CoilsNo := by
    rw [List.length_append, hhl, hBl]
  have hpb : ∀ b ∈ hdr ++ bigEndian (tg.au16reg.take tg.u16CoilsNo), b < 256 := by
    intro b hb
    rcases List.mem_append.1 hb with h | h
    · exact hhb b h
    · exact bigEndian_lt _ b h
  rw [htk]
  have hok : bufferOK (hdr ++ bigEndian (tg.au16reg.take tg.u16CoilsNo)
      ++ List.drop (7 + 2 * tg.u16CoilsNo) (hdr ++ List.drop 7 m.au8Buffer)) := by
    refine ⟨?_, ?_⟩
    · rw [List.length_append, hpl, List.length_drop, List.length_append, hhl, List.length_drop,
        hlen]
      show 7 + 2 * tg.u16CoilsNo + (7 + (64 - 7) - (7 + 2 * tg.u16CoilsNo)) = 64
      omega
    · intro b hb
      rcases List.mem_append.1 hb with h | h
      · exact hpb b h
      · rcases List.mem_append.1 (List.mem_of_mem_drop h) with h' | h'
        · exact hhb b h'
        · exact hbuf.2 b (List.mem_of_mem_drop h')
  rw [sendTxBuffer_eq _ now hok (by show 7 + 2 * tg.u16CoilsNo + 2 ≤ 64; omega)]
  simp only [pure, Except.pure]
  have htk2 : List.take (7 + 2 * tg.u16CoilsNo) (hdr ++ bigEndian (tg.au16reg.take tg.u16CoilsNo)
      ++ List.drop (7 + 2 * tg.u16CoilsNo) (hdr ++ List.drop 7 m.au8Buffer))
      = hdr ++ bigEndian (tg.au16reg.take tg.u16CoilsNo) := List.take_left' hpl
  refine ⟨_, rfl, ?_, ?_, rfl, rfl, rfl, rfl, rfl, rfl⟩
  · show m.MODBUS_SERIAL.tx ++ [frameOf (List.take (7 + 2 * tg.u16CoilsNo) _)] = _
    rw [htk2]
  · show bufferOK (frameOf (List.take (7 + 2 * tg.u16CoilsNo) _)
      ++ List.drop (7 + 2 * tg.u16CoilsNo + 2) _)
    rw [htk2]
    have hfl : (frameOf (hdr ++ bigEndian (tg.au16reg.take tg.u16CoilsNo))).length
        = 7 + 2 * tg.u16CoilsNo + 2 := by rw [frameOf_length, hpl]
    have := bufferOK_append_drop (frameOf (hdr ++ bigEndian (tg.au16reg.take tg.u16CoilsNo)))
      hok (frameOf_lt _ hpb) (by rw [hfl]; omega)
    rw [hfl] at this
    exact this
/-- C21: for every idle master and every function-16 telegram with node address `id` in 1..247,
start `A` and quantity `Q ≤ 27` of a table holding at least `Q` entries, `query` returns 0 and
transmits exactly the `9 + 2Q` bytes `[id, 16, A>>8, A&0xFF, Q>>8, Q&0xFF, 2Q, hi(r_0), lo(r_0),
..., hi(r_(Q-1)), lo(r_(Q-1)), crc_lo, crc_hi]`, `r_i` being entry `i` of the caller's table;
the call stays inside defined behaviour (no store outside `au8Buffer`, which keeps its 64
bytes). -/
theorem query_write_regs_transmits (m : Modbus) (tg : modbus_t) (now : Nat)
    (hbuf : bufferOK m.au8Buffer) (hid : m.u8id = 0) (hidle : m.u8state = COM_IDLE)
    (h1 : 1 ≤ tg.u8id) (h247 : tg.u8id ≤ 247) (hf : tg.u8fct = 16)
    (hA : tg.u16RegAdd < 65536) (hQ : tg.u16CoilsNo ≤ 27)
    (hT : tg.u16CoilsNo ≤ tg.au16reg.length) :
    ∃ m', m.query tg now = .ok (0, m')
      ∧ m'.MODBUS_SERIAL.tx = m.MODBUS_SERIAL.tx ++
          [frameOf ([tg.u8id, 16, tg.u16RegAdd >>> 8, tg.u16RegAdd &&& 0xFF,
              tg.u16CoilsNo >>> 8, tg.u16CoilsNo &&& 0xFF, 2 * tg.u16CoilsNo]
            ++ bigEndian (tg.au16reg.take tg.u16CoilsNo))]
      ∧ (frameOf ([tg.u8id, 16, tg.u16RegAdd >>> 8, tg.u16RegAdd &&& 0xFF,
              tg.u16CoilsNo >>> 8, tg.u16CoilsNo &&& 0xFF, 2 * tg.u16CoilsNo]
            ++ bigEndian (tg.au16reg.take tg.u16CoilsNo))).length = 9 + 2 * tg.u16CoilsNo
      ∧ m'.au8Buffer.length = 64
      ∧ m'.u8state = COM_WAITING := by
  obtain ⟨m', h1', h2, h3, -, -, -, -, -, h9⟩ :=
    query_write_regs_eq m tg now hbuf hid hidle h1 h247 hf hQ hT
  have eA : tg.u16RegAdd / 256 % 256 = tg.u16RegAdd / 256 := Nat.mod_eq_of_lt (by omega)
  have eQ : tg.u16CoilsNo / 256 % 256 = tg.u16CoilsNo / 256 := Nat.mod_eq_of_lt (by omega)
  refine ⟨m', h1', ?_, ?_, h3.1, h9⟩
  · rw [h2, shr8, shr8, and_ff, and_ff, eA, eQ]
  · rw [frameOf_length, List.length_append, bigEndian_length, List.length_take,
      Nat.min_eq_left hT]
    simp only [List.length_cons, List.length_nil]
    omega

set_option maxRecDepth 20000 in
/-- C21 for the telegram `{node=5, function=16, start=10, quantity=3}` with the table
`[0x0001, 0xFFFF, 0x1234]`. -/
theorem query_write_regs_transmits_witness :
    ∃ m', (exampleNode 0 []).query ⟨5, 16, 10, 3, [0x0001, 0xFFFF, 0x1234]⟩ 100 = .ok (0, m')
      ∧ m'.MODBUS_SERIAL.tx = (exampleNode 0 []).MODBUS_SERIAL.tx ++
          [frameOf ([5, 16, 10 >>> 8, 10 &&& 0xFF, 3 >>> 8, 3 &&& 0xFF, 2 * 3]
            ++ bigEndian (([0x0001, 0xFFFF, 0x1234] : List Nat).take 3))]
      ∧ (frameOf ([5, 16, 10 >>> 8, 10 &&& 0xFF, 3 >>> 8, 3 &&& 0xFF, 2 * 3]
            ++ bigEndian (([0x0001, 0xFFFF, 0x1234] : List Nat).take 3))).length = 9 + 2 * 3
      ∧ m'.au8Buffer.length = 64
      ∧ m'.u8state = COM_WAITING :=
  query_write_regs_transmits (exampleNode 0 []) ⟨5, 16, 10, 3, [0x0001, 0xFFFF, 0x1234]⟩ 100
    (by decide) (by decide) (by decide) (by decide) (by decide) (by decide) (by decide)
    (by decide) (by decide)

/-! ## Slave: write single coil (function 5) -/

/-- The range check of `validateRequest` for function 5 on a checksum-valid frame. -/
theorem validateRequest_write_coil (m : Modbus) (hbuf : bufferOK m.au8Buffer)
    (h2 : 2 ≤ m.u8BufferSize) (h64 : m.u8BufferSize ≤ 64)
    (hgood : validFrame (m.au8Buffer.take m.u8BufferSize))
    (hfun : m.au8Buffer.getD 1 0 = 5) :
    m.validateRequest = .ok
      (if word (m.au8Buffer.getD 2 0) (m.au8Buffer.getD 3 0) / 16 % 256 > m.u8regsize
        then EXC_ADDR_RANGE else 0, m) := by
  obtain ⟨hi, lo, crc, e1, e2, e3, hiff⟩ := crc_compare m hbuf h2 h64
  have hne : ¬ (crc ≠ ((hi <<< 8) ||| lo) % 65536) := fun h => hiff.1 h hgood
  have hlen : m.au8Buffer.length = 64 := hbuf.1
  have r1 := rdBuf_getD (show 1 < m.au8Buffer.length by omega)
  have r2 := rdBuf_getD (show 2 < m.au8Buffer.length by omega)
  have r3 := rdBuf_getD (show 3 < m.au8Buffer.length by omega)
  have hsup : isSupported (m.au8Buffer.getD 1 0) = true := by
    rw [isSupported_iff]; omega
  unfold validateRequest
  simp only [e1, e2, e3, hne, r1, r2, r3, bind, Except.bind, pure, Except.pure,
    show ¬ m.u8BufferSize < 2 by omega, if_false, hsup, FUNC, ADD_HI, ADD_LO, NB_HI, NB_LO,
    MB_FC_READ_COILS, MB_FC_READ_DISCRETE_INPUT, MB_FC_WRITE_MULTIPLE_COILS, MB_FC_WRITE_COIL,
    MB_FC_WRITE_REGISTER, MB_FC_READ_REGISTERS, MB_FC_READ_INPUT_REGISTER,
    MB_FC_WRITE_MULTIPLE_REGISTERS]
  simp only [hfun]
  simp
  split <;> rfl

/-- What `process_FC5` does for a coil inside the table: the bit of the coil is written and
the first six bytes of the buffer are sent back with their checksum. -/
theorem process_FC5_eq (m : Modbus) (now c : Nat) (hbuf : bufferOK m.au8Buffer)
    (hc : word (m.au8Buffer.getD 2 0) (m.au8Buffer.getD 3 0) = c)
    (hN : m.au16regs.length ≤ 255) (hrange : c < 16 * m.au16regs.length) :
    ∃ m', m.process_FC5 now = .ok (8, m')
      ∧ m'.MODBUS_SERIAL.tx = m.MODBUS_SERIAL.tx ++ [frameOf (m.au8Buffer.take 6)]
      ∧ m'.au16regs = m.au16regs.set (c / 16)
          (bitWrite 16 (m.au16regs.getD (c / 16) 0) (c % 16)
            (decide (m.au8Buffer.getD 4 0 = 0xff)))
      ∧ m'.u16errCnt = m.u16errCnt
      ∧ m'.u8id = m.u8id
      ∧ bufferOK m'.au8Buffer := by
  have hlen : m.au8Buffer.length = 64 := hbuf.1
  have r2 := rdBuf_getD (show 2 < m.au8Buffer.length by omega)
  have r3 := rdBuf_getD (show 3 < m.au8Buffer.length by omega)
  have r4 := rdBuf_getD (show 4 < m.au8Buffer.length by omega)
  have e2 : c / 16 % 256 = c / 16 := Nat.mod_eq_of_lt (by omega)
  have e3 : c % 16 % 256 = c % 16 := Nat.mod_eq_of_lt (by omega)
  unfold process_FC5
  simp only [ADD_HI, ADD_LO, NB_HI, r2, r3, r4, hc, e2, e3, bind, Except.bind]
  rw [rdReg_getD (by omega)]
  simp only []
  rw [wrReg_ok _ (by omega),
    Nat.mod_eq_of_lt (show bitWrite 16 _ _ _ < 65536 from bitWrite_lt 16 _ _ _)]
  simp only []
  rw [sendTxBuffer_eq { m with
    au16regs := m.au16regs.set (c / 16)
      (bitWrite 16 (m.au16regs.getD (c / 16) 0) (c % 16) (decide (m.au8Buffer.getD 4 0 = 0xff)))
    u8BufferSize := 6 } now hbuf (show 6 + 2 ≤ 64 by decide)]
  simp only [pure, Except.pure]
  refine ⟨_, rfl, rfl, rfl, rfl, rfl, ?_⟩
  show bufferOK (frameOf (List.take 6 m.au8Buffer) ++ List.drop (6 + 2) m.au8Buffer)
  have hfl : (frameOf (List.take 6 m.au8Buffer)).length = 6 + 2 := by
    rw [frameOf_length, List.length_take, hlen]; rfl
  have := bufferOK_append_drop (frameOf (List.take 6 m.au8Buffer)) hbuf
    (frameOf_lt _ (fun b hb => hbuf.2 b (List.mem_of_mem_take hb))) (by rw [hfl]; decide)
  rw [hfl] at this
  exact this
/-- C22: for every slave with a table `T` of `N ≤ 255` 16-bit words and every checksum-valid
8-byte function-5 request `[id, 5, c>>8, c&0xFF, vh, vl, crc_lo, crc_hi]` addressed to it with
`c < 16 N`: poll returns 8, the table afterwards is `T` with word `c div 16` replaced by a
16-bit word `w` that agrees with the old word in every bit except bit `c mod 16`, that bit is 1
if and only if `vh = 0xFF`, and the transmitted response is the request, byte for byte. -/
theorem poll_regs_write_coil (s : Modbus) (T : List Nat) (sid c vh vl N t1 t2 fuel : Nat)
    (hbuf : bufferOK s.au8Buffer) (hsid : s.u8id = sid) (hs256 : sid < 256)
    (hN : T.length = N) (hN255 : N ≤ 255) (hc : c < 16 * N)
    (hvh : vh < 256) (hvl : vl < 256) (hT : T35 ≤ sub32 t2 t1) :
    ∃ s1 w, (received s (frameOf [sid, 5, c / 256, c % 256, vh, vl]) t1).poll_regs T N t2 fuel
          = .ok (8, s1)
      ∧ s1.MODBUS_SERIAL.tx = s.MODBUS_SERIAL.tx ++ [frameOf [sid, 5, c / 256, c % 256, vh, vl]]
      ∧ s1.au16regs = T.set (c / 16) w
      ∧ w < 65536
      ∧ (∀ j, j < 16 → w.testBit j
          = if j = c % 16 then decide (vh = 0xFF) else (T.getD (c / 16) 0).testBit j) := by
  have hp : ∀ b ∈ [sid, 5, c / 256, c % 256, vh, vl], b < 256 := by
    intro b hb
    simp only [List.mem_cons, List.mem_singleton, List.not_mem_nil, or_false] at hb
    rcases hb with h | h | h | h | h | h <;> omega
  have hfb := frameOf_lt _ hp
  have hfl : (frameOf [sid, 5, c / 256, c % 256, vh, vl]).length = 8 := rfl
  rw [poll_regs_received s _ T t1 N t2 fuel hbuf hfb (by rw [hfl]; decide) (by rw [hfl]; decide)
    hT]
  generalize hs0 : afterRx (withTable (received s
    (frameOf [sid, 5, c / 256, c % 256, vh, vl]) t1) T N)
    (frameOf [sid, 5, c / 256, c % 256, vh, vl]) = s0
  have hb0 : bufferOK s0.au8Buffer := by
    rw [← hs0]; exact bufferOK_afterRx _ _ hbuf hfb (by rw [hfl]; decide)
  have g : ∀ i, i < 6 → s0.au8Buffer.getD i 0
      = [sid, 5, c / 256, c % 256, vh, vl].getD i 0 := by
    intro i hi
    rw [← hs0, getD_afterRx _ _ i (by rw [hfl]; omega), getD_frameOf _ i (by simpa using hi)]
  have g0 : s0.au8Buffer.getD 0 0 = sid := g 0 (by decide)
  have g1 : s0.au8Buffer.getD 1 0 = 5 := g 1 (by decide)
  have g2 : s0.au8Buffer.getD 2 0 = c / 256 := g 2 (by decide)
  have g3 : s0.au8Buffer.getD 3 0 = c % 256 := g 3 (by decide)
  have g4 : s0.au8Buffer.getD 4 0 = vh := g 4 (by decide)
  have g5 : s0.au8Buffer.getD 5 0 = vl := g 5 (by decide)
  have hsz : s0.u8BufferSize = 8 := by rw [← hs0]; rfl
  have hid0 : s0.u8id = sid := by rw [← hs0]; exact hsid
  have hreg : s0.au16regs = T := by rw [← hs0]; rfl
  have hrs : s0.u8regsize = N := by rw [← hs0]; exact Nat.mod_eq_of_lt (by omega)
  have htx : s0.MODBUS_SERIAL.tx = s.MODBUS_SERIAL.tx := by rw [← hs0]; rfl
  have hgood : validFrame (s0.au8Buffer.take s0.u8BufferSize) := by
    rw [← hs0, take_afterRx]; exact validFrame_frameOf _
  have wA : word (s0.au8Buffer.getD 2 0) (s0.au8Buffer.getD 3 0) = c := by
    rw [g2, g3, word_eq (by omega) (by omega)]; omega
  have hv := validateRequest_write_coil { s0 with u8lastError := toUInt8 ((8 : Nat) : Int) } hb0
    (show 2 ≤ s0.u8BufferSize by omega) (show s0.u8BufferSize ≤ 64 by omega) hgood g1
  rw [if_neg (by
    show ¬ word (s0.au8Buffer.getD 2 0) (s0.au8Buffer.getD 3 0) / 16 % 256 > s0.u8regsize
    rw [wA, hrs]; omega)] at hv
  rw [hfl, poll_regs_frame_dispatch s0 8 t2 fuel hb0 (by decide) hsz (by rw [g0, hid0]) hv, g1]
  simp only [show ¬ ((5 : Nat) = 1 ∨ (5 : Nat) = 2) by decide,
    show ¬ ((5 : Nat) = 4 ∨ (5 : Nat) = 3) by decide, if_false, if_true]
  obtain ⟨s1, h1, h2, h3, -⟩ := process_FC5_eq
    { s0 with u32timeOut := t2 % 4294967296, u8lastError := 0 } t2 c hb0 wA
    (by show s0.au16regs.length ≤ 255; rw [hreg, hN]; exact hN255)
    (by show c < 16 * s0.au16regs.length; rw [hreg, hN]; exact hc)
  refine ⟨s1, bitWrite 16 (T.getD (c / 16) 0) (c % 16) (decide (vh = 0xFF)), h1, ?_, ?_,
    bitWrite_lt 16 _ _ _, ?_⟩
  · rw [h2]
    show s0.MODBUS_SERIAL.tx ++ [frameOf (s0.au8Buffer.take 6)] = _
    rw [take6_eq _ (by rw [hb0.1]; decide), htx, g0, g1, g2, g3, g4, g5]
  · rw [h3]
    show s0.au16regs.set (c / 16) (bitWrite 16 (s0.au16regs.getD (c / 16) 0) (c % 16)
      (decide (s0.au8Buffer.getD 4 0 = 0xff))) = _
    rw [hreg, g4]
  · intro j hj
    exact bitWrite_testBit 16 _ _ _ _ (by omega) hj

set_option maxRecDepth 20000 in
/-- C22 on slave 5 with the table `[0xA5C3, 0x0F0F]`: coil 20 is switched on by the value
`FF 00`. -/
theorem poll_regs_write_coil_witness :
    ∃ s1 w, (received (exampleNode 5 []) (frameOf [5, 5, 20 / 256, 20 % 256, 0xFF, 0x00])
          0).poll_regs [0xA5C3, 0x0F0F] 2 5 0 = .ok (8, s1)
      ∧ s1.MODBUS_SERIAL.tx = (exampleNode 5 []).MODBUS_SERIAL.tx
          ++ [frameOf [5, 5, 20 / 256, 20 % 256, 0xFF, 0x00]]
      ∧ s1.au16regs = ([0xA5C3, 0x0F0F] : List Nat).set (20 / 16) w
      ∧ w < 65536
      ∧ (∀ j, j < 16 → w.testBit j
          = if j = 20 % 16 then decide ((0xFF : Nat) = 0xFF)
            else (([0xA5C3, 0x0F0F] : List Nat).getD (20 / 16) 0).testBit j) :=
  poll_regs_write_coil (exampleNode 5 []) [0xA5C3, 0x0F0F] 5 20 0xFF 0x00 2 0 5 0 (by decide) rfl
    (by decide) rfl (by decide) (by decide) (by decide) (by decide) (by decide)

/-! ## Receiving: the capacity of the frame buffer -/

/-- What `getRxBuffer` does with exactly 64 pending bytes: they fill the buffer, the overflow
flag is raised with the last of them and the error counter is incremented. -/
theorem getRxBuffer_full (m : Modbus) (hbuf : bufferOK m.au8Buffer)
    (hrx : ∀ b ∈ m.MODBUS_SERIAL.rx, b < 256) (hlen : m.MODBUS_SERIAL.rx.length = 64) :
    m.getRxBuffer = .ok (ERR_BUFF_OVERFLOW, { m with
      MODBUS_SERIAL := { m.MODBUS_SERIAL with rx := [] }
      txen := if m.u8txenpin > 1 then false else m.txen
      au8Buffer := m.MODBUS_SERIAL.rx
      u8BufferSize := 64
      u16InCnt := (m.u16InCnt + 1) % 65536
      u16errCnt := (m.u16errCnt + 1) % 65536 }) := by
  have hl := getRxBuffer_loop_full m.MODBUS_SERIAL.rx hrx m.au8Buffer 0 false hbuf.1
    (by omega) (by omega)
  rw [List.take_zero, List.nil_append] at hl
  unfold getRxBuffer
  by_cases hp : m.u8txenpin > 1
  · simp only [hp, if_true]
    rw [show getRxBuffer_loop m.MODBUS_SERIAL.rx m.au8Buffer 0 false = .ok (_, 64, true) from hl]
    rfl
  · simp only [hp, if_false]
    rw [hl]
    rfl

/-- C23 as amended: `getRxBuffer` returns the number of bytes read whenever the transport held
at most 63 bytes, and returns `ERR_BUFF_OVERFLOW` (-3), incrementing the error counter, when
the transport held exactly 64 bytes; in both cases the pending bytes have been moved to the
start of `au8Buffer` and `u8BufferSize` is their number. -/
theorem getRxBuffer_result (m : Modbus) (hbuf : bufferOK m.au8Buffer)
    (hrx : ∀ b ∈ m.MODBUS_SERIAL.rx, b < 256) (hlen : m.MODBUS_SERIAL.rx.length ≤ 64) :
    ∃ m', m.getRxBuffer
        = .ok (if m.MODBUS_SERIAL.rx.length = 64 then ERR_BUFF_OVERFLOW
            else (m.MODBUS_SERIAL.rx.length : Int), m')
      ∧ m'.u16errCnt
          = (if m.MODBUS_SERIAL.rx.length = 64 then (m.u16errCnt + 1) % 65536 else m.u16errCnt)
      ∧ m'.MODBUS_SERIAL.rx = []
      ∧ m'.au8Buffer = m.MODBUS_SERIAL.rx ++ m.au8Buffer.drop m.MODBUS_SERIAL.rx.length
      ∧ m'.u8BufferSize = m.MODBUS_SERIAL.rx.length := by
  by_cases h64 : m.MODBUS_SERIAL.rx.length = 64
  · rw [getRxBuffer_full m hbuf hrx h64, if_pos h64, if_pos h64]
    refine ⟨_, rfl, rfl, rfl, ?_, h64.symm⟩
    show m.MODBUS_SERIAL.rx = _
    rw [List.drop_of_length_le (by rw [h64, hbuf.1]), List.append_nil]
  · rw [getRxBuffer_eq m hbuf hrx (by omega), if_neg h64, if_neg h64]
    exact ⟨_, rfl, rfl, rfl, rfl, rfl⟩

set_option maxRecDepth 20000 in
/-- C23 as amended, on a node with the three bytes `01 02 03` pending. -/
theorem getRxBuffer_result_witness :
    ∃ m', ({ exampleNode 5 [] with MODBUS_SERIAL := { rx := [1, 2, 3], tx := [] } } :
          Modbus).getRxBuffer
        = .ok (if ([1, 2, 3] : List Nat).length = 64 then ERR_BUFF_OVERFLOW
            else (([1, 2, 3] : List Nat).length : Int), m')
      ∧ m'.u16errCnt = (if ([1, 2, 3] : List Nat).length = 64 then (0 + 1) % 65536 else 0)
      ∧ m'.MODBUS_SERIAL.rx = []
      ∧ m'.au8Buffer = [1, 2, 3] ++ (exampleNode 5 []).au8Buffer.drop ([1, 2, 3] : List Nat).length
      ∧ m'.u8BufferSize = ([1, 2, 3] : List Nat).length :=
  getRxBuffer_result { exampleNode 5 [] with MODBUS_SERIAL := { rx := [1, 2, 3], tx := [] } }
    (by decide) (by decide) (by decide)

set_option maxRecDepth 20000 in
/-- C23 as stated fails at the capacity itself: with exactly 64 bytes pending, which fit the
64-byte buffer, `getRxBuffer` returns -3 and counts an error instead of returning 64. -/
theorem getRxBuffer_at_capacity :
    (List.replicate 64 0xAA).length = 64
      ∧ (({ exampleNode 5 [] with MODBUS_SERIAL := { rx := List.replicate 64 0xAA, tx := [] } } :
          Modbus).getRxBuffer).map (fun r => (r.1, r.2.u16errCnt, r.2.au8Buffer))
        = .ok (-3, 1, List.replicate 64 0xAA) := by
  refine ⟨rfl, ?_⟩
  rfl

/-- The receive loop does not stop at the end of the buffer: with more pending bytes than the
buffer has room left, it stores at index 64. -/
theorem getRxBuffer_loop_over (rx : List Nat) :
    ∀ (buf : List Nat) (size : Nat) (ovf : Bool), buf.length = 64 → size ≤ 64 →
      64 < size + rx.length → getRxBuffer_loop rx buf size ovf = .error Fault.buffer := by
  induction rx with
  | nil => intro buf size ovf _ h1 h2; simp at h2; omega
  | cons b bs ih =>
    intro buf size ovf hlen hsz hover
    simp only [List.length_cons] at hover
    rw [getRxBuffer_loop]
    by_cases h : size < 64
    · rw [wrBuf_ok _ (by omega)]
      simp only [bind, Except.bind]
      rw [Nat.mod_eq_of_lt (show size + 1 < 256 by omega)]
      exact ih _ _ _ (by rw [List.length_set]; exact hlen) (by omega) (by omega)
    · have : ¬ size < buf.length := by omega
      simp [wrBuf, this, bind, Except.bind, throw, throwThe, MonadExceptOf.throw]

/-- With more than 64 bytes pending, `getRxBuffer` leaves defined behaviour by a store outside
`au8Buffer`. -/
theorem getRxBuffer_over (m : Modbus) (hlen : m.au8Buffer.length = 64)
    (hover : 64 < m.MODBUS_SERIAL.rx.length) : m.getRxBuffer = .error Fault.buffer := by
  have hl := getRxBuffer_loop_over m.MODBUS_SERIAL.rx m.au8Buffer 0 false hlen (by omega)
    (by omega)
  unfold getRxBuffer
  by_cases hp : m.u8txenpin > 1
  · simp only [hp, if_true]
    rw [show getRxBuffer_loop m.MODBUS_SERIAL.rx m.au8Buffer 0 false = .error Fault.buffer
      from hl]
    rfl
  · simp only [hp, if_false]
    rw [hl]
    rfl

set_option maxRecDepth 20000 in
/-- C27 fails on the code: the loop of `getRxBuffer` has no bound, `bBuffOverflow` is only a
flag.  With 65 bytes pending on a node whose buffer has its 64 bytes, the 65th byte is stored
at `au8Buffer[64]`, outside the buffer (`Fault.buffer`); the first 64 stores fill indices
0..63, and the store the loop makes next is the one at index 64. -/
theorem getRxBuffer_stores_past_buffer :
    (exampleNode 5 []).au8Buffer.length = 64
      ∧ ({ exampleNode 5 [] with MODBUS_SERIAL := { rx := List.replicate 65 0xAA, tx := [] } } :
          Modbus).getRxBuffer = .error Fault.buffer
      ∧ getRxBuffer_loop (List.replicate 64 0xAA) (exampleNode 5 []).au8Buffer 0 false
          = .ok (List.replicate 64 0xAA, 64, true)
      ∧ wrBuf (List.replicate 64 0xAA) 64 0xAA = .error Fault.buffer := by
  refine ⟨rfl, ?_, ?_, rfl⟩
  · exact getRxBuffer_over _ rfl (by decide)
  · rfl

/-! ## Slave: the value `poll(regs, size)` returns -/

set_option maxRecDepth 20000 in
/-- C25 fails on the code, which here departs from its own comment (`@return 0 if no query,
1..4 if communication error, >4 if correct query processed`).  Slave 5 with a table of three
words: on the released 6-byte frame `05 03 00 00 00 01` (too short to carry a checksum) poll
returns 6, a value greater than 4, although no query was processed and nothing was transmitted;
on the 8-byte frame `05 03 00 00 00 01 00 00`, whose checksum is wrong, it returns -1, which is
neither 0 nor in 1..4. -/
theorem poll_regs_return_value_classes :
    ((received (exampleNode 5 []) [0x05, 0x03, 0x00, 0x00, 0x00, 0x01] 0).poll_regs
        [10, 20, 30] 3 5 0).map (fun r => (r.1, r.2.MODBUS_SERIAL.tx, r.2.u16OutCnt, r.2.au16regs))
        = .ok (6, [], 0, [10, 20, 30])
      ∧ ¬ validFrame [0x05, 0x03, 0x00, 0x00, 0x00, 0x01, 0x00, 0x00]
      ∧ ((received (exampleNode 5 []) [0x05, 0x03, 0x00, 0x00, 0x00, 0x01, 0x00, 0x00] 0).poll_regs
        [10, 20, 30] 3 5 0).map (fun r => (r.1, r.2.MODBUS_SERIAL.tx, r.2.u16OutCnt))
        = .ok (-1, [], 0) := by
  refine ⟨?_, by decide, ?_⟩
  · rfl
  · rfl

/-! ## Slave: the loop of `process_FC3` -/

/-- When `u8StartAdd + u8regsno` is 256 or more, the test `i < u8StartAdd + u8regsno` holds for
every value of the `uint8_t` counter: the loop never ends by its test, whatever the budget. -/
theorem process_FC3_loop_never_exits (regs : List Nat) (last : Nat) (hlast : 256 ≤ last) :
    ∀ (fuel i : Nat) (buf : List Nat) (size : Nat), i < 256 →
      ∃ e, process_FC3_loop regs last fuel i buf size = .error e := by
  intro fuel
  induction fuel with
  | zero =>
    intro i buf size hi
    exact ⟨Fault.fuel, by simp [process_FC3_loop, show i < last by omega, throw, throwThe,
      MonadExceptOf.throw]⟩
  | succ fuel ih =>
    intro i buf size hi
    rw [process_FC3_loop, if_pos (show i < last by omega)]
    simp only [bind, Except.bind]
    cases h1 : rdReg regs i with
    | error e => exact ⟨e, rfl⟩
    | ok r =>
      simp only []
      cases h2 : wrBuf buf size (highByte r) with
      | error e => exact ⟨e, rfl⟩
      | ok buf1 =>
        simp only []
        cases h3 : wrBuf buf1 ((size + 1) % 256) (lowByte r) with
        | error e => exact ⟨e, rfl⟩
        | ok buf2 =>
          simp only []
          exact ih ((i + 1) % 256) buf2 _ (Nat.mod_lt _ (by decide))

/-- Whatever the budget, `process_FC3` does not return when the start address and the quantity
of the request, each narrowed to `uint8_t`, add up to 256 or more. -/
theorem process_FC3_never_returns (m : Modbus) (now fuel : Nat) (hbuf : bufferOK m.au8Buffer)
    (hsum : 256 ≤ word (m.au8Buffer.getD 2 0) (m.au8Buffer.getD 3 0) % 256
      + word (m.au8Buffer.getD 4 0) (m.au8Buffer.getD 5 0) % 256) :
    ∃ e, m.process_FC3 now fuel = .error e := by
  have hlen : m.au8Buffer.length = 64 := hbuf.1
  have r2 := rdBuf_getD (show 2 < m.au8Buffer.length by omega)
  have r3 := rdBuf_getD (show 3 < m.au8Buffer.length by omega)
  have r4 := rdBuf_getD (show 4 < m.au8Buffer.length by omega)
  have r5 := rdBuf_getD (show 5 < m.au8Buffer.length by omega)
  unfold process_FC3
  simp only [ADD_HI, ADD_LO, NB_HI, NB_LO, r2, r3, r4, r5, bind, Except.bind]
  rw [wrBuf_ok _ (by omega)]
  simp only []
  obtain ⟨e, he⟩ := process_FC3_loop_never_exits m.au16regs _ hsum fuel
    (word (m.au8Buffer.getD 2 0) (m.au8Buffer.getD 3 0) % 256)
    (m.au8Buffer.set 2 (word (m.au8Buffer.getD 4 0) (m.au8Buffer.getD 5 0) % 256 * 2 % 256)) 3
    (Nat.mod_lt _ (by decide))
  rw [he]
  exact ⟨e, rfl⟩
set_option maxRecDepth 20000 in
/-- C26 fails on the code.  Slave 1 with a table of 255 words (declared size 255) receives the
checksum-valid request `01 03 00 C8 00 64` + CRC (function 3, start 200, quantity 100).
`validateRequest` narrows `200 + 100` to `uint8_t` (44) and lets it pass; in `process_FC3` the
loop `for (i = u8StartAdd; i < u8StartAdd + u8regsno; i++)` compares the `uint8_t` counter with
300 and can never end by its test.  For no iteration budget does the poll return: it runs out
of budget or, from 31 iterations on, stores outside `au8Buffer`. -/
theorem poll_regs_read_loop_never_exits :
    (∀ fuel, ∃ e, (received (exampleNode 1 []) (frameOf [1, 3, 0, 200, 0, 100]) 0).poll_regs
        (List.replicate 255 0) 255 5 fuel = .error e)
      ∧ (received (exampleNode 1 []) (frameOf [1, 3, 0, 200, 0, 100]) 0).poll_regs
          (List.replicate 255 0) 255 5 30 = .error Fault.fuel
      ∧ (received (exampleNode 1 []) (frameOf [1, 3, 0, 200, 0, 100]) 0).poll_regs
          (List.replicate 255 0) 255 5 31 = .error Fault.buffer := by
  refine ⟨?_, ?_, ?_⟩
  · intro fuel
    have hfb : ∀ b ∈ frameOf [1, 3, 0, 200, 0, 100], b < 256 := by decide
    rw [poll_regs_received (exampleNode 1 []) _ (List.replicate 255 0) 0 255 5 fuel (by decide)
      hfb (by decide) (by decide) (by decide)]
    generalize hs0 : afterRx (withTable (received (exampleNode 1 [])
      (frameOf [1, 3, 0, 200, 0, 100]) 0) (List.replicate 255 0) 255)
      (frameOf [1, 3, 0, 200, 0, 100]) = s0
    have hb0 : bufferOK s0.au8Buffer := by rw [← hs0]; decide
    have g0 : s0.au8Buffer.getD 0 0 = 1 := by rw [← hs0]; rfl
    have g1 : s0.au8Buffer.getD 1 0 = 3 := by rw [← hs0]; rfl
    have g2 : s0.au8Buffer.getD 2 0 = 0 := by rw [← hs0]; rfl
    have g3 : s0.au8Buffer.getD 3 0 = 200 := by rw [← hs0]; rfl
    have g4 : s0.au8Buffer.getD 4 0 = 0 := by rw [← hs0]; rfl
    have g5 : s0.au8Buffer.getD 5 0 = 100 := by rw [← hs0]; rfl
    have hsz : s0.u8BufferSize = 8 := by rw [← hs0]; rfl
    have hid0 : s0.u8id = 1 := by rw [← hs0]; rfl
    have hrs : s0.u8regsize = 255 := by rw [← hs0]; rfl
    have hgood : validFrame (s0.au8Buffer.take 8) := by
      rw [← hsz, ← hs0, take_afterRx]; exact validFrame_frameOf _
    rw [show (frameOf [1, 3, 0, 200, 0, 100]).length = 8 from rfl,
      poll_regs_frame_read_regs s0 8 5 fuel hb0 (by decide) (by decide) hsz
        (by rw [g0, hid0]) hgood (by rw [g1]; exact Or.inl rfl)
        (by rw [g2, g3, g4, g5, hrs]; decide)]
    exact process_FC3_never_returns _ 5 fuel hb0
      (by
        show 256 ≤ word (s0.au8Buffer.getD 2 0) (s0.au8Buffer.getD 3 0) % 256
          + word (s0.au8Buffer.getD 4 0) (s0.au8Buffer.getD 5 0) % 256
        rw [g2, g3, g4, g5]; decide)
  · rfl
  · rfl

/-! ## Faults and the error counter -/

theorem validateAnswer_exception (m : Modbus) (hbuf : bufferOK m.au8Buffer)
    (h2 : 2 ≤ m.u8BufferSize) (h64 : m.u8BufferSize ≤ 64)
    (hgood : validFrame (m.au8Buffer.take m.u8BufferSize))
    (hexc : m.au8Buffer.getD 1 0 &&& 0x80 ≠ 0) :
    m.validateAnswer
      = .ok (toUInt8 ERR_EXCEPTION, { m with u16errCnt := (m.u16errCnt + 1) % 65536 }) := by
  obtain ⟨hi, lo, crc, e1, e2, e3, hiff⟩ := crc_compare m hbuf h2 h64
  have hne : ¬ (crc ≠ ((hi <<< 8) ||| lo) % 65536) := fun h => hiff.1 h hgood
  have hlen : m.au8Buffer.length = 64 := hbuf.1
  have r1 := rdBuf_getD (show 1 < m.au8Buffer.length by omega)
  unfold validateAnswer
  simp only [e1, e2, e3, hne, r1, bind, Except.bind, pure, Except.pure,
    show ¬ m.u8BufferSize < 2 by omega, if_false, FUNC, hexc, ne_eq, not_false_eq_true, if_true]

theorem validateAnswer_unsupported (m : Modbus) (hbuf : bufferOK m.au8Buffer)
    (h2 : 2 ≤ m.u8BufferSize) (h64 : m.u8BufferSize ≤ 64)
    (hgood : validFrame (m.au8Buffer.take m.u8BufferSize))
    (hexc : m.au8Buffer.getD 1 0 &&& 0x80 = 0)
    (hfun : isSupported (m.au8Buffer.getD 1 0) = false) :
    m.validateAnswer
      = .ok (EXC_FUNC_CODE, { m with u16errCnt := (m.u16errCnt + 1) % 65536 }) := by
  obtain ⟨hi, lo, crc, e1, e2, e3, hiff⟩ := crc_compare m hbuf h2 h64
  have hne : ¬ (crc ≠ ((hi <<< 8) ||| lo) % 65536) := fun h => hiff.1 h hgood
  have hlen : m.au8Buffer.length = 64 := hbuf.1
  have r1 := rdBuf_getD (show 1 < m.au8Buffer.length by omega)
  unfold validateAnswer
  simp only [e1, e2, e3, hne, r1, bind, Except.bind, pure, Except.pure,
    show ¬ m.u8BufferSize < 2 by omega, if_false, FUNC, hexc, hfun, ne_eq, not_true_eq_false,
    Bool.not_false, if_true]

/-- The master's statements after `getRxBuffer` when `validateAnswer` reports `e ≠ 0`. -/
theorem poll_frame_rejected (m m1 : Modbus) (n e : Nat) (h6 : 6 ≤ n)
    (hv : m.validateAnswer = .ok (e, m1)) (he : e ≠ 0) :
    m.poll_frame (n : Int) = .ok (toInt8 e, { m1 with u8state := COM_IDLE }) := by
  unfold poll_frame
  simp only [show ¬ ((n : Int) < 6) by omega, if_false, hv, bind, Except.bind, ne_eq, he,
    not_false_eq_true, if_true, pure, Except.pure]

/-- The master poll on a released frame of exactly 64 bytes: `getRxBuffer` counts an error
and returns `ERR_BUFF_OVERFLOW`, and `poll()` counts a second one for the short result. -/
theorem poll_full_buffer (m : Modbus) (f : List Nat) (t now : Nat)
    (hbuf : bufferOK m.au8Buffer) (hf : ∀ b ∈ f, b < 256) (h64 : f.length = 64)
    (hT : T35 ≤ sub32 now t) (hwd : ¬ sub32 now m.u32timeOut > m.u16timeOut) :
    ∃ m', (received m f t).poll now = .ok (ERR_BUFF_OVERFLOW, m')
      ∧ m'.u16errCnt = ((m.u16errCnt + 1) % 65536 + 1) % 65536
      ∧ m'.u8state = COM_IDLE
      ∧ m'.au16regs = m.au16regs
      ∧ m'.MODBUS_SERIAL.tx = m.MODBUS_SERIAL.tx := by
  have hready : frameReady (received m f t) now := by
    refine ⟨?_, rfl, ?_⟩
    · show f.length % 256 ≠ 0
      omega
    · show T35 ≤ sub32 now (t % 4294967296)
      rw [sub32_mod]; exact hT
  rw [poll_eq_frame (received m f t) now hwd hready,
    getRxBuffer_full { received m f t with u8AnswerID := 0, u8lastRec := 0 } hbuf hf h64]
  exact ⟨_, rfl, rfl, rfl, rfl, rfl⟩

/-- The master poll on a released frame of fewer than 6 bytes: the byte count is returned and
one error counted. -/
theorem poll_short_frame (m : Modbus) (f : List Nat) (t now : Nat)
    (hbuf : bufferOK m.au8Buffer) (hf : ∀ b ∈ f, b < 256) (h0 : 0 < f.length) (h6 : f.length < 6)
    (hT : T35 ≤ sub32 now t) (hwd : ¬ sub32 now m.u32timeOut > m.u16timeOut) :
    ∃ m', (received m f t).poll now = .ok ((f.length : Int), m')
      ∧ m'.u16errCnt = (m.u16errCnt + 1) % 65536
      ∧ m'.u8state = COM_IDLE
      ∧ m'.au16regs = m.au16regs := by
  rw [poll_received m f t now hbuf hf h0 (by omega) hT hwd]
  unfold poll_frame
  simp only [show ((f.length : Nat) : Int) < 6 by omega, if_true, pure, Except.pure]
  exact ⟨_, rfl, rfl, rfl, rfl⟩
/-- The master poll on a released frame of 6 to 63 bytes that `validateAnswer` rejects with
an incremented error counter. -/
theorem poll_rejected_answer (m : Modbus) (f : List Nat) (t now e : Nat)
    (hbuf : bufferOK m.au8Buffer) (hf : ∀ b ∈ f, b < 256)
    (h6 : 6 ≤ f.length) (h63 : f.length ≤ 63) (hT : T35 ≤ sub32 now t)
    (hwd : ¬ sub32 now m.u32timeOut > m.u16timeOut) (he : e ≠ 0)
    (hv : ∀ x : Modbus, bufferOK x.au8Buffer → x.u8BufferSize = f.length →
      x.au8Buffer.take f.length = f →
      x.validateAnswer = .ok (e, { x with u16errCnt := (x.u16errCnt + 1) % 65536 })) :
    ∃ m', (received m f t).poll now = .ok (toInt8 e, m')
      ∧ m'.u16errCnt = (m.u16errCnt + 1) % 65536
      ∧ m'.u8state = COM_IDLE
      ∧ m'.au16regs = m.au16regs := by
  rw [poll_received m f t now hbuf hf (by omega) (by omega) hT hwd,
    poll_frame_rejected _ _ f.length e h6
      (hv (afterRx (withAnswerCleared (received m f t)) f)
        (bufferOK_afterRx (withAnswerCleared (received m f t)) f hbuf hf (by omega)) rfl
        (take_afterRx (withAnswerCleared (received m f t)) f)) he]
  exact ⟨_, rfl, rfl, rfl, rfl⟩

theorem getD_take_of_lt (l : List Nat) (n i : Nat) (h : i < n) :
    (l.take n).getD i 0 = l.getD i 0 := by
  simp [List.getD_eq_getElem?_getD, List.getElem?_take, h]

/-- C24 as amended: the faults of the master's `poll()` (no reply, buffer overflow, a frame
too short to be an answer, checksum mismatch, remote exception, unsupported function) and of
the slave's `poll(regs, size)` (buffer overflow, checksum mismatch, unsupported function)
increment the error counter: after the call it is the counter before plus one modulo `2^16`
(plus two for the master's buffer overflow, counted by `getRxBuffer` and by `poll()`). -/
theorem faults_increment_error_counter (m s : Modbus) (regs : List Nat)
    (t now u8size fuel : Nat)
    (hbm : bufferOK m.au8Buffer) (hbs : bufferOK s.au8Buffer) (hT : T35 ≤ sub32 now t) :
    (sub32 now m.u32timeOut > m.u16timeOut →
        ∃ m', m.poll now = .ok (0, m') ∧ m'.u8lastError = NO_REPLY
          ∧ m'.u16errCnt = (m.u16errCnt + 1) % 65536)
      ∧ (∀ f : List Nat, (∀ b ∈ f, b < 256) → ¬ sub32 now m.u32timeOut > m.u16timeOut →
          (f.length = 64 →
            ∃ m', (received m f t).poll now = .ok (ERR_BUFF_OVERFLOW, m')
              ∧ m'.u16errCnt = (m.u16errCnt + 2) % 65536)
          ∧ (0 < f.length → f.length < 6 →
            ∃ m', (received m f t).poll now = .ok ((f.length : Int), m')
              ∧ m'.u16errCnt = (m.u16errCnt + 1) % 65536)
          ∧ (6 ≤ f.length → f.length ≤ 63 → ¬ validFrame f →
            ∃ m', (received m f t).poll now = .ok (toInt8 NO_REPLY, m')
              ∧ m'.u16errCnt = (m.u16errCnt + 1) % 65536)
          ∧ (6 ≤ f.length → f.length ≤ 63 → validFrame f → f.getD 1 0 &&& 0x80 ≠ 0 →
            ∃ m', (received m f t).poll now = .ok (ERR_EXCEPTION, m')
              ∧ m'.u16errCnt = (m.u16errCnt + 1) % 65536)
          ∧ (6 ≤ f.length → f.length ≤ 63 → validFrame f → f.getD 1 0 &&& 0x80 = 0 →
            isSupported (f.getD 1 0) = false →
            ∃ m', (received m f t).poll now = .ok ((EXC_FUNC_CODE : Nat), m')
              ∧ m'.u16errCnt = (m.u16errCnt + 1) % 65536))
      ∧ (∀ f : List Nat, (∀ b ∈ f, b < 256) →
          (f.length = 64 →
            ∃ s', (received s f t).poll_regs regs u8size now fuel = .ok (ERR_BUFF_OVERFLOW, s')
              ∧ s'.u16errCnt = (s.u16errCnt + 1) % 65536)
          ∧ (7 ≤ f.length → f.length ≤ 63 → f.getD 0 0 = s.u8id → ¬ validFrame f →
            ∃ s', (received s f t).poll_regs regs u8size now fuel = .ok (toInt8 NO_REPLY, s')
              ∧ s'.u16errCnt = (s.u16errCnt + 1) % 65536)
          ∧ (7 ≤ f.length → f.length ≤ 63 → f.getD 0 0 = s.u8id → validFrame f →
            isSupported (f.getD 1 0) = false →
            ∃ s', (received s f t).poll_regs regs u8size now fuel
                = .ok ((EXC_FUNC_CODE : Nat), s')
              ∧ s'.u16errCnt = (s.u16errCnt + 1) % 65536)) := by
  refine ⟨?_, ?_, ?_⟩
  · intro hexp
    rw [poll_expired_eq m now hexp]
    exact ⟨_, rfl, rfl, rfl⟩
  · intro f hf hwd
    refine ⟨?_, ?_, ?_, ?_, ?_⟩
    · intro h64
      obtain ⟨m', h1, h2, -⟩ := poll_full_buffer m f t now hbm hf h64 hT hwd
      exact ⟨m', h1, by rw [h2]; omega⟩
    · intro h0 h6
      obtain ⟨m', h1, h2, -⟩ := poll_short_frame m f t now hbm hf h0 h6 hT hwd
      exact ⟨m', h1, h2⟩
    · intro h6 h63 hbad
      obtain ⟨m', h1, h2, -⟩ := poll_rejected_answer m f t now NO_REPLY hbm hf h6 h63 hT hwd
        (by decide)
        (fun x hx hsz htk => validateAnswer_bad_crc x hx (by omega) (by omega)
          (by rw [hsz, htk]; exact hbad))
      exact ⟨m', h1, h2⟩
    · intro h6 h63 hgood hexc
      obtain ⟨m', h1, h2, -⟩ := poll_rejected_answer m f t now (toUInt8 ERR_EXCEPTION) hbm hf
        h6 h63 hT hwd (by decide)
        (fun x hx hsz htk => validateAnswer_exception x hx (by omega) (by omega)
          (by rw [hsz, htk]; exact hgood)
          (by rw [← getD_take_of_lt x.au8Buffer f.length 1 (by omega), htk]; exact hexc))
      exact ⟨m', h1, h2⟩
    · intro h6 h63 hgood hexc hfun
      obtain ⟨m', h1, h2, -⟩ := poll_rejected_answer m f t now EXC_FUNC_CODE hbm hf
        h6 h63 hT hwd (by decide)
        (fun x hx hsz htk => validateAnswer_unsupported x hx (by omega) (by omega)
          (by rw [hsz, htk]; exact hgood)
          (by rw [← getD_take_of_lt x.au8Buffer f.length 1 (by omega), htk]; exact hexc)
          (by rw [← getD_take_of_lt x.au8Buffer f.length 1 (by omega), htk]; exact hfun))
      exact ⟨m', h1, h2⟩
  · intro f hf
    refine ⟨?_, ?_, ?_⟩
    · intro h64
      obtain ⟨s', h1, -, -, h4, -⟩ := poll_regs_full_buffer s f regs t u8size now fuel hbs hf
        h64 hT
      exact ⟨s', h1, h4⟩
    · intro h7 h63 haddr hbad
      rw [poll_regs_received s f regs t u8size now fuel hbs hf (by omega) (by omega) hT,
        poll_regs_frame_bad_crc (afterRx (withTable (received s f t) regs u8size) f)
          f.length now fuel
          (bufferOK_afterRx (withTable (received s f t) regs u8size) f hbs hf (by omega))
          h7 (by omega) rfl
          (by rw [getD_afterRx _ f 0 (by omega)]; exact haddr)
          (by rw [show f.length
                = (afterRx (withTable (received s f t) regs u8size) f).u8BufferSize from rfl,
              take_afterRx]; exact hbad)]
      exact ⟨_, rfl, rfl⟩
    · intro h7 h63 haddr hgood hfun
      have hid : s.u8id < 256 := by
        rw [← haddr, List.getD_eq_getElem?_getD, List.getElem?_eq_getElem (by omega)]
        exact hf _ (List.getElem_mem _)
      rw [poll_regs_received s f regs t u8size now fuel hbs hf (by omega) (by omega) hT]
      obtain ⟨s', h1, -, -, h4, -⟩ :=
        poll_regs_frame_unsupported (afterRx (withTable (received s f t) regs u8size) f)
          f.length now fuel
          (bufferOK_afterRx (withTable (received s f t) regs u8size) f hbs hf (by omega))
          h7 (by omega) rfl hid
          (by rw [getD_afterRx _ f 0 (by omega)]; exact haddr)
          (by rw [show f.length
                = (afterRx (withTable (received s f t) regs u8size) f).u8BufferSize from rfl,
              take_afterRx]; exact hgood)
          (by rw [getD_afterRx _ f 1 (by omega)]; exact hfun)
      exact ⟨s', h1, h4⟩
set_option maxRecDepth 20000 in
/-- C24 as amended, on a waiting master (timeout 1000 ms since time 0) and on slave 5: the
watchdog expired at time 5000; the answer `05 03 04 00 0A 00 14 00 00` with a wrong checksum;
the 6-byte exception-flagged frame `05 83 02 00` + CRC; and, on the slave, the request
`05 21 FF FF FF FF BD DD` with the unsupported function code `0x21`. -/
theorem faults_increment_error_counter_witness :
    (∃ m', ({ exampleNode 0 [] with u8state := COM_WAITING, au16regs := [0, 0] } : Modbus).poll
          5000 = .ok (0, m') ∧ m'.u8lastError = 255 ∧ m'.u16errCnt = 1)
      ∧ (∃ m', (received { exampleNode 0 [] with u8state := COM_WAITING, au16regs := [0, 0] }
          [0x05, 0x03, 0x04, 0x00, 0x0A, 0x00, 0x14, 0x00, 0x00] 110).poll 120 = .ok (-1, m')
          ∧ m'.u16errCnt = 1)
      ∧ (∃ m', (received { exampleNode 0 [] with u8state := COM_WAITING, au16regs := [0, 0] }
          (frameOf [0x05, 0x83, 0x02, 0x00]) 110).poll 120 = .ok (-5, m')
          ∧ m'.u16errCnt = 1)
      ∧ (∃ s', (received (exampleNode 5 []) [0x05, 0x21, 0xFF, 0xFF, 0xFF, 0xFF, 0xBD, 0xDD]
          110).poll_regs [10, 20, 30] 3 120 0 = .ok (1, s')
          ∧ s'.u16errCnt = 1) :=
  ⟨(faults_increment_error_counter
      { exampleNode 0 [] with u8state := COM_WAITING, au16regs := [0, 0] } (exampleNode 5 [])
      [10, 20, 30] 110 5000 3 0 (by decide) (by decide) (by decide)).1 (by decide),
    ((faults_increment_error_counter
      { exampleNode 0 [] with u8state := COM_WAITING, au16regs := [0, 0] } (exampleNode 5 [])
      [10, 20, 30] 110 120 3 0 (by decide) (by decide) (by decide)).2.1
        [0x05, 0x03, 0x04, 0x00, 0x0A, 0x00, 0x14, 0x00, 0x00] (by decide) (by decide)).2.2.1
        (by decide) (by decide) (by decide),
    ((faults_increment_error_counter
      { exampleNode 0 [] with u8state := COM_WAITING, au16regs := [0, 0] } (exampleNode 5 [])
      [10, 20, 30] 110 120 3 0 (by decide) (by decide) (by decide)).2.1
        (frameOf [0x05, 0x83, 0x02, 0x00]) (by decide) (by decide)).2.2.2.1
        (by decide) (by decide) (by decide) (by decide),
    ((faults_increment_error_counter
      { exampleNode 0 [] with u8state := COM_WAITING, au16regs := [0, 0] } (exampleNode 5 [])
      [10, 20, 30] 110 120 3 0 (by decide) (by decide) (by decide)).2.2
        [0x05, 0x21, 0xFF, 0xFF, 0xFF, 0xFF, 0xBD, 0xDD] (by decide)).2.2
        (by decide) (by decide) (by decide) (by decide) (by decide)⟩

set_option maxRecDepth 20000 in
/-- C24 as stated fails: a rejected query leaves the error counter as it was (a slave asked to
send, a master that is waiting, node address 0), and so does the slave's address-range
exception: slave 1 with table size 10 answers the request for 5 registers from address 8 with
exception 2, poll returns 2 and the error counter is still 0. -/
theorem faults_without_error_count :
    ((exampleNode 5 []).query ⟨7, 3, 0, 1, [0]⟩ 100).map (fun r => (r.1, r.2.u16errCnt))
        = .ok (-2, 0)
      ∧ (({ exampleNode 0 [] with u8state := COM_WAITING } : Modbus).query ⟨7, 3, 0, 1, [0]⟩
          100).map (fun r => (r.1, r.2.u16errCnt)) = .ok (-1, 0)
      ∧ ((exampleNode 0 []).query ⟨0, 3, 0, 1, [0]⟩ 100).map (fun r => (r.1, r.2.u16errCnt))
        = .ok (-3, 0)
      ∧ ((received (exampleNode 1 []) (frameOf [1, 3, 0, 8, 0, 5]) 0).poll_regs
          (List.replicate 10 0) 10 5 5).map
            (fun r => (r.1, lastTx r.2, r.2.u8lastError, r.2.u16errCnt))
        = .ok (2, [0x01, 0x83, 0x02, 0xC0, 0xF1], EXC_ADDR_RANGE, 0) := by
  refine ⟨rfl, rfl, rfl, ?_⟩
  rfl

/-! ## Master: the byte-count field of a read answer -/

set_option maxRecDepth 20000 in
/-- C28 fails on the code: `get_FC3` takes the number of words from the byte-count field of
the answer (`au8Buffer[2] / 2`), not from the quantity asked for.  The master asks node 5 for
one register (function 3):
* with a table of four entries and the checksum-valid 7-byte answer `05 03 08 00 0A` + CRC
  (byte count 8), it stores four words: entry 0 is `0x000A`, entry 1 is made of the two
  checksum bytes, entries 2 and 3 of the buffer bytes 7 to 10, which lie beyond the received
  frame (byte 7 is left over from the request);
* with a table of one entry and the answer `05 03 04 00 0A 00 14` + CRC it stores outside the
  table;
* with a table of 200 entries and byte count 254 it reads outside `au8Buffer`. -/
theorem poll_read_answer_trusts_byte_count :
    (frameOf [5, 3, 8, 0, 10]).length = 7
      ∧ ((exampleNode 0 []).query ⟨5, 3, 0, 1, [0, 0, 0, 0]⟩ 100).bind (fun q =>
          ((received q.2 (frameOf [5, 3, 8, 0, 10]) 110).poll 120).map (fun r =>
            (r.1, r.2.au16regs))) = .ok (7, [0x000A, 0xE981, 0x8E00, 0x0000])
      ∧ ((exampleNode 0 []).query ⟨5, 3, 0, 1, [0]⟩ 100).bind (fun q =>
          (received q.2 (frameOf [5, 3, 4, 0, 10, 0, 20]) 110).poll 120)
          = .error Fault.regs
      ∧ ((exampleNode 0 []).query ⟨5, 3, 0, 1, List.replicate 200 0⟩ 100).bind (fun q =>
          (received q.2 (frameOf [5, 3, 254, 0, 10]) 110).poll 120)
          = .error Fault.buffer := by
  refine ⟨rfl, ?_, ?_, ?_⟩
  · rfl
  · rfl
  · rfl

/-! ## Silence-based framing -/

/-- The master's `poll()` when the silence rule releases no frame: it returns 0 and the
stream and the frame buffer are as before. -/
theorem poll_not_ready (m : Modbus) (now : Nat) (hnf : ¬ frameReady m now) :
    ∃ m', m.poll now = .ok (0, m')
      ∧ m'.MODBUS_SERIAL = m.MODBUS_SERIAL
      ∧ m'.au8Buffer = m.au8Buffer
      ∧ m'.u8BufferSize = m.u8BufferSize := by
  unfold poll
  by_cases hwd : sub32 now m.u32timeOut > m.u16timeOut
  · simp only [hwd, if_true]
    exact ⟨_, rfl, rfl, rfl, rfl⟩
  simp only [hwd, if_false]
  by_cases h0 : m.MODBUS_SERIAL.rx.length % 256 = 0
  · simp only [h0, if_true]
    exact ⟨_, rfl, rfl, rfl, rfl⟩
  · by_cases h1 : m.MODBUS_SERIAL.rx.length % 256 = m.u8lastRec
    · have h2 : sub32 now m.u32time < T35 := by
        rcases Nat.lt_or_ge (sub32 now m.u32time) T35 with h | h
        · exact h
        · exact absurd ⟨h0, h1, h⟩ hnf
      simp only [h0, if_false, ne_eq, h1, not_true_eq_false, h2, if_true]
      rw [← h1]
      simp only [h0, if_false]
      exact ⟨_, rfl, rfl, rfl, rfl⟩
    · simp only [h0, if_false, ne_eq, h1, not_false_eq_true, if_true]
      exact ⟨_, rfl, rfl, rfl, rfl⟩

/-- The slave's `poll(regs, size)` when the silence rule releases no frame. -/
theorem poll_regs_not_ready (s : Modbus) (regs : List Nat) (u8size now fuel : Nat)
    (hnf : ¬ frameReady s now) :
    ∃ s', s.poll_regs regs u8size now fuel = .ok (0, s')
      ∧ s'.MODBUS_SERIAL = s.MODBUS_SERIAL
      ∧ s'.au8Buffer = s.au8Buffer
      ∧ s'.u8BufferSize = s.u8BufferSize := by
  unfold poll_regs
  by_cases h0 : s.MODBUS_SERIAL.rx.length % 256 = 0
  · simp only [h0, if_true]
    exact ⟨_, rfl, rfl, rfl, rfl⟩
  · by_cases h1 : s.MODBUS_SERIAL.rx.length % 256 = s.u8lastRec
    · have h2 : sub32 now s.u32time < T35 := by
        rcases Nat.lt_or_ge (sub32 now s.u32time) T35 with h | h
        · exact h
        · exact absurd ⟨h0, h1, h⟩ hnf
      simp only [h0, if_false, ne_eq, h1, not_true_eq_false, h2, if_true]
      rw [← h1]
      simp only [h0, if_false]
      exact ⟨_, rfl, rfl, rfl, rfl⟩
    · simp only [h0, if_false, ne_eq, h1, not_false_eq_true, if_true]
      exact ⟨_, rfl, rfl, rfl, rfl⟩

/-- C29 as amended: with at most 255 bytes available on the transport (the count is read into
a `uint8_t`), a call of `poll()` or `poll(regs, size)` moves bytes from the transport to the
frame buffer only if the available count is non-zero, equals the recorded count `u8lastRec`,
and at least `T35` ms have elapsed since `u32time`, the time the count was last recorded:
whenever one of these fails the call returns 0 with the stream and the frame buffer untouched.
If the count is non-zero and differs from the recorded one (and, for `poll()`, the watchdog has
not expired), the call records the new count, restarts the timer and returns 0 without
consuming a byte. -/
theorem silence_framing (m s : Modbus) (regs : List Nat) (u8size now fuel : Nat)
    (hm : m.MODBUS_SERIAL.rx.length ≤ 255) (hs : s.MODBUS_SERIAL.rx.length ≤ 255) :
    (¬ (m.MODBUS_SERIAL.rx.length ≠ 0 ∧ m.MODBUS_SERIAL.rx.length = m.u8lastRec
          ∧ T35 ≤ sub32 now m.u32time) →
        ∃ m', m.poll now = .ok (0, m') ∧ m'.MODBUS_SERIAL = m.MODBUS_SERIAL
          ∧ m'.au8Buffer = m.au8Buffer ∧ m'.u8BufferSize = m.u8BufferSize)
      ∧ (¬ (s.MODBUS_SERIAL.rx.length ≠ 0 ∧ s.MODBUS_SERIAL.rx.length = s.u8lastRec
          ∧ T35 ≤ sub32 now s.u32time) →
        ∃ s', s.poll_regs regs u8size now fuel = .ok (0, s')
          ∧ s'.MODBUS_SERIAL = s.MODBUS_SERIAL
          ∧ s'.au8Buffer = s.au8Buffer ∧ s'.u8BufferSize = s.u8BufferSize)
      ∧ (¬ sub32 now m.u32timeOut > m.u16timeOut → m.MODBUS_SERIAL.rx.length ≠ 0 →
          m.MODBUS_SERIAL.rx.length ≠ m.u8lastRec →
        ∃ m', m.poll now = .ok (0, m')
          ∧ m'.u8lastRec = m.MODBUS_SERIAL.rx.length
          ∧ m'.u32time = now % 4294967296
          ∧ m'.MODBUS_SERIAL = m.MODBUS_SERIAL
          ∧ m'.au8Buffer = m.au8Buffer ∧ m'.u8BufferSize = m.u8BufferSize)
      ∧ (s.MODBUS_SERIAL.rx.length ≠ 0 →
          s.MODBUS_SERIAL.rx.length ≠ s.u8lastRec →
        ∃ s', s.poll_regs regs u8size now fuel = .ok (0, s')
          ∧ s'.u8lastRec = s.MODBUS_SERIAL.rx.length
          ∧ s'.u32time = now % 4294967296
          ∧ s'.MODBUS_SERIAL = s.MODBUS_SERIAL
          ∧ s'.au8Buffer = s.au8Buffer ∧ s'.u8BufferSize = s.u8BufferSize) := by
  have em : m.MODBUS_SERIAL.rx.length % 256 = m.MODBUS_SERIAL.rx.length :=
    Nat.mod_eq_of_lt (by omega)
  have es : s.MODBUS_SERIAL.rx.length % 256 = s.MODBUS_SERIAL.rx.length :=
    Nat.mod_eq_of_lt (by omega)
  refine ⟨?_, ?_, ?_, ?_⟩
  · intro hnf
    exact poll_not_ready m now (by unfold frameReady; rw [em]; exact hnf)
  · intro hnf
    exact poll_regs_not_ready s regs u8size now fuel (by unfold frameReady; rw [es]; exact hnf)
  · intro hwd h0 h1
    unfold poll
    simp only [hwd, if_false, em, h0, ne_eq, h1, not_false_eq_true, if_true]
    exact ⟨_, rfl, rfl, rfl, rfl, rfl, rfl⟩
  · intro h0 h1
    unfold poll_regs
    simp only [es, h0, if_false, ne_eq, h1, not_false_eq_true, if_true]
    exact ⟨_, rfl, rfl, rfl, rfl, rfl, rfl⟩

set_option maxRecDepth 20000 in
/-- C29 as amended, on a waiting master and on slave 5, each with three bytes pending that the
previous poll has not yet seen, polled at time 500: the count 3 and the time 500 are
recorded, and nothing is consumed. -/
theorem silence_framing_witness :
    (∃ m', ({ exampleNode 0 [] with
            u8state := COM_WAITING, MODBUS_SERIAL := { rx := [1, 2, 3], tx := [] } } :
          Modbus).poll 500 = .ok (0, m')
        ∧ m'.u8lastRec = 3 ∧ m'.u32time = 500
        ∧ m'.MODBUS_SERIAL = { rx := [1, 2, 3], tx := [] }
        ∧ m'.au8Buffer = List.replicate 64 0 ∧ m'.u8BufferSize = 0)
      ∧ (∃ s', ({ exampleNode 5 [] with MODBUS_SERIAL := { rx := [1, 2, 3], tx := [] } } :
          Modbus).poll_regs [10, 20, 30] 3 500 0 = .ok (0, s')
        ∧ s'.u8lastRec = 3 ∧ s'.u32time = 500
        ∧ s'.MODBUS_SERIAL = { rx := [1, 2, 3], tx := [] }
        ∧ s'.au8Buffer = List.replicate 64 0 ∧ s'.u8BufferSize = 0) :=
  ⟨(silence_framing
      { exampleNode 0 [] with
        u8state := COM_WAITING, MODBUS_SERIAL := { rx := [1, 2, 3], tx := [] } }
      { exampleNode 5 [] with MODBUS_SERIAL := { rx := [1, 2, 3], tx := [] } }
      [10, 20, 30] 3 500 0 (by decide) (by decide)).2.2.1 (by decide) (by decide) (by decide),
    (silence_framing
      { exampleNode 0 [] with
        u8state := COM_WAITING, MODBUS_SERIAL := { rx := [1, 2, 3], tx := [] } }
      { exampleNode 5 [] with MODBUS_SERIAL := { rx := [1, 2, 3], tx := [] } }
      [10, 20, 30] 3 500 0 (by decide) (by decide)).2.2.2 (by decide) (by decide)⟩

set_option maxRecDepth 20000 in
/-- C29 as stated fails where the count differs from the recorded one but the code does not
reach the comparison, or compares a narrowed count.
* A waiting master whose watchdog has expired (timeout 1000 ms since time 0, polled at 2000)
  with three unseen bytes pending returns 0 but keeps the recorded count 0 and the timer 0.
* A slave with nothing pending and the recorded count 3 returns 0 at `u8current == 0` and
  keeps the recorded count 3 and the timer.
* A slave with 256 bytes pending and the recorded count 7 reads the count into a `uint8_t` as
  0: it returns 0 and keeps the recorded count 7 and the timer.
* A slave with 259 bytes pending and the recorded count 3 reads the count as 3 and, the
  silence time having elapsed, enters `getRxBuffer` (which then stores beyond `au8Buffer`)
  although the available count differs from the recorded one. -/
theorem silence_framing_count_not_recorded :
    (({ exampleNode 0 [] with
          u8state := COM_WAITING, MODBUS_SERIAL := { rx := [1, 2, 3], tx := [] } } :
        Modbus).poll 2000).map (fun r => (r.1, r.2.u8lastRec, r.2.u32time, r.2.MODBUS_SERIAL.rx))
        = .ok (0, 0, 0, [1, 2, 3])
      ∧ (({ exampleNode 5 [] with u8lastRec := 3, u32time := 100 } : Modbus).poll_regs
          [10, 20, 30] 3 500 0).map (fun r => (r.1, r.2.u8lastRec, r.2.u32time))
        = .ok (0, 3, 100)
      ∧ (({ exampleNode 5 [] with
            MODBUS_SERIAL := { rx := List.replicate 256 0xAA, tx := [] }
            u8lastRec := 7, u32time := 100 } : Modbus).poll_regs
          [10, 20, 30] 3 500 0).map
            (fun r => (r.1, r.2.u8lastRec, r.2.u32time, r.2.MODBUS_SERIAL.rx.length))
        = .ok (0, 7, 100, 256)
      ∧ ({ exampleNode 5 [] with
            MODBUS_SERIAL := { rx := List.replicate 259 0xAA, tx := [] }
            u8lastRec := 3, u32time := 100 } : Modbus).poll_regs [10, 20, 30] 3 500 0
        = .error Fault.buffer := by
  refine ⟨rfl, rfl, ?_, ?_⟩
  · rfl
  · rfl

end ETT_ModbusRTU
